import Mathlib

/-!
Verification of the gpx GPX 1.1 decoder (a Go library).

The repository decodes GPX 1.1 XML documents into a typed model
(Document / Track / Segment / Point) and captures the raw token subtree of
each point `extensions` element for later re-parsing by extension codecs
(one codec is provided, for the Garmin TrackPointExtension).

The embedding works at the level of the XML token stream: the underlying
tokenizer (Go encoding/xml) is the external collaborator, so an input is a
list of structural tokens.  Go xml.Token values are start elements, end
elements, character data, and non-structural tokens (comments, processing
instructions, directives); the latter are modelled by one constructor
carrying opaque content, because the decoder treats them all alike.

The repository contains several near-duplicate revisions of the decoder.
Two are embedded here, following the claims under study:

* RevB: the tokenStream-based revision (second unit of unnamed/part_000),
  whose consumePoint uses tokenStream.consumeFloat / consumeTime / skipTag.
* RevD: the level-counting revision (second unit of unnamed/part_001),
  whose consumePoint drives its own consumeEle / consumeTime loops.

Numeric and timestamp parsing (strconv.ParseFloat, strconv.Atoi,
time.Parse) is the standard library, out of scope for the repository, so it
is abstracted by the structure Parsers below; theorems quantify over it and
concrete instances are supplied for witnesses.
-/

set_option maxHeartbeats 1000000
set_option linter.unusedVariables false

/-- XML qualified name: the Space and Local fields of an encoding/xml Name. -/
structure XName where
  space : String
  localName : String
deriving DecidableEq, Repr

/-- An XML attribute: its qualified name and its value. -/
abbrev Attr := XName × String

/-- One structural XML token, as produced by the external tokenizer.
`start`/`close` are xml.StartElement / xml.EndElement, `text` is
xml.CharData, and `other` stands for the remaining xml.Token kinds
(Comment, ProcInst, Directive) whose content the decoder never inspects
but does copy verbatim into extension buffers. -/
inductive XTok where
  | start (n : XName) (attrs : List Attr)
  | close (n : XName)
  | text (s : String)
  | other (s : String)
deriving DecidableEq, Repr

/-- External scalar parsers (Go standard library, out of the repository's
scope).  `parseFloat` models strconv.ParseFloat with 64 bits: `none` is a
parse error, in which case ParseFloat returns the zero value 0 (the syntax
error case; range errors returning infinities lie outside this rational
value model).  `parseTime` models time.Parse with the RFC3339Nano layout,
timestamps abstracted to Nat, `none` an error in which case the zero
time.Time (modelled 0) is returned.  `atoi` models the first return value
of strconv.Atoi, whose error the extension codec discards. -/
structure Parsers where
  parseFloat : String → Option Rat
  parseTime : String → Option Nat
  atoi : String → Int

/-- The GPX 1.1 namespace URI (const nsGPX11). -/
def nsGPX11 : String := "http://www.topografix.com/GPX/1/1"

/-- Metadata of a document (document.go): only the time child is decoded. -/
structure Metadata where
  Time : Nat := 0
deriving DecidableEq, Repr

/-- A track point (document.go).  Extensions holds the raw XML tokens of
the point extensions, excluding the wrapper tags; float64 values are
modelled as rationals, time.Time as Nat with 0 the zero time. -/
structure Point where
  Latitude : Rat := 0
  Longitude : Rat := 0
  Elevation : Rat := 0
  Time : Nat := 0
  Extensions : List XTok := []
deriving DecidableEq, Repr

/-- A track segment (document.go). -/
structure Segment where
  Points : List Point := []
deriving DecidableEq, Repr

/-- A track (document.go). -/
structure Track where
  Segments : List Segment := []
deriving DecidableEq, Repr

/-- A GPX document (document.go). -/
structure Document where
  Version : String := ""
  Metadata : Metadata := {}
  Tracks : List Track := []
deriving DecidableEq, Repr

/-- The closed taxonomy of decode errors.  Each constructor stands for one
distinct Go error value (or error family) produced by the decoders:
`badRootTag` and `gpx11Only` are ErrBadRootTag / ErrGPX11Only;
`unexpectedElement` is the tokenStream consumeString error (a leaf element
holding a nested element or a non-text token: the MalformedLeaf condition);
`invalidEleElem` / `invalidTimeElem` are the errors.New("gpx: invalid
<ele>") / ("gpx: invalid <time>") raised by the per-revision leaf loops on
a nested start element; `invalidLat` / `invalidLon` / `invalidEle` /
`invalidTime` are the fmt.Errorf strict-mode scalar parse failures;
`floatErr` / `timeErr` are the raw strconv.ParseFloat / time.Parse errors
that tokenStream.consumeFloat / consumeTime return unwrapped; `eof` is
io.EOF (or any tokenizer error) reaching the decoder. -/
inductive Err where
  | eof
  | badRootTag
  | gpx11Only
  | unexpectedElement
  | invalidLat
  | invalidLon
  | invalidEle
  | invalidEleElem
  | invalidTime
  | invalidTimeElem
  | floatErr
  | timeErr
deriving DecidableEq, Repr

/-- tokenStream.consumeString (tokens.go): accumulate character data until
the next end element at the current level; any other token kind (a start
element, or a comment-like token, through the switch default) is the error
"gpx: unexpected element while reading string". -/
def consumeString : List XTok → Except Err (String × List XTok)
  | [] => .error .eof
  | .text s :: rest =>
      match consumeString rest with
      | .ok (s2, r) => .ok (s ++ s2, r)
      | .error e => .error e
  | .close _ :: rest => .ok ("", rest)
  | .start _ _ :: _ => .error .unexpectedElement
  | .other _ :: _ => .error .unexpectedElement

/-- tokenStream.consumeTime (tokens.go): consumeString then time.Parse;
the parse error is returned unwrapped. -/
def consumeTime (E : Parsers) (l : List XTok) : Except Err (Nat × List XTok) :=
  match consumeString l with
  | .error e => .error e
  | .ok (s, r) =>
      match E.parseTime s with
      | some t => .ok (t, r)
      | none => .error .timeErr

/-- tokenStream.consumeFloat (tokens.go): consumeString then
strconv.ParseFloat; the parse error is returned unwrapped. -/
def consumeFloat (E : Parsers) (l : List XTok) : Except Err (Rat × List XTok) :=
  match consumeString l with
  | .error e => .error e
  | .ok (s, r) =>
      match E.parseFloat s with
      | some v => .ok (v, r)
      | none => .error .floatErr

/-- tokenStream.skipTag (tokens.go), with the nesting counter lvl explicit:
discard tokens, incrementing on start elements and decrementing on end
elements, returning just after the end element that would take the counter
negative. -/
def skipTagAux : Nat → List XTok → Except Err (List XTok)
  | _, [] => .error .eof
  | lvl, .start _ _ :: rest => skipTagAux (lvl + 1) rest
  | lvl, .close _ :: rest => if lvl = 0 then .ok rest else skipTagAux (lvl - 1) rest
  | lvl, .text _ :: rest => skipTagAux lvl rest
  | lvl, .other _ :: rest => skipTagAux lvl rest

/-- tokenStream.skipTag starts its counter at 0. -/
def skipTag (l : List XTok) : Except Err (List XTok) := skipTagAux 0 l

/-- consumeString leaves a strictly shorter stream on success (it consumes
at least the end element). -/
def consumeString_len : ∀ l s r, consumeString l = .ok (s, r) → r.length < l.length := by
  intro l
  induction l with
  | nil => intro s r h; simp [consumeString] at h
  | cons t rest ih =>
      intro s r h
      match t with
      | .text s0 =>
          rw [consumeString] at h
          cases hr : consumeString rest with
          | ok p =>
              rw [hr] at h
              obtain ⟨s2, r2⟩ := p
              simp at h
              have := ih s2 r2 hr
              simp [← h.2]
              omega
          | error e => rw [hr] at h; simp at h
      | .close n =>
          rw [consumeString] at h
          simp at h
          simp [← h.2]
      | .start n a => rw [consumeString] at h; simp at h
      | .other s0 => rw [consumeString] at h; simp at h

/-- consumeFloat leaves a strictly shorter stream on success. -/
def consumeFloat_len : ∀ E l v r, consumeFloat E l = .ok (v, r) → r.length < l.length := by
  intro E l v r h
  rw [consumeFloat] at h
  cases hs : consumeString l with
  | ok p =>
      obtain ⟨s, r2⟩ := p
      rw [hs] at h
      simp only [] at h
      cases hp : E.parseFloat s with
      | some w =>
          rw [hp] at h; simp at h
          obtain ⟨h1, h2⟩ := h
          subst h2
          exact consumeString_len l s _ hs
      | none => rw [hp] at h; simp at h
  | error e => rw [hs] at h; simp at h

/-- consumeTime leaves a strictly shorter stream on success. -/
def consumeTime_len : ∀ E l v r, consumeTime E l = .ok (v, r) → r.length < l.length := by
  intro E l v r h
  rw [consumeTime] at h
  cases hs : consumeString l with
  | ok p =>
      obtain ⟨s, r2⟩ := p
      rw [hs] at h
      simp only [] at h
      cases hp : E.parseTime s with
      | some w =>
          rw [hp] at h; simp at h
          obtain ⟨h1, h2⟩ := h
          subst h2
          exact consumeString_len l s _ hs
      | none => rw [hp] at h; simp at h
  | error e => rw [hs] at h; simp at h

/-- skipTagAux leaves a strictly shorter stream on success. -/
def skipTagAux_len : ∀ l lvl r, skipTagAux lvl l = .ok r → r.length < l.length := by
  intro l
  induction l with
  | nil => intro lvl r h; simp [skipTagAux] at h
  | cons t rest ih =>
      intro lvl r h
      match t with
      | .start n a =>
          rw [skipTagAux] at h
          have := ih (lvl + 1) r h
          simp; omega
      | .close n =>
          rw [skipTagAux] at h
          by_cases hl : lvl = 0
          · simp [hl] at h; simp [← h]
          · simp [hl] at h; have := ih (lvl - 1) r h; simp; omega
      | .text s0 =>
          rw [skipTagAux] at h
          have := ih lvl r h
          simp; omega
      | .other s0 =>
          rw [skipTagAux] at h
          have := ih lvl r h
          simp; omega

/-- findGPX (identical in both embedded revisions): skip tokens until the
first start element; its local name must be gpx (else ErrBadRootTag) and
its namespace must be the GPX 1.1 namespace (else ErrGPX11Only).  On
success the root name, its attributes and the remaining stream are
returned. -/
def findGPX : List XTok → Except Err (XName × List Attr × List XTok)
  | [] => .error .eof
  | .start n a :: rest =>
      if n.localName ≠ "gpx" then .error .badRootTag
      else if n.space ≠ nsGPX11 then .error .gpx11Only
      else .ok (n, a, rest)
  | .close _ :: rest => findGPX rest
  | .text _ :: rest => findGPX rest
  | .other _ :: rest => findGPX rest

/-- The version attribute loop at the top of consumeGPX: every attribute
whose local name is version overwrites Document.Version (the last one
wins); namespaces are not inspected. -/
def versionOf (attrs : List Attr) : String :=
  attrs.foldl (fun v a => if a.1.localName = "version" then a.2 else v) ""

/-- The trkpt attribute loop at the top of consumePoint (identical in both
embedded revisions): attributes with local name lat or lon are parsed as
floats; on success the coordinate is set, on failure it is left unchanged
unless strict mode makes it fatal (invalid lat / lon).  Other attributes
are ignored; later duplicates overwrite earlier ones. -/
def consumeAttrs (E : Parsers) (strict : Bool) : List Attr → Point → Except Err Point
  | [], p => .ok p
  | a :: rest, p =>
      if a.1.localName = "lat" then
        match E.parseFloat a.2 with
        | some v => consumeAttrs E strict rest { p with Latitude := v }
        | none => if strict then .error .invalidLat else consumeAttrs E strict rest p
      else if a.1.localName = "lon" then
        match E.parseFloat a.2 with
        | some v => consumeAttrs E strict rest { p with Longitude := v }
        | none => if strict then .error .invalidLon else consumeAttrs E strict rest p
      else consumeAttrs E strict rest p

namespace RevB

/-- The collection loop of consumeExtensions (RevB, part_000 second unit):
copy every token into the buffer while tracking the nesting level, and
return at the first end element at level 0 (its name is not checked), the
end element itself excluded from the buffer. -/
def extsAux : Nat → List XTok → Except Err (List XTok × List XTok)
  | _, [] => .error .eof
  | lvl, .start n a :: rest =>
      match extsAux (lvl + 1) rest with
      | .ok (ts, r) => .ok (.start n a :: ts, r)
      | .error e => .error e
  | lvl, .close n :: rest =>
      if lvl = 0 then .ok ([], rest)
      else
        match extsAux (lvl - 1) rest with
        | .ok (ts, r) => .ok (.close n :: ts, r)
        | .error e => .error e
  | lvl, .text s :: rest =>
      match extsAux lvl rest with
      | .ok (ts, r) => .ok (.text s :: ts, r)
      | .error e => .error e
  | lvl, .other s :: rest =>
      match extsAux lvl rest with
      | .ok (ts, r) => .ok (.other s :: ts, r)
      | .error e => .error e

/-- consumeExtensions (RevB) starts the level counter at 0. -/
def consumeExtensions (l : List XTok) : Except Err (List XTok × List XTok) := extsAux 0 l

/-- extsAux leaves a strictly shorter stream on success. -/
def extsAux_len : ∀ l lvl ts r, extsAux lvl l = .ok (ts, r) → r.length < l.length := by
  intro l
  induction l with
  | nil => intro lvl ts r h; simp [extsAux] at h
  | cons t rest ih =>
      intro lvl ts r h
      match t with
      | .start n a =>
          rw [extsAux] at h
          cases he : extsAux (lvl + 1) rest with
          | ok p =>
              obtain ⟨ts2, r2⟩ := p
              rw [he] at h; simp at h
              obtain ⟨h1, h2⟩ := h
              subst h2
              have := ih (lvl + 1) ts2 _ he
              simp; omega
          | error e => rw [he] at h; simp at h
      | .close n =>
          rw [extsAux] at h
          by_cases hl : lvl = 0
          · simp [hl] at h
            obtain ⟨h1, h2⟩ := h
            subst h2
            simp
          · simp [hl] at h
            cases he : extsAux (lvl - 1) rest with
            | ok p =>
                obtain ⟨ts2, r2⟩ := p
                rw [he] at h; simp at h
                obtain ⟨h1, h2⟩ := h
                subst h2
                have := ih (lvl - 1) ts2 _ he
                simp; omega
            | error e => rw [he] at h; simp at h
      | .text s0 =>
          rw [extsAux] at h
          cases he : extsAux lvl rest with
          | ok p =>
              obtain ⟨ts2, r2⟩ := p
              rw [he] at h; simp at h
              obtain ⟨h1, h2⟩ := h
              subst h2
              have := ih lvl ts2 _ he
              simp; omega
          | error e => rw [he] at h; simp at h
      | .other s0 =>
          rw [extsAux] at h
          cases he : extsAux lvl rest with
          | ok p =>
              obtain ⟨ts2, r2⟩ := p
              rw [he] at h; simp at h
              obtain ⟨h1, h2⟩ := h
              subst h2
              have := ih lvl ts2 _ he
              simp; omega
          | error e => rw [he] at h; simp at h

/-- The child loop of consumePoint (RevB, part_000 second unit): dispatch
on the local name of each child start element.  ele and time go through
the tokenStream scalar consumers, and any error they return - including a
plain parse error - propagates whatever the strictness setting is;
extensions captures the raw subtree; any other child is skipped as a
balanced subtree; character data and comment-like tokens between children
are ignored; the first end element at this level ends the point (its name
is not checked). -/
def pointLoop (E : Parsers) (p : Point) : List XTok → Except Err (Point × List XTok)
  | [] => .error .eof
  | .start n _ :: rest =>
      if n.localName = "ele" then
        match h : consumeFloat E rest with
        | .ok (v, r) => pointLoop E { p with Elevation := v } r
        | .error e => .error e
      else if n.localName = "time" then
        match h : consumeTime E rest with
        | .ok (t, r) => pointLoop E { p with Time := t } r
        | .error e => .error e
      else if n.localName = "extensions" then
        match h : extsAux 0 rest with
        | .ok (ts, r) => pointLoop E { p with Extensions := ts } r
        | .error e => .error e
      else
        match h : skipTagAux 0 rest with
        | .ok r => pointLoop E p r
        | .error e => .error e
  | .close _ :: rest => .ok (p, rest)
  | .text _ :: rest => pointLoop E p rest
  | .other _ :: rest => pointLoop E p rest
termination_by l => l.length
decreasing_by
  · have := consumeFloat_len E rest v r h; simp; omega
  · have := consumeTime_len E rest t r h; simp; omega
  · have := extsAux_len rest 0 ts r h; simp; omega
  · have := skipTagAux_len rest 0 r h; simp; omega
  · simp
  · simp

/-- Unfolding equation of pointLoop on an empty stream. -/
def pointLoop_nil : ∀ E p, pointLoop E p [] = .error .eof := by
  intro E p; rw [pointLoop]

/-- Unfolding equation of pointLoop on a start element, with a plain
(non-dependent) match, convenient for rewriting. -/
def pointLoop_start : ∀ E p n a rest,
    pointLoop E p (.start n a :: rest) =
      (if n.localName = "ele" then
        match consumeFloat E rest with
        | .ok (v, r) => pointLoop E { p with Elevation := v } r
        | .error e => .error e
      else if n.localName = "time" then
        match consumeTime E rest with
        | .ok (t, r) => pointLoop E { p with Time := t } r
        | .error e => .error e
      else if n.localName = "extensions" then
        match extsAux 0 rest with
        | .ok (ts, r) => pointLoop E { p with Extensions := ts } r
        | .error e => .error e
      else
        match skipTagAux 0 rest with
        | .ok r => pointLoop E p r
        | .error e => .error e) := by
  intro E p n a rest
  rw [pointLoop]
  by_cases h1 : n.localName = "ele"
  · simp only [h1, if_true]
    cases hf : consumeFloat E rest with
    | ok v => rfl
    | error e => rfl
  · simp only [h1, if_false]
    by_cases h2 : n.localName = "time"
    · simp only [h2, if_true]
      cases hf : consumeTime E rest with
      | ok v => rfl
      | error e => rfl
    · simp only [h2, if_false]
      by_cases h3 : n.localName = "extensions"
      · simp only [h3, if_true]
        cases hf : extsAux 0 rest with
        | ok v => rfl
        | error e => rfl
      · simp only [h3, if_false]
        cases hf : skipTagAux 0 rest with
        | ok v => rfl
        | error e => rfl

/-- Unfolding equation of pointLoop on an end element. -/
def pointLoop_close : ∀ E p n rest, pointLoop E p (.close n :: rest) = .ok (p, rest) := by
  intro E p n rest; rw [pointLoop]

/-- Unfolding equation of pointLoop on character data. -/
def pointLoop_text : ∀ E p s rest, pointLoop E p (.text s :: rest) = pointLoop E p rest := by
  intro E p s rest; rw [pointLoop]

/-- Unfolding equation of pointLoop on a comment-like token. -/
def pointLoop_other : ∀ E p s rest, pointLoop E p (.other s :: rest) = pointLoop E p rest := by
  intro E p s rest; rw [pointLoop]

/-- pointLoop leaves a strictly shorter stream on success (strong
induction on the stream length). -/
def pointLoop_lenAux : ∀ (E : Parsers) (N : Nat) (l : List XTok), l.length ≤ N →
    ∀ p q r, pointLoop E p l = .ok (q, r) → r.length < l.length := by
  intro E N
  induction N with
  | zero =>
      intro l hl p q r h
      match l with
      | [] => rw [pointLoop_nil] at h; simp at h
  | succ N ih =>
      intro l hl p q r h
      match l with
      | [] => rw [pointLoop_nil] at h; simp at h
      | .start n a :: rest =>
          rw [pointLoop_start] at h
          simp at hl
          by_cases h1 : n.localName = "ele"
          · simp only [h1, if_true] at h
            cases hf : consumeFloat E rest with
            | ok p2 =>
                obtain ⟨v, r2⟩ := p2
                rw [hf] at h
                simp only [] at h
                have hr2 := consumeFloat_len E rest v r2 hf
                have := ih r2 (by omega) _ q r h
                simp; omega
            | error e => rw [hf] at h; simp at h
          · simp only [h1, if_false] at h
            by_cases h2 : n.localName = "time"
            · simp only [h2, if_true] at h
              cases hf : consumeTime E rest with
              | ok p2 =>
                  obtain ⟨v, r2⟩ := p2
                  rw [hf] at h
                  simp only [] at h
                  have hr2 := consumeTime_len E rest v r2 hf
                  have := ih r2 (by omega) _ q r h
                  simp; omega
              | error e => rw [hf] at h; simp at h
            · simp only [h2, if_false] at h
              by_cases h3 : n.localName = "extensions"
              · simp only [h3, if_true] at h
                cases hf : extsAux 0 rest with
                | ok p2 =>
                    obtain ⟨ts, r2⟩ := p2
                    rw [hf] at h
                    simp only [] at h
                    have hr2 := extsAux_len rest 0 ts r2 hf
                    have := ih r2 (by omega) _ q r h
                    simp; omega
                | error e => rw [hf] at h; simp at h
              · simp only [h3, if_false] at h
                cases hf : skipTagAux 0 rest with
                | ok r2 =>
                    rw [hf] at h
                    simp only [] at h
                    have hr2 := skipTagAux_len rest 0 r2 hf
                    have := ih r2 (by omega) _ q r h
                    simp; omega
                | error e => rw [hf] at h; simp at h
      | .close n :: rest =>
          rw [pointLoop_close] at h
          simp at h
          obtain ⟨h1, h2⟩ := h
          subst h2
          simp
      | .text s :: rest =>
          rw [pointLoop_text] at h
          simp at hl
          have := ih rest (by omega) p q r h
          simp; omega
      | .other s :: rest =>
          rw [pointLoop_other] at h
          simp at hl
          have := ih rest (by omega) p q r h
          simp; omega

/-- pointLoop length fact, stated without the induction bound. -/
def pointLoop_len : ∀ E p l q r, pointLoop E p l = .ok (q, r) → r.length < l.length := by
  intro E p l q r h
  exact pointLoop_lenAux E l.length l (by omega) p q r h

/-- consumePoint (RevB): run the shared trkpt attribute loop on a fresh
point, then the child loop. -/
def consumePoint (E : Parsers) (strict : Bool) (attrs : List Attr) (l : List XTok) :
    Except Err (Point × List XTok) :=
  match consumeAttrs E strict attrs {} with
  | .error e => .error e
  | .ok p => pointLoop E p l

/-- consumePoint leaves a strictly shorter stream on success. -/
def consumePoint_len : ∀ E strict attrs l q r,
    consumePoint E strict attrs l = .ok (q, r) → r.length < l.length := by
  intro E strict attrs l q r h
  rw [consumePoint] at h
  cases ha : consumeAttrs E strict attrs {} with
  | ok p => rw [ha] at h; exact pointLoop_len E p l q r h
  | error e => rw [ha] at h; simp at h

/-- The child loop of consumeSegment (RevB): a trkpt child becomes a
point appended to the segment, anything else is skipped; the first end
element at this level ends the segment. -/
def segLoop (E : Parsers) (strict : Bool) (seg : Segment) : List XTok → Except Err (Segment × List XTok)
  | [] => .error .eof
  | .start n a :: rest =>
      if n.localName = "trkpt" then
        match h : consumePoint E strict a rest with
        | .ok (pt, r) => segLoop E strict { Points := seg.Points ++ [pt] } r
        | .error e => .error e
      else
        match h : skipTagAux 0 rest with
        | .ok r => segLoop E strict seg r
        | .error e => .error e
  | .close _ :: rest => .ok (seg, rest)
  | .text _ :: rest => segLoop E strict seg rest
  | .other _ :: rest => segLoop E strict seg rest
termination_by l => l.length
decreasing_by
  · have := consumePoint_len E strict a rest pt r h; simp; omega
  · have := skipTagAux_len rest 0 r h; simp; omega
  · simp
  · simp

/-- Unfolding equation of segLoop on an empty stream. -/
def segLoop_nil : ∀ E strict seg, segLoop E strict seg [] = .error .eof := by
  intro E strict seg; rw [segLoop]

/-- Unfolding equation of segLoop on a start element, with a plain match. -/
def segLoop_start : ∀ E strict seg n a rest,
    segLoop E strict seg (.start n a :: rest) =
      (if n.localName = "trkpt" then
        match consumePoint E strict a rest with
        | .ok (pt, r) => segLoop E strict { Points := seg.Points ++ [pt] } r
        | .error e => .error e
      else
        match skipTagAux 0 rest with
        | .ok r => segLoop E strict seg r
        | .error e => .error e) := by
  intro E strict seg n a rest
  rw [segLoop]
  by_cases h1 : n.localName = "trkpt"
  · simp only [h1, if_true]
    cases hf : consumePoint E strict a rest with
    | ok v => rfl
    | error e => rfl
  · simp only [h1, if_false]
    cases hf : skipTagAux 0 rest with
    | ok v => rfl
    | error e => rfl

/-- Unfolding equation of segLoop on an end element. -/
def segLoop_close : ∀ E strict seg n rest, segLoop E strict seg (.close n :: rest) = .ok (seg, rest) := by
  intro E strict seg n rest; rw [segLoop]

/-- Unfolding equation of segLoop on character data. -/
def segLoop_text : ∀ E strict seg s rest, segLoop E strict seg (.text s :: rest) = segLoop E strict seg rest := by
  intro E strict seg s rest; rw [segLoop]

/-- Unfolding equation of segLoop on a comment-like token. -/
def segLoop_other : ∀ E strict seg s rest, segLoop E strict seg (.other s :: rest) = segLoop E strict seg rest := by
  intro E strict seg s rest; rw [segLoop]

/-- segLoop leaves a strictly shorter stream on success. -/
def segLoop_lenAux : ∀ (E : Parsers) (strict : Bool) (N : Nat) (l : List XTok), l.length ≤ N →
    ∀ seg q r, segLoop E strict seg l = .ok (q, r) → r.length < l.length := by
  intro E strict N
  induction N with
  | zero =>
      intro l hl seg q r h
      match l with
      | [] => rw [segLoop_nil] at h; simp at h
  | succ N ih =>
      intro l hl seg q r h
      match l with
      | [] => rw [segLoop_nil] at h; simp at h
      | .start n a :: rest =>
          rw [segLoop_start] at h
          simp at hl
          by_cases h1 : n.localName = "trkpt"
          · simp only [h1, if_true] at h
            cases hf : consumePoint E strict a rest with
            | ok p2 =>
                obtain ⟨pt, r2⟩ := p2
                rw [hf] at h
                simp only [] at h
                have hr2 := consumePoint_len E strict a rest pt r2 hf
                have := ih r2 (by omega) _ q r h
                simp; omega
            | error e => rw [hf] at h; simp at h
          · simp only [h1, if_false] at h
            cases hf : skipTagAux 0 rest with
            | ok r2 =>
                rw [hf] at h
                simp only [] at h
                have hr2 := skipTagAux_len rest 0 r2 hf
                have := ih r2 (by omega) _ q r h
                simp; omega
            | error e => rw [hf] at h; simp at h
      | .close n :: rest =>
          rw [segLoop_close] at h
          simp at h
          obtain ⟨h1, h2⟩ := h
          subst h2
          simp
      | .text s :: rest =>
          rw [segLoop_text] at h
          simp at hl
          have := ih rest (by omega) seg q r h
          simp; omega
      | .other s :: rest =>
          rw [segLoop_other] at h
          simp at hl
          have := ih rest (by omega) seg q r h
          simp; omega

/-- segLoop length fact, stated without the induction bound. -/
def segLoop_len : ∀ E strict seg l q r, segLoop E strict seg l = .ok (q, r) → r.length < l.length := by
  intro E strict seg l q r h
  exact segLoop_lenAux E strict l.length l (by omega) seg q r h

/-- consumeSegment (RevB): the child loop on a fresh segment. -/
def consumeSegment (E : Parsers) (strict : Bool) (l : List XTok) : Except Err (Segment × List XTok) :=
  segLoop E strict {} l

/-- The child loop of consumeTrack (RevB): a trkseg child becomes a
segment appended to the track, anything else is skipped; the first end
element at this level ends the track. -/
def trackLoop (E : Parsers) (strict : Bool) (track : Track) : List XTok → Except Err (Track × List XTok)
  | [] => .error .eof
  | .start n _ :: rest =>
      if n.localName = "trkseg" then
        match h : consumeSegment E strict rest with
        | .ok (seg, r) => trackLoop E strict { Segments := track.Segments ++ [seg] } r
        | .error e => .error e
      else
        match h : skipTagAux 0 rest with
        | .ok r => trackLoop E strict track r
        | .error e => .error e
  | .close _ :: rest => .ok (track, rest)
  | .text _ :: rest => trackLoop E strict track rest
  | .other _ :: rest => trackLoop E strict track rest
termination_by l => l.length
decreasing_by
  · have := segLoop_len E strict {} rest seg r h; simp; omega
  · have := skipTagAux_len rest 0 r h; simp; omega
  · simp
  · simp

/-- Unfolding equation of trackLoop on an empty stream. -/
def trackLoop_nil : ∀ E strict track, trackLoop E strict track [] = .error .eof := by
  intro E strict track; rw [trackLoop]

/-- Unfolding equation of trackLoop on a start element, with a plain match. -/
def trackLoop_start : ∀ E strict track n a rest,
    trackLoop E strict track (.start n a :: rest) =
      (if n.localName = "trkseg" then
        match consumeSegment E strict rest with
        | .ok (seg, r) => trackLoop E strict { Segments := track.Segments ++ [seg] } r
        | .error e => .error e
      else
        match skipTagAux 0 rest with
        | .ok r => trackLoop E strict track r
        | .error e => .error e) := by
  intro E strict track n a rest
  rw [trackLoop]
  by_cases h1 : n.localName = "trkseg"
  · simp only [h1, if_true]
    cases hf : consumeSegment E strict rest with
    | ok v => rfl
    | error e => rfl
  · simp only [h1, if_false]
    cases hf : skipTagAux 0 rest with
    | ok v => rfl
    | error e => rfl

/-- Unfolding equation of trackLoop on an end element. -/
def trackLoop_close : ∀ E strict track n rest, trackLoop E strict track (.close n :: rest) = .ok (track, rest) := by
  intro E strict track n rest; rw [trackLoop]

/-- Unfolding equation of trackLoop on character data. -/
def trackLoop_text : ∀ E strict track s rest, trackLoop E strict track (.text s :: rest) = trackLoop E strict track rest := by
  intro E strict track s rest; rw [trackLoop]

/-- Unfolding equation of trackLoop on a comment-like token. -/
def trackLoop_other : ∀ E strict track s rest, trackLoop E strict track (.other s :: rest) = trackLoop E strict track rest := by
  intro E strict track s rest; rw [trackLoop]

/-- trackLoop leaves a strictly shorter stream on success. -/
def trackLoop_lenAux : ∀ (E : Parsers) (strict : Bool) (N : Nat) (l : List XTok), l.length ≤ N →
    ∀ track q r, trackLoop E strict track l = .ok (q, r) → r.length < l.length := by
  intro E strict N
  induction N with
  | zero =>
      intro l hl track q r h
      match l with
      | [] => rw [trackLoop_nil] at h; simp at h
  | succ N ih =>
      intro l hl track q r h
      match l with
      | [] => rw [trackLoop_nil] at h; simp at h
      | .start n a :: rest =>
          rw [trackLoop_start] at h
          simp at hl
          by_cases h1 : n.localName = "trkseg"
          · simp only [h1, if_true] at h
            cases hf : consumeSegment E strict rest with
            | ok p2 =>
                obtain ⟨seg, r2⟩ := p2
                rw [hf] at h
                simp only [] at h
                have hr2 := segLoop_len E strict {} rest seg r2 hf
                have := ih r2 (by omega) _ q r h
                simp; omega
            | error e => rw [hf] at h; simp at h
          · simp only [h1, if_false] at h
            cases hf : skipTagAux 0 rest with
            | ok r2 =>
                rw [hf] at h
                simp only [] at h
                have hr2 := skipTagAux_len rest 0 r2 hf
                have := ih r2 (by omega) _ q r h
                simp; omega
            | error e => rw [hf] at h; simp at h
      | .close n :: rest =>
          rw [trackLoop_close] at h
          simp at h
          obtain ⟨h1, h2⟩ := h
          subst h2
          simp
      | .text s :: rest =>
          rw [trackLoop_text] at h
          simp at hl
          have := ih rest (by omega) track q r h
          simp; omega
      | .other s :: rest =>
          rw [trackLoop_other] at h
          simp at hl
          have := ih rest (by omega) track q r h
          simp; omega

/-- trackLoop length fact, stated without the induction bound. -/
def trackLoop_len : ∀ E strict track l q r, trackLoop E strict track l = .ok (q, r) → r.length < l.length := by
  intro E strict track l q r h
  exact trackLoop_lenAux E strict l.length l (by omega) track q r h

/-- consumeTrack (RevB): the child loop on a fresh track. -/
def consumeTrack (E : Parsers) (strict : Bool) (l : List XTok) : Except Err (Track × List XTok) :=
  trackLoop E strict {} l

/-- The child loop of consumeMetadata (RevB): a time child goes through
tokenStream.consumeTime, whose error - parse errors included - always
propagates; anything else is skipped; the first end element at this level
ends the metadata. -/
def metaLoop (E : Parsers) (m : Metadata) : List XTok → Except Err (Metadata × List XTok)
  | [] => .error .eof
  | .start n _ :: rest =>
      if n.localName = "time" then
        match h : consumeTime E rest with
        | .ok (t, r) => metaLoop E { Time := t } r
        | .error e => .error e
      else
        match h : skipTagAux 0 rest with
        | .ok r => metaLoop E m r
        | .error e => .error e
  | .close _ :: rest => .ok (m, rest)
  | .text _ :: rest => metaLoop E m rest
  | .other _ :: rest => metaLoop E m rest
termination_by l => l.length
decreasing_by
  · have := consumeTime_len E rest t r h; simp; omega
  · have := skipTagAux_len rest 0 r h; simp; omega
  · simp
  · simp

/-- Unfolding equation of metaLoop on an empty stream. -/
def metaLoop_nil : ∀ E m, metaLoop E m [] = .error .eof := by
  intro E m; rw [metaLoop]

/-- Unfolding equation of metaLoop on a start element, with a plain match. -/
def metaLoop_start : ∀ E m n a rest,
    metaLoop E m (.start n a :: rest) =
      (if n.localName = "time" then
        match consumeTime E rest with
        | .ok (t, r) => metaLoop E { Time := t } r
        | .error e => .error e
      else
        match skipTagAux 0 rest with
        | .ok r => metaLoop E m r
        | .error e => .error e) := by
  intro E m n a rest
  rw [metaLoop]
  by_cases h1 : n.localName = "time"
  · simp only [h1, if_true]
    cases hf : consumeTime E rest with
    | ok v => rfl
    | error e => rfl
  · simp only [h1, if_false]
    cases hf : skipTagAux 0 rest with
    | ok v => rfl
    | error e => rfl

/-- Unfolding equation of metaLoop on an end element. -/
def metaLoop_close : ∀ E m n rest, metaLoop E m (.close n :: rest) = .ok (m, rest) := by
  intro E m n rest; rw [metaLoop]

/-- Unfolding equation of metaLoop on character data. -/
def metaLoop_text : ∀ E m s rest, metaLoop E m (.text s :: rest) = metaLoop E m rest := by
  intro E m s rest; rw [metaLoop]

/-- Unfolding equation of metaLoop on a comment-like token. -/
def metaLoop_other : ∀ E m s rest, metaLoop E m (.other s :: rest) = metaLoop E m rest := by
  intro E m s rest; rw [metaLoop]

/-- metaLoop leaves a strictly shorter stream on success. -/
def metaLoop_lenAux : ∀ (E : Parsers) (N : Nat) (l : List XTok), l.length ≤ N →
    ∀ m q r, metaLoop E m l = .ok (q, r) → r.length < l.length := by
  intro E N
  induction N with
  | zero =>
      intro l hl m q r h
      match l with
      | [] => rw [metaLoop_nil] at h; simp at h
  | succ N ih =>
      intro l hl m q r h
      match l with
      | [] => rw [metaLoop_nil] at h; simp at h
      | .start n a :: rest =>
          rw [metaLoop_start] at h
          simp at hl
          by_cases h1 : n.localName = "time"
          · simp only [h1, if_true] at h
            cases hf : consumeTime E rest with
            | ok p2 =>
                obtain ⟨t, r2⟩ := p2
                rw [hf] at h
                simp only [] at h
                have hr2 := consumeTime_len E rest t r2 hf
                have := ih r2 (by omega) _ q r h
                simp; omega
            | error e => rw [hf] at h; simp at h
          · simp only [h1, if_false] at h
            cases hf : skipTagAux 0 rest with
            | ok r2 =>
                rw [hf] at h
                simp only [] at h
                have hr2 := skipTagAux_len rest 0 r2 hf
                have := ih r2 (by omega) _ q r h
                simp; omega
            | error e => rw [hf] at h; simp at h
      | .close n :: rest =>
          rw [metaLoop_close] at h
          simp at h
          obtain ⟨h1, h2⟩ := h
          subst h2
          simp
      | .text s :: rest =>
          rw [metaLoop_text] at h
          simp at hl
          have := ih rest (by omega) m q r h
          simp; omega
      | .other s :: rest =>
          rw [metaLoop_other] at h
          simp at hl
          have := ih rest (by omega) m q r h
          simp; omega

/-- metaLoop length fact, stated without the induction bound. -/
def metaLoop_len : ∀ E m l q r, metaLoop E m l = .ok (q, r) → r.length < l.length := by
  intro E m l q r h
  exact metaLoop_lenAux E l.length l (by omega) m q r h

/-- consumeMetadata (RevB): the child loop on fresh metadata. -/
def consumeMetadata (E : Parsers) (l : List XTok) : Except Err (Metadata × List XTok) :=
  metaLoop E {} l

/-- The child loop of consumeGPX (RevB): a trk child becomes a track
appended to the document, a metadata child replaces the document
metadata, anything else is skipped; the first end element at this level
ends the document (its name is not checked). -/
def gpxLoop (E : Parsers) (strict : Bool) (doc : Document) : List XTok → Except Err (Document × List XTok)
  | [] => .error .eof
  | .start n _ :: rest =>
      if n.localName = "trk" then
        match h : consumeTrack E strict rest with
        | .ok (track, r) => gpxLoop E strict { doc with Tracks := doc.Tracks ++ [track] } r
        | .error e => .error e
      else if n.localName = "metadata" then
        match h : consumeMetadata E rest with
        | .ok (m, r) => gpxLoop E strict { doc with Metadata := m } r
        | .error e => .error e
      else
        match h : skipTagAux 0 rest with
        | .ok r => gpxLoop E strict doc r
        | .error e => .error e
  | .close _ :: rest => .ok (doc, rest)
  | .text _ :: rest => gpxLoop E strict doc rest
  | .other _ :: rest => gpxLoop E strict doc rest
termination_by l => l.length
decreasing_by
  · have := trackLoop_len E strict {} rest track r h; simp; omega
  · have := metaLoop_len E {} rest m r h; simp; omega
  · have := skipTagAux_len rest 0 r h; simp; omega
  · simp
  · simp

/-- Unfolding equation of gpxLoop on an empty stream. -/
def gpxLoop_nil : ∀ E strict doc, gpxLoop E strict doc [] = .error .eof := by
  intro E strict doc; rw [gpxLoop]

/-- Unfolding equation of gpxLoop on a start element, with a plain match. -/
def gpxLoop_start : ∀ E strict doc n a rest,
    gpxLoop E strict doc (.start n a :: rest) =
      (if n.localName = "trk" then
        match consumeTrack E strict rest with
        | .ok (track, r) => gpxLoop E strict { doc with Tracks := doc.Tracks ++ [track] } r
        | .error e => .error e
      else if n.localName = "metadata" then
        match consumeMetadata E rest with
        | .ok (m, r) => gpxLoop E strict { doc with Metadata := m } r
        | .error e => .error e
      else
        match skipTagAux 0 rest with
        | .ok r => gpxLoop E strict doc r
        | .error e => .error e) := by
  intro E strict doc n a rest
  rw [gpxLoop]
  by_cases h1 : n.localName = "trk"
  · simp only [h1, if_true]
    cases hf : consumeTrack E strict rest with
    | ok v => rfl
    | error e => rfl
  · simp only [h1, if_false]
    by_cases h2 : n.localName = "metadata"
    · simp only [h2, if_true]
      cases hf : consumeMetadata E rest with
      | ok v => rfl
      | error e => rfl
    · simp only [h2, if_false]
      cases hf : skipTagAux 0 rest with
      | ok v => rfl
      | error e => rfl

/-- Unfolding equation of gpxLoop on an end element. -/
def gpxLoop_close : ∀ E strict doc n rest, gpxLoop E strict doc (.close n :: rest) = .ok (doc, rest) := by
  intro E strict doc n rest; rw [gpxLoop]

/-- Unfolding equation of gpxLoop on character data. -/
def gpxLoop_text : ∀ E strict doc s rest, gpxLoop E strict doc (.text s :: rest) = gpxLoop E strict doc rest := by
  intro E strict doc s rest; rw [gpxLoop]

/-- Unfolding equation of gpxLoop on a comment-like token. -/
def gpxLoop_other : ∀ E strict doc s rest, gpxLoop E strict doc (.other s :: rest) = gpxLoop E strict doc rest := by
  intro E strict doc s rest; rw [gpxLoop]

/-- consumeGPX (RevB): read the version attribute of the root start
element (last one wins, namespace ignored), then the child loop. -/
def consumeGPX (E : Parsers) (strict : Bool) (attrs : List Attr) (l : List XTok) :
    Except Err (Document × List XTok) :=
  gpxLoop E strict { Version := versionOf attrs } l

/-- Decode (RevB): findGPX, then consumeGPX on the root attributes; the
document is returned and any tokens after the root end element are left
unread. -/
def Decode (E : Parsers) (strict : Bool) (l : List XTok) : Except Err Document :=
  match findGPX l with
  | .error e => .error e
  | .ok (_, attrs, rest) =>
      match consumeGPX E strict attrs rest with
      | .ok (doc, _) => .ok doc
      | .error e => .error e

end RevB

namespace RevD

/-- consumeEle (RevD, part_001 second unit): read tokens until the end
element; each character data chunk is parsed and assigned to the running
elevation (so a later chunk overwrites an earlier one), a parse failure
being fatal only in strict mode (invalid ele) and otherwise leaving the
ParseFloat zero result; a nested start element is always the fatal error
"gpx: invalid <ele>"; comment-like tokens are ignored; the end element
returns the current value (0 if no character data was seen). -/
def consumeEle (E : Parsers) (strict : Bool) (ele : Rat) : List XTok → Except Err (Rat × List XTok)
  | [] => .error .eof
  | .text s :: rest =>
      match E.parseFloat s with
      | some v => consumeEle E strict v rest
      | none =>
          if strict then .error .invalidEle
          else consumeEle E strict 0 rest
  | .start _ _ :: _ => .error .invalidEleElem
  | .close _ :: rest => .ok (ele, rest)
  | .other _ :: rest => consumeEle E strict ele rest

/-- consumeTime (RevD): same loop as consumeEle with time.Parse and the
errors "gpx: invalid <time>". -/
def consumeTime (E : Parsers) (strict : Bool) (t : Nat) : List XTok → Except Err (Nat × List XTok)
  | [] => .error .eof
  | .text s :: rest =>
      match E.parseTime s with
      | some v => consumeTime E strict v rest
      | none =>
          if strict then .error .invalidTime
          else consumeTime E strict 0 rest
  | .start _ _ :: _ => .error .invalidTimeElem
  | .close _ :: rest => .ok (t, rest)
  | .other _ :: rest => consumeTime E strict t rest

/-- consumeEle leaves a strictly shorter stream on success. -/
def consumeEle_len : ∀ E strict l ele v r, consumeEle E strict ele l = .ok (v, r) → r.length < l.length := by
  intro E strict l
  induction l with
  | nil => intro ele v r h; simp [consumeEle] at h
  | cons t rest ih =>
      intro ele v r h
      match t with
      | .text s =>
          rw [consumeEle] at h
          cases hp : E.parseFloat s with
          | some w => rw [hp] at h; simp only [] at h; have := ih w v r h; simp; omega
          | none =>
              rw [hp] at h; simp only [] at h
              by_cases hs : strict
              · simp [hs] at h
              · simp [hs] at h
                have := ih 0 v r (by rw [show strict = false by simpa using hs]; exact h)
                simp; omega
      | .start n a => rw [consumeEle] at h; simp at h
      | .close n =>
          rw [consumeEle] at h; simp at h
          obtain ⟨h1, h2⟩ := h
          subst h2
          simp
      | .other s => rw [consumeEle] at h; have := ih ele v r h; simp; omega

/-- consumeTime (RevD) leaves a strictly shorter stream on success. -/
def consumeTimeD_len : ∀ E strict l t v r, consumeTime E strict t l = .ok (v, r) → r.length < l.length := by
  intro E strict l
  induction l with
  | nil => intro t v r h; simp [consumeTime] at h
  | cons tok rest ih =>
      intro t v r h
      match tok with
      | .text s =>
          rw [consumeTime] at h
          cases hp : E.parseTime s with
          | some w => rw [hp] at h; simp only [] at h; have := ih w v r h; simp; omega
          | none =>
              rw [hp] at h; simp only [] at h
              by_cases hs : strict
              · simp [hs] at h
              · simp [hs] at h
                have := ih 0 v r (by rw [show strict = false by simpa using hs]; exact h)
                simp; omega
      | .start n a => rw [consumeTime] at h; simp at h
      | .close n =>
          rw [consumeTime] at h; simp at h
          obtain ⟨h1, h2⟩ := h
          subst h2
          simp
      | .other s => rw [consumeTime] at h; have := ih t v r h; simp; omega

/-- The collection loop of consumeExtensions (RevD): as in RevB, but the
ending end element must be named extensions at level 0; any other end
element at level 0 is copied into the buffer and takes the level counter
negative (hence the counter is an integer here, as in Go). -/
def extsAux : Int → List XTok → Except Err (List XTok × List XTok)
  | _, [] => .error .eof
  | lvl, .start n a :: rest =>
      match extsAux (lvl + 1) rest with
      | .ok (ts, r) => .ok (.start n a :: ts, r)
      | .error e => .error e
  | lvl, .close n :: rest =>
      if lvl = 0 ∧ n.localName = "extensions" then .ok ([], rest)
      else
        match extsAux (lvl - 1) rest with
        | .ok (ts, r) => .ok (.close n :: ts, r)
        | .error e => .error e
  | lvl, .text s :: rest =>
      match extsAux lvl rest with
      | .ok (ts, r) => .ok (.text s :: ts, r)
      | .error e => .error e
  | lvl, .other s :: rest =>
      match extsAux lvl rest with
      | .ok (ts, r) => .ok (.other s :: ts, r)
      | .error e => .error e

/-- consumeExtensions (RevD) starts the level counter at 0. -/
def consumeExtensions (l : List XTok) : Except Err (List XTok × List XTok) := extsAux 0 l

/-- extsAux (RevD) leaves a strictly shorter stream on success. -/
def extsAuxD_len : ∀ l lvl ts r, extsAux lvl l = .ok (ts, r) → r.length < l.length := by
  intro l
  induction l with
  | nil => intro lvl ts r h; simp [extsAux] at h
  | cons t rest ih =>
      intro lvl ts r h
      match t with
      | .start n a =>
          rw [extsAux] at h
          cases he : extsAux (lvl + 1) rest with
          | ok p =>
              obtain ⟨ts2, r2⟩ := p
              rw [he] at h; simp at h
              obtain ⟨h1, h2⟩ := h
              subst h2
              have := ih (lvl + 1) ts2 _ he
              simp; omega
          | error e => rw [he] at h; simp at h
      | .close n =>
          rw [extsAux] at h
          by_cases hl : lvl = 0 ∧ n.localName = "extensions"
          · simp [hl] at h
            obtain ⟨h1, h2⟩ := h
            subst h2
            simp
          · simp only [hl, if_false] at h
            cases he : extsAux (lvl - 1) rest with
            | ok p =>
                obtain ⟨ts2, r2⟩ := p
                rw [he] at h; simp at h
                obtain ⟨h1, h2⟩ := h
                subst h2
                have := ih (lvl - 1) ts2 _ he
                simp; omega
            | error e => rw [he] at h; simp at h
      | .text s0 =>
          rw [extsAux] at h
          cases he : extsAux lvl rest with
          | ok p =>
              obtain ⟨ts2, r2⟩ := p
              rw [he] at h; simp at h
              obtain ⟨h1, h2⟩ := h
              subst h2
              have := ih lvl ts2 _ he
              simp; omega
          | error e => rw [he] at h; simp at h
      | .other s0 =>
          rw [extsAux] at h
          cases he : extsAux lvl rest with
          | ok p =>
              obtain ⟨ts2, r2⟩ := p
              rw [he] at h; simp at h
              obtain ⟨h1, h2⟩ := h
              subst h2
              have := ih lvl ts2 _ he
              simp; omega
          | error e => rw [he] at h; simp at h

/-- The child loop of consumePoint (RevD): ele, time and extensions are
recognized only at level 0; any other start element just increments the
level, an end element at level 0 named trkpt ends the point, any other
end element decrements the level (possibly below zero, as in Go). -/
def pointLoop (E : Parsers) (strict : Bool) (lvl : Int) (p : Point) : List XTok → Except Err (Point × List XTok)
  | [] => .error .eof
  | .start n _ :: rest =>
      if lvl = 0 ∧ n.localName = "ele" then
        match h : consumeEle E strict 0 rest with
        | .ok (v, r) => pointLoop E strict lvl { p with Elevation := v } r
        | .error e => .error e
      else if lvl = 0 ∧ n.localName = "time" then
        match h : consumeTime E strict 0 rest with
        | .ok (t, r) => pointLoop E strict lvl { p with Time := t } r
        | .error e => .error e
      else if lvl = 0 ∧ n.localName = "extensions" then
        match h : extsAux 0 rest with
        | .ok (ts, r) => pointLoop E strict lvl { p with Extensions := ts } r
        | .error e => .error e
      else pointLoop E strict (lvl + 1) p rest
  | .close n :: rest =>
      if lvl = 0 ∧ n.localName = "trkpt" then .ok (p, rest)
      else pointLoop E strict (lvl - 1) p rest
  | .text _ :: rest => pointLoop E strict lvl p rest
  | .other _ :: rest => pointLoop E strict lvl p rest
termination_by l => l.length
decreasing_by
  · have := consumeEle_len E strict rest 0 v r h; simp; omega
  · have := consumeTimeD_len E strict rest 0 t r h; simp; omega
  · have := extsAuxD_len rest 0 ts r h; simp; omega
  · simp
  · simp
  · simp
  · simp

/-- Unfolding equation of pointLoop (RevD) on an empty stream. -/
def pointLoop_nil : ∀ E strict lvl p, pointLoop E strict lvl p [] = .error .eof := by
  intro E strict lvl p; rw [pointLoop]

/-- Unfolding equation of pointLoop (RevD) on a start element. -/
def pointLoop_start : ∀ E strict lvl p n a rest,
    pointLoop E strict lvl p (.start n a :: rest) =
      (if lvl = 0 ∧ n.localName = "ele" then
        match consumeEle E strict 0 rest with
        | .ok (v, r) => pointLoop E strict lvl { p with Elevation := v } r
        | .error e => .error e
      else if lvl = 0 ∧ n.localName = "time" then
        match consumeTime E strict 0 rest with
        | .ok (t, r) => pointLoop E strict lvl { p with Time := t } r
        | .error e => .error e
      else if lvl = 0 ∧ n.localName = "extensions" then
        match extsAux 0 rest with
        | .ok (ts, r) => pointLoop E strict lvl { p with Extensions := ts } r
        | .error e => .error e
      else pointLoop E strict (lvl + 1) p rest) := by
  intro E strict lvl p n a rest
  rw [pointLoop]
  by_cases h1 : lvl = 0 ∧ n.localName = "ele"
  · simp only [h1, if_true]
    cases hf : consumeEle E strict 0 rest with
    | ok v => rfl
    | error e => rfl
  · simp only [h1, if_false]
    by_cases h2 : lvl = 0 ∧ n.localName = "time"
    · simp only [h2, if_true]
      cases hf : consumeTime E strict 0 rest with
      | ok v => rfl
      | error e => rfl
    · simp only [h2, if_false]
      by_cases h3 : lvl = 0 ∧ n.localName = "extensions"
      · simp only [h3, if_true]
        cases hf : extsAux 0 rest with
        | ok v => rfl
        | error e => rfl
      · simp only [h3, if_false]

/-- Unfolding equation of pointLoop (RevD) on an end element. -/
def pointLoop_close : ∀ E strict lvl p n rest,
    pointLoop E strict lvl p (.close n :: rest) =
      (if lvl = 0 ∧ n.localName = "trkpt" then .ok (p, rest)
       else pointLoop E strict (lvl - 1) p rest) := by
  intro E strict lvl p n rest; rw [pointLoop]

/-- Unfolding equation of pointLoop (RevD) on character data. -/
def pointLoop_text : ∀ E strict lvl p s rest,
    pointLoop E strict lvl p (.text s :: rest) = pointLoop E strict lvl p rest := by
  intro E strict lvl p s rest; rw [pointLoop]

/-- Unfolding equation of pointLoop (RevD) on a comment-like token. -/
def pointLoop_other : ∀ E strict lvl p s rest,
    pointLoop E strict lvl p (.other s :: rest) = pointLoop E strict lvl p rest := by
  intro E strict lvl p s rest; rw [pointLoop]

/-- pointLoop (RevD) leaves a strictly shorter stream on success. -/
def pointLoopD_lenAux : ∀ (E : Parsers) (strict : Bool) (N : Nat) (l : List XTok), l.length ≤ N →
    ∀ lvl p q r, pointLoop E strict lvl p l = .ok (q, r) → r.length < l.length := by
  intro E strict N
  induction N with
  | zero =>
      intro l hl lvl p q r h
      match l with
      | [] => rw [pointLoop_nil] at h; simp at h
  | succ N ih =>
      intro l hl lvl p q r h
      match l with
      | [] => rw [pointLoop_nil] at h; simp at h
      | .start n a :: rest =>
          rw [pointLoop_start] at h
          simp at hl
          by_cases h1 : lvl = 0 ∧ n.localName = "ele"
          · rw [if_pos h1] at h
            cases hf : consumeEle E strict 0 rest with
            | ok p2 =>
                obtain ⟨v, r2⟩ := p2
                rw [hf] at h
                simp only [] at h
                have hr2 := consumeEle_len E strict rest 0 v r2 hf
                have := ih r2 (by omega) lvl _ q r h
                simp; omega
            | error e => rw [hf] at h; simp at h
          · rw [if_neg h1] at h
            by_cases h2 : lvl = 0 ∧ n.localName = "time"
            · rw [if_pos h2] at h
              cases hf : consumeTime E strict 0 rest with
              | ok p2 =>
                  obtain ⟨v, r2⟩ := p2
                  rw [hf] at h
                  simp only [] at h
                  have hr2 := consumeTimeD_len E strict rest 0 v r2 hf
                  have := ih r2 (by omega) lvl _ q r h
                  simp; omega
              | error e => rw [hf] at h; simp at h
            · rw [if_neg h2] at h
              by_cases h3 : lvl = 0 ∧ n.localName = "extensions"
              · rw [if_pos h3] at h
                cases hf : extsAux 0 rest with
                | ok p2 =>
                    obtain ⟨ts, r2⟩ := p2
                    rw [hf] at h
                    simp only [] at h
                    have hr2 := extsAuxD_len rest 0 ts r2 hf
                    have := ih r2 (by omega) lvl _ q r h
                    simp; omega
                | error e => rw [hf] at h; simp at h
              · rw [if_neg h3] at h
                have := ih rest (by omega) (lvl + 1) p q r h
                simp; omega
      | .close n :: rest =>
          rw [pointLoop_close] at h
          simp at hl
          by_cases h1 : lvl = 0 ∧ n.localName = "trkpt"
          · rw [if_pos h1] at h
            simp at h
            obtain ⟨hq, h2⟩ := h
            subst h2
            simp
          · rw [if_neg h1] at h
            have := ih rest (by omega) (lvl - 1) p q r h
            simp; omega
      | .text s :: rest =>
          rw [pointLoop_text] at h
          simp at hl
          have := ih rest (by omega) lvl p q r h
          simp; omega
      | .other s :: rest =>
          rw [pointLoop_other] at h
          simp at hl
          have := ih rest (by omega) lvl p q r h
          simp; omega

/-- pointLoop (RevD) length fact without the induction bound. -/
def pointLoopD_len : ∀ E strict lvl p l q r, pointLoop E strict lvl p l = .ok (q, r) → r.length < l.length := by
  intro E strict lvl p l q r h
  exact pointLoopD_lenAux E strict l.length l (by omega) lvl p q r h

/-- consumePoint (RevD): the shared trkpt attribute loop, then the child
loop at level 0. -/
def consumePoint (E : Parsers) (strict : Bool) (attrs : List Attr) (l : List XTok) :
    Except Err (Point × List XTok) :=
  match consumeAttrs E strict attrs {} with
  | .error e => .error e
  | .ok p => pointLoop E strict 0 p l

/-- consumePoint (RevD) leaves a strictly shorter stream on success. -/
def consumePointD_len : ∀ E strict attrs l q r,
    consumePoint E strict attrs l = .ok (q, r) → r.length < l.length := by
  intro E strict attrs l q r h
  rw [consumePoint] at h
  cases ha : consumeAttrs E strict attrs {} with
  | ok p => rw [ha] at h; exact pointLoopD_len E strict 0 p l q r h
  | error e => rw [ha] at h; simp at h

/-- The child loop of consumeSegment (RevD): trkpt recognized at level 0
only; an end element named trkseg at level 0 ends the segment. -/
def segLoop (E : Parsers) (strict : Bool) (lvl : Int) (seg : Segment) : List XTok → Except Err (Segment × List XTok)
  | [] => .error .eof
  | .start n a :: rest =>
      if lvl = 0 ∧ n.localName = "trkpt" then
        match h : consumePoint E strict a rest with
        | .ok (pt, r) => segLoop E strict lvl { Points := seg.Points ++ [pt] } r
        | .error e => .error e
      else segLoop E strict (lvl + 1) seg rest
  | .close n :: rest =>
      if lvl = 0 ∧ n.localName = "trkseg" then .ok (seg, rest)
      else segLoop E strict (lvl - 1) seg rest
  | .text _ :: rest => segLoop E strict lvl seg rest
  | .other _ :: rest => segLoop E strict lvl seg rest
termination_by l => l.length
decreasing_by
  · have := consumePointD_len E strict a rest pt r h; simp; omega
  · simp
  · simp
  · simp
  · simp

/-- Unfolding equation of segLoop (RevD) on an empty stream. -/
def segLoop_nil : ∀ E strict lvl seg, segLoop E strict lvl seg [] = .error .eof := by
  intro E strict lvl seg; rw [segLoop]

/-- Unfolding equation of segLoop (RevD) on a start element. -/
def segLoop_start : ∀ E strict lvl seg n a rest,
    segLoop E strict lvl seg (.start n a :: rest) =
      (if lvl = 0 ∧ n.localName = "trkpt" then
        match consumePoint E strict a rest with
        | .ok (pt, r) => segLoop E strict lvl { Points := seg.Points ++ [pt] } r
        | .error e => .error e
      else segLoop E strict (lvl + 1) seg rest) := by
  intro E strict lvl seg n a rest
  rw [segLoop]
  by_cases h1 : lvl = 0 ∧ n.localName = "trkpt"
  · simp only [h1, if_true]
    cases hf : consumePoint E strict a rest with
    | ok v => rfl
    | error e => rfl
  · simp only [h1, if_false]

/-- Unfolding equation of segLoop (RevD) on an end element. -/
def segLoop_close : ∀ E strict lvl seg n rest,
    segLoop E strict lvl seg (.close n :: rest) =
      (if lvl = 0 ∧ n.localName = "trkseg" then .ok (seg, rest)
       else segLoop E strict (lvl - 1) seg rest) := by
  intro E strict lvl seg n rest; rw [segLoop]

/-- Unfolding equation of segLoop (RevD) on character data. -/
def segLoop_text : ∀ E strict lvl seg s rest,
    segLoop E strict lvl seg (.text s :: rest) = segLoop E strict lvl seg rest := by
  intro E strict lvl seg s rest; rw [segLoop]

/-- Unfolding equation of segLoop (RevD) on a comment-like token. -/
def segLoop_other : ∀ E strict lvl seg s rest,
    segLoop E strict lvl seg (.other s :: rest) = segLoop E strict lvl seg rest := by
  intro E strict lvl seg s rest; rw [segLoop]

/-- segLoop (RevD) leaves a strictly shorter stream on success. -/
def segLoopD_lenAux : ∀ (E : Parsers) (strict : Bool) (N : Nat) (l : List XTok), l.length ≤ N →
    ∀ lvl seg q r, segLoop E strict lvl seg l = .ok (q, r) → r.length < l.length := by
  intro E strict N
  induction N with
  | zero =>
      intro l hl lvl seg q r h
      match l with
      | [] => rw [segLoop_nil] at h; simp at h
  | succ N ih =>
      intro l hl lvl seg q r h
      match l with
      | [] => rw [segLoop_nil] at h; simp at h
      | .start n a :: rest =>
          rw [segLoop_start] at h
          simp at hl
          by_cases h1 : lvl = 0 ∧ n.localName = "trkpt"
          · rw [if_pos h1] at h
            cases hf : consumePoint E strict a rest with
            | ok p2 =>
                obtain ⟨pt, r2⟩ := p2
                rw [hf] at h
                simp only [] at h
                have hr2 := consumePointD_len E strict a rest pt r2 hf
                have := ih r2 (by omega) lvl _ q r h
                simp; omega
            | error e => rw [hf] at h; simp at h
          · rw [if_neg h1] at h
            have := ih rest (by omega) (lvl + 1) seg q r h
            simp; omega
      | .close n :: rest =>
          rw [segLoop_close] at h
          simp at hl
          by_cases h1 : lvl = 0 ∧ n.localName = "trkseg"
          · rw [if_pos h1] at h
            simp at h
            obtain ⟨hq, h2⟩ := h
            subst h2
            simp
          · rw [if_neg h1] at h
            have := ih rest (by omega) (lvl - 1) seg q r h
            simp; omega
      | .text s :: rest =>
          rw [segLoop_text] at h
          simp at hl
          have := ih rest (by omega) lvl seg q r h
          simp; omega
      | .other s :: rest =>
          rw [segLoop_other] at h
          simp at hl
          have := ih rest (by omega) lvl seg q r h
          simp; omega

/-- segLoop (RevD) length fact without the induction bound. -/
def segLoopD_len : ∀ E strict lvl seg l q r, segLoop E strict lvl seg l = .ok (q, r) → r.length < l.length := by
  intro E strict lvl seg l q r h
  exact segLoopD_lenAux E strict l.length l (by omega) lvl seg q r h

/-- consumeSegment (RevD): the child loop at level 0 on a fresh segment. -/
def consumeSegment (E : Parsers) (strict : Bool) (l : List XTok) : Except Err (Segment × List XTok) :=
  segLoop E strict 0 {} l

/-- The child loop of consumeTrack (RevD): trkseg recognized at level 0
only; an end element named trk at level 0 ends the track. -/
def trackLoop (E : Parsers) (strict : Bool) (lvl : Int) (track : Track) : List XTok → Except Err (Track × List XTok)
  | [] => .error .eof
  | .start n _ :: rest =>
      if lvl = 0 ∧ n.localName = "trkseg" then
        match h : consumeSegment E strict rest with
        | .ok (seg, r) => trackLoop E strict lvl { Segments := track.Segments ++ [seg] } r
        | .error e => .error e
      else trackLoop E strict (lvl + 1) track rest
  | .close n :: rest =>
      if lvl = 0 ∧ n.localName = "trk" then .ok (track, rest)
      else trackLoop E strict (lvl - 1) track rest
  | .text _ :: rest => trackLoop E strict lvl track rest
  | .other _ :: rest => trackLoop E strict lvl track rest
termination_by l => l.length
decreasing_by
  · have := segLoopD_len E strict 0 {} rest seg r h; simp; omega
  · simp
  · simp
  · simp
  · simp

/-- Unfolding equation of trackLoop (RevD) on an empty stream. -/
def trackLoop_nil : ∀ E strict lvl track, trackLoop E strict lvl track [] = .error .eof := by
  intro E strict lvl track; rw [trackLoop]

/-- Unfolding equation of trackLoop (RevD) on a start element. -/
def trackLoop_start : ∀ E strict lvl track n a rest,
    trackLoop E strict lvl track (.start n a :: rest) =
      (if lvl = 0 ∧ n.localName = "trkseg" then
        match consumeSegment E strict rest with
        | .ok (seg, r) => trackLoop E strict lvl { Segments := track.Segments ++ [seg] } r
        | .error e => .error e
      else trackLoop E strict (lvl + 1) track rest) := by
  intro E strict lvl track n a rest
  rw [trackLoop]
  by_cases h1 : lvl = 0 ∧ n.localName = "trkseg"
  · simp only [h1, if_true]
    cases hf : consumeSegment E strict rest with
    | ok v => rfl
    | error e => rfl
  · simp only [h1, if_false]

/-- Unfolding equation of trackLoop (RevD) on an end element. -/
def trackLoop_close : ∀ E strict lvl track n rest,
    trackLoop E strict lvl track (.close n :: rest) =
      (if lvl = 0 ∧ n.localName = "trk" then .ok (track, rest)
       else trackLoop E strict (lvl - 1) track rest) := by
  intro E strict lvl track n rest; rw [trackLoop]

/-- Unfolding equation of trackLoop (RevD) on character data. -/
def trackLoop_text : ∀ E strict lvl track s rest,
    trackLoop E strict lvl track (.text s :: rest) = trackLoop E strict lvl track rest := by
  intro E strict lvl track s rest; rw [trackLoop]

/-- Unfolding equation of trackLoop (RevD) on a comment-like token. -/
def trackLoop_other : ∀ E strict lvl track s rest,
    trackLoop E strict lvl track (.other s :: rest) = trackLoop E strict lvl track rest := by
  intro E strict lvl track s rest; rw [trackLoop]

/-- trackLoop (RevD) leaves a strictly shorter stream on success. -/
def trackLoopD_lenAux : ∀ (E : Parsers) (strict : Bool) (N : Nat) (l : List XTok), l.length ≤ N →
    ∀ lvl track q r, trackLoop E strict lvl track l = .ok (q, r) → r.length < l.length := by
  intro E strict N
  induction N with
  | zero =>
      intro l hl lvl track q r h
      match l with
      | [] => rw [trackLoop_nil] at h; simp at h
  | succ N ih =>
      intro l hl lvl track q r h
      match l with
      | [] => rw [trackLoop_nil] at h; simp at h
      | .start n a :: rest =>
          rw [trackLoop_start] at h
          simp at hl
          by_cases h1 : lvl = 0 ∧ n.localName = "trkseg"
          · rw [if_pos h1] at h
            cases hf : consumeSegment E strict rest with
            | ok p2 =>
                obtain ⟨seg, r2⟩ := p2
                rw [hf] at h
                simp only [] at h
                have hr2 := segLoopD_len E strict 0 {} rest seg r2 hf
                have := ih r2 (by omega) lvl _ q r h
                simp; omega
            | error e => rw [hf] at h; simp at h
          · rw [if_neg h1] at h
            have := ih rest (by omega) (lvl + 1) track q r h
            simp; omega
      | .close n :: rest =>
          rw [trackLoop_close] at h
          simp at hl
          by_cases h1 : lvl = 0 ∧ n.localName = "trk"
          · rw [if_pos h1] at h
            simp at h
            obtain ⟨hq, h2⟩ := h
            subst h2
            simp
          · rw [if_neg h1] at h
            have := ih rest (by omega) (lvl - 1) track q r h
            simp; omega
      | .text s :: rest =>
          rw [trackLoop_text] at h
          simp at hl
          have := ih rest (by omega) lvl track q r h
          simp; omega
      | .other s :: rest =>
          rw [trackLoop_other] at h
          simp at hl
          have := ih rest (by omega) lvl track q r h
          simp; omega

/-- trackLoop (RevD) length fact without the induction bound. -/
def trackLoopD_len : ∀ E strict lvl track l q r, trackLoop E strict lvl track l = .ok (q, r) → r.length < l.length := by
  intro E strict lvl track l q r h
  exact trackLoopD_lenAux E strict l.length l (by omega) lvl track q r h

/-- consumeTrack (RevD): the child loop at level 0 on a fresh track. -/
def consumeTrack (E : Parsers) (strict : Bool) (l : List XTok) : Except Err (Track × List XTok) :=
  trackLoop E strict 0 {} l

/-- The child loop of consumeMetadata (RevD): time recognized at level 0
only, read through the RevD consumeTime loop; an end element named
metadata at level 0 ends the metadata. -/
def metaLoop (E : Parsers) (strict : Bool) (lvl : Int) (m : Metadata) : List XTok → Except Err (Metadata × List XTok)
  | [] => .error .eof
  | .start n _ :: rest =>
      if lvl = 0 ∧ n.localName = "time" then
        match h : consumeTime E strict 0 rest with
        | .ok (t, r) => metaLoop E strict lvl { Time := t } r
        | .error e => .error e
      else metaLoop E strict (lvl + 1) m rest
  | .close n :: rest =>
      if lvl = 0 ∧ n.localName = "metadata" then .ok (m, rest)
      else metaLoop E strict (lvl - 1) m rest
  | .text _ :: rest => metaLoop E strict lvl m rest
  | .other _ :: rest => metaLoop E strict lvl m rest
termination_by l => l.length
decreasing_by
  · have := consumeTimeD_len E strict rest 0 t r h; simp; omega
  · simp
  · simp
  · simp
  · simp

/-- Unfolding equation of metaLoop (RevD) on an empty stream. -/
def metaLoop_nil : ∀ E strict lvl m, metaLoop E strict lvl m [] = .error .eof := by
  intro E strict lvl m; rw [metaLoop]

/-- Unfolding equation of metaLoop (RevD) on a start element. -/
def metaLoop_start : ∀ E strict lvl m n a rest,
    metaLoop E strict lvl m (.start n a :: rest) =
      (if lvl = 0 ∧ n.localName = "time" then
        match consumeTime E strict 0 rest with
        | .ok (t, r) => metaLoop E strict lvl { Time := t } r
        | .error e => .error e
      else metaLoop E strict (lvl + 1) m rest) := by
  intro E strict lvl m n a rest
  rw [metaLoop]
  by_cases h1 : lvl = 0 ∧ n.localName = "time"
  · simp only [h1, if_true]
    cases hf : consumeTime E strict 0 rest with
    | ok v => rfl
    | error e => rfl
  · simp only [h1, if_false]

/-- Unfolding equation of metaLoop (RevD) on an end element. -/
def metaLoop_close : ∀ E strict lvl m n rest,
    metaLoop E strict lvl m (.close n :: rest) =
      (if lvl = 0 ∧ n.localName = "metadata" then .ok (m, rest)
       else metaLoop E strict (lvl - 1) m rest) := by
  intro E strict lvl m n rest; rw [metaLoop]

/-- Unfolding equation of metaLoop (RevD) on character data. -/
def metaLoop_text : ∀ E strict lvl m s rest,
    metaLoop E strict lvl m (.text s :: rest) = metaLoop E strict lvl m rest := by
  intro E strict lvl m s rest; rw [metaLoop]

/-- Unfolding equation of metaLoop (RevD) on a comment-like token. -/
def metaLoop_other : ∀ E strict lvl m s rest,
    metaLoop E strict lvl m (.other s :: rest) = metaLoop E strict lvl m rest := by
  intro E strict lvl m s rest; rw [metaLoop]

/-- metaLoop (RevD) leaves a strictly shorter stream on success. -/
def metaLoopD_lenAux : ∀ (E : Parsers) (strict : Bool) (N : Nat) (l : List XTok), l.length ≤ N →
    ∀ lvl m q r, metaLoop E strict lvl m l = .ok (q, r) → r.length < l.length := by
  intro E strict N
  induction N with
  | zero =>
      intro l hl lvl m q r h
      match l with
      | [] => rw [metaLoop_nil] at h; simp at h
  | succ N ih =>
      intro l hl lvl m q r h
      match l with
      | [] => rw [metaLoop_nil] at h; simp at h
      | .start n a :: rest =>
          rw [metaLoop_start] at h
          simp at hl
          by_cases h1 : lvl = 0 ∧ n.localName = "time"
          · rw [if_pos h1] at h
            cases hf : consumeTime E strict 0 rest with
            | ok p2 =>
                obtain ⟨t, r2⟩ := p2
                rw [hf] at h
                simp only [] at h
                have hr2 := consumeTimeD_len E strict rest 0 t r2 hf
                have := ih r2 (by omega) lvl _ q r h
                simp; omega
            | error e => rw [hf] at h; simp at h
          · rw [if_neg h1] at h
            have := ih rest (by omega) (lvl + 1) m q r h
            simp; omega
      | .close n :: rest =>
          rw [metaLoop_close] at h
          simp at hl
          by_cases h1 : lvl = 0 ∧ n.localName = "metadata"
          · rw [if_pos h1] at h
            simp at h
            obtain ⟨hq, h2⟩ := h
            subst h2
            simp
          · rw [if_neg h1] at h
            have := ih rest (by omega) (lvl - 1) m q r h
            simp; omega
      | .text s :: rest =>
          rw [metaLoop_text] at h
          simp at hl
          have := ih rest (by omega) lvl m q r h
          simp; omega
      | .other s :: rest =>
          rw [metaLoop_other] at h
          simp at hl
          have := ih rest (by omega) lvl m q r h
          simp; omega

/-- metaLoop (RevD) length fact without the induction bound. -/
def metaLoopD_len : ∀ E strict lvl m l q r, metaLoop E strict lvl m l = .ok (q, r) → r.length < l.length := by
  intro E strict lvl m l q r h
  exact metaLoopD_lenAux E strict l.length l (by omega) lvl m q r h

/-- consumeMetadata (RevD): the child loop at level 0 on fresh metadata. -/
def consumeMetadata (E : Parsers) (strict : Bool) (l : List XTok) : Except Err (Metadata × List XTok) :=
  metaLoop E strict 0 {} l

/-- The child loop of consumeGPX (RevD): trk and metadata recognized at
level 0 only; an end element named gpx at level 0 ends the document. -/
def gpxLoop (E : Parsers) (strict : Bool) (lvl : Int) (doc : Document) : List XTok → Except Err (Document × List XTok)
  | [] => .error .eof
  | .start n _ :: rest =>
      if lvl = 0 ∧ n.localName = "trk" then
        match h : consumeTrack E strict rest with
        | .ok (track, r) => gpxLoop E strict lvl { doc with Tracks := doc.Tracks ++ [track] } r
        | .error e => .error e
      else if lvl = 0 ∧ n.localName = "metadata" then
        match h : consumeMetadata E strict rest with
        | .ok (m, r) => gpxLoop E strict lvl { doc with Metadata := m } r
        | .error e => .error e
      else gpxLoop E strict (lvl + 1) doc rest
  | .close n :: rest =>
      if lvl = 0 ∧ n.localName = "gpx" then .ok (doc, rest)
      else gpxLoop E strict (lvl - 1) doc rest
  | .text _ :: rest => gpxLoop E strict lvl doc rest
  | .other _ :: rest => gpxLoop E strict lvl doc rest
termination_by l => l.length
decreasing_by
  · have := trackLoopD_len E strict 0 {} rest track r h; simp; omega
  · have := metaLoopD_len E strict 0 {} rest m r h; simp; omega
  · simp
  · simp
  · simp
  · simp

/-- Unfolding equation of gpxLoop (RevD) on an empty stream. -/
def gpxLoop_nil : ∀ E strict lvl doc, gpxLoop E strict lvl doc [] = .error .eof := by
  intro E strict lvl doc; rw [gpxLoop]

/-- Unfolding equation of gpxLoop (RevD) on a start element. -/
def gpxLoop_start : ∀ E strict lvl doc n a rest,
    gpxLoop E strict lvl doc (.start n a :: rest) =
      (if lvl = 0 ∧ n.localName = "trk" then
        match consumeTrack E strict rest with
        | .ok (track, r) => gpxLoop E strict lvl { doc with Tracks := doc.Tracks ++ [track] } r
        | .error e => .error e
      else if lvl = 0 ∧ n.localName = "metadata" then
        match consumeMetadata E strict rest with
        | .ok (m, r) => gpxLoop E strict lvl { doc with Metadata := m } r
        | .error e => .error e
      else gpxLoop E strict (lvl + 1) doc rest) := by
  intro E strict lvl doc n a rest
  rw [gpxLoop]
  by_cases h1 : lvl = 0 ∧ n.localName = "trk"
  · simp only [h1, if_true]
    cases hf : consumeTrack E strict rest with
    | ok v => rfl
    | error e => rfl
  · simp only [h1, if_false]
    by_cases h2 : lvl = 0 ∧ n.localName = "metadata"
    · simp only [h2, if_true]
      cases hf : consumeMetadata E strict rest with
      | ok v => rfl
      | error e => rfl
    · simp only [h2, if_false]

/-- Unfolding equation of gpxLoop (RevD) on an end element. -/
def gpxLoop_close : ∀ E strict lvl doc n rest,
    gpxLoop E strict lvl doc (.close n :: rest) =
      (if lvl = 0 ∧ n.localName = "gpx" then .ok (doc, rest)
       else gpxLoop E strict (lvl - 1) doc rest) := by
  intro E strict lvl doc n rest; rw [gpxLoop]

/-- Unfolding equation of gpxLoop (RevD) on character data. -/
def gpxLoop_text : ∀ E strict lvl doc s rest,
    gpxLoop E strict lvl doc (.text s :: rest) = gpxLoop E strict lvl doc rest := by
  intro E strict lvl doc s rest; rw [gpxLoop]

/-- Unfolding equation of gpxLoop (RevD) on a comment-like token. -/
def gpxLoop_other : ∀ E strict lvl doc s rest,
    gpxLoop E strict lvl doc (.other s :: rest) = gpxLoop E strict lvl doc rest := by
  intro E strict lvl doc s rest; rw [gpxLoop]

/-- consumeGPX (RevD): read the version attribute of the root start
element, then the child loop at level 0. -/
def consumeGPX (E : Parsers) (strict : Bool) (attrs : List Attr) (l : List XTok) :
    Except Err (Document × List XTok) :=
  gpxLoop E strict 0 { Version := versionOf attrs } l

/-- Decode (RevD): findGPX (the same root validation as RevB, with equal
error messages built by errors.New in place of the shared variables),
then consumeGPX on the root attributes. -/
def Decode (E : Parsers) (strict : Bool) (l : List XTok) : Except Err Document :=
  match findGPX l with
  | .error e => .error e
  | .ok (_, attrs, rest) =>
      match consumeGPX E strict attrs rest with
      | .ok (doc, _) => .ok doc
      | .error e => .error e

end RevD

/-- Garmin TrackPointExtension record (third unit of unnamed/part_001):
float64 fields as rationals, uint fields as Nat. -/
structure GarminTrackPointExtension where
  ATemp : Rat := 0
  WTemp : Rat := 0
  Depth : Rat := 0
  HeartRate : Nat := 0
  Cadence : Nat := 0
deriving DecidableEq, Repr

/-- The Garmin TrackPointExtension namespace URI. -/
def GarminTrackPointExtensionNS : String := "http://www.garmin.com/xmlschemas/TrackPointExtension/v1"

/-- Go uint conversion of a (64-bit) int: reduction modulo 2 to the 64. -/
def uint64Of (n : Int) : Nat := (n % (2 ^ 64 : Int)).toNat

/-- Outcomes of the extension parsing path.  `noSuchExtension` is the
shared value ErrNoSuchExtension; `eof` is io.EOF as produced by
sliceTokener.Token on a nil token; `unexpectedElement` is the tokenStream
consumeString error; `panicked` models the Go runtime panic (index out of
range) that sliceTokener.Token raises by evaluating t.tokens[0] on an
exhausted slice before any emptiness check. -/
inductive ExtErr where
  | noSuchExtension
  | eof
  | unexpectedElement
  | panicked
deriving DecidableEq, Repr

/-- The extension parser reads a point buffer through sliceTokener, whose
element type is Go []xml.Token: entries are interface values that could
in principle be nil, which is what the `tok == nil` check of
sliceTokener.Token tests; `none` models such a nil entry (consumeExtensions
never produces one).  tokenStream.consumeString over a sliceTokener:
an exhausted slice is the index-out-of-range panic, a nil entry io.EOF. -/
def sliceConsumeString : List (Option XTok) → Except ExtErr (String × List (Option XTok))
  | [] => .error .panicked
  | none :: _ => .error .eof
  | some (.text s) :: rest =>
      match sliceConsumeString rest with
      | .ok (s2, r) => .ok (s ++ s2, r)
      | .error e => .error e
  | some (.close _) :: rest => .ok ("", rest)
  | some (.start _ _) :: _ => .error .unexpectedElement
  | some (.other _) :: _ => .error .unexpectedElement

/-- tokenStream.skipTag over a sliceTokener (same level counting as the
live version). -/
def sliceSkipTag : Nat → List (Option XTok) → Except ExtErr (List (Option XTok))
  | _, [] => .error .panicked
  | _, none :: _ => .error .eof
  | lvl, some (.start _ _) :: rest => sliceSkipTag (lvl + 1) rest
  | lvl, some (.close _) :: rest => if lvl = 0 then .ok rest else sliceSkipTag (lvl - 1) rest
  | lvl, some (.text _) :: rest => sliceSkipTag lvl rest
  | lvl, some (.other _) :: rest => sliceSkipTag lvl rest

/-- sliceConsumeString leaves a strictly shorter buffer on success. -/
def sliceConsumeString_len : ∀ l s r, sliceConsumeString l = .ok (s, r) → r.length < l.length := by
  intro l
  induction l with
  | nil => intro s r h; simp [sliceConsumeString] at h
  | cons t rest ih =>
      intro s r h
      match t with
      | none => rw [sliceConsumeString] at h; simp at h
      | some (.text s0) =>
          rw [sliceConsumeString] at h
          cases hr : sliceConsumeString rest with
          | ok p =>
              obtain ⟨s2, r2⟩ := p
              rw [hr] at h
              simp at h
              obtain ⟨h1, h2⟩ := h
              subst h2
              have := ih s2 _ hr
              simp; omega
          | error e => rw [hr] at h; simp at h
      | some (.close n) =>
          rw [sliceConsumeString] at h
          simp at h
          obtain ⟨h1, h2⟩ := h
          subst h2
          simp
      | some (.start n a) => rw [sliceConsumeString] at h; simp at h
      | some (.other s0) => rw [sliceConsumeString] at h; simp at h

/-- sliceSkipTag leaves a strictly shorter buffer on success. -/
def sliceSkipTag_len : ∀ l lvl r, sliceSkipTag lvl l = .ok r → r.length < l.length := by
  intro l
  induction l with
  | nil => intro lvl r h; simp [sliceSkipTag] at h
  | cons t rest ih =>
      intro lvl r h
      match t with
      | none => rw [sliceSkipTag] at h; simp at h
      | some (.start n a) =>
          rw [sliceSkipTag] at h
          have := ih (lvl + 1) r h
          simp; omega
      | some (.close n) =>
          rw [sliceSkipTag] at h
          by_cases hl : lvl = 0
          · simp [hl] at h; simp [← h]
          · simp [hl] at h; have := ih (lvl - 1) r h; simp; omega
      | some (.text s0) =>
          rw [sliceSkipTag] at h
          have := ih lvl r h
          simp; omega
      | some (.other s0) =>
          rw [sliceSkipTag] at h
          have := ih lvl r h
          simp; omega

/-- Result of findExtension: the envelope start element was found (the
buffer after it returned), or the scan answered false, or the slice was
exhausted and sliceTokener.Token panicked. -/
inductive FindRes where
  | found (rest : List (Option XTok))
  | notFound
  | panicked
deriving DecidableEq, Repr

/-- findExtension: scan forward for a start element with the given
namespace and local name, skipping every other element subtree, answering
false at an end element or a token error.  Go discards the error of the
inner ts.skipTag() call; if that error was io.EOF (a nil entry, left
unconsumed), the next ts.Token() call returns the same io.EOF and the
scan answers false, so that path is folded into notFound here, while a
panic inside the skip propagates. -/
def findExtension (space localN : String) : List (Option XTok) → FindRes
  | [] => .panicked
  | none :: _ => .notFound
  | some (.start n _) :: rest =>
      if n.space = space ∧ n.localName = localN then .found rest
      else
        match h : sliceSkipTag 0 rest with
        | .ok r => findExtension space localN r
        | .error .panicked => .panicked
        | .error _ => .notFound
  | some (.close _) :: _ => .notFound
  | some (.text _) :: rest => findExtension space localN rest
  | some (.other _) :: rest => findExtension space localN rest
termination_by l => l.length
decreasing_by
  · have := sliceSkipTag_len rest 0 r h; simp; omega
  · simp
  · simp

/-- The field loop of ParseGarminTrackPointExtension: children of the
envelope whose namespace is not the Garmin one are skipped whatever their
local name; recognized Garmin fields are read through consumeString (its
errors propagate) and parsed with the error discarded - a failed numeric
parse is never fatal, the zero result of Atoi / ParseFloat is stored;
unrecognized Garmin children are skipped.  An end element (the envelope
close) returns the record.  As in findExtension, the discarded error of
an inner skipTag surfaces as io.EOF at the next Token call, here returned
as the error of the whole parse. -/
def garminLoop (E : Parsers) (e : GarminTrackPointExtension) :
    List (Option XTok) → Except ExtErr GarminTrackPointExtension
  | [] => .error .panicked
  | none :: _ => .error .eof
  | some (.start n _) :: rest =>
      if n.space ≠ GarminTrackPointExtensionNS then
        match h : sliceSkipTag 0 rest with
        | .ok r => garminLoop E e r
        | .error err => .error err
      else if n.localName = "hr" then
        match h : sliceConsumeString rest with
        | .ok (s, r) => garminLoop E { e with HeartRate := uint64Of (E.atoi s) } r
        | .error err => .error err
      else if n.localName = "cad" then
        match h : sliceConsumeString rest with
        | .ok (s, r) => garminLoop E { e with Cadence := uint64Of (E.atoi s) } r
        | .error err => .error err
      else if n.localName = "atemp" then
        match h : sliceConsumeString rest with
        | .ok (s, r) => garminLoop E { e with ATemp := (E.parseFloat s).getD 0 } r
        | .error err => .error err
      else if n.localName = "wtemp" then
        match h : sliceConsumeString rest with
        | .ok (s, r) => garminLoop E { e with WTemp := (E.parseFloat s).getD 0 } r
        | .error err => .error err
      else if n.localName = "depth" then
        match h : sliceConsumeString rest with
        | .ok (s, r) => garminLoop E { e with Depth := (E.parseFloat s).getD 0 } r
        | .error err => .error err
      else
        match h : sliceSkipTag 0 rest with
        | .ok r => garminLoop E e r
        | .error err => .error err
  | some (.close _) :: _ => .ok e
  | some (.text _) :: rest => garminLoop E e rest
  | some (.other _) :: rest => garminLoop E e rest
termination_by l => l.length
decreasing_by
  · have := sliceSkipTag_len rest 0 r h; simp; omega
  · have := sliceConsumeString_len rest s r h; simp; omega
  · have := sliceConsumeString_len rest s r h; simp; omega
  · have := sliceConsumeString_len rest s r h; simp; omega
  · have := sliceConsumeString_len rest s r h; simp; omega
  · have := sliceConsumeString_len rest s r h; simp; omega
  · have := sliceSkipTag_len rest 0 r h; simp; omega
  · simp
  · simp

/-- ParseGarminTrackPointExtension: run findExtension for the Garmin
envelope over a sliceTokener on the captured buffer; absence of the
envelope is the distinct outcome ErrNoSuchExtension; once found, the
field loop decodes the children. -/
def ParseGarminTrackPointExtension (E : Parsers) (tokens : List XTok) :
    Except ExtErr GarminTrackPointExtension :=
  match findExtension GarminTrackPointExtensionNS "TrackPointExtension" (tokens.map some) with
  | .panicked => .error .panicked
  | .notFound => .error .noSuchExtension
  | .found rest => garminLoop E {} rest

mutual
/-- A generic well-formed XML element tree: content the decoders skip over
or capture without interpretation.  `txt` is character data, `misc` a
comment-like token. -/
inductive GTree where
  | elem (n : XName) (attrs : List Attr) (children : GForest)
  | txt (s : String)
  | misc (s : String)
deriving DecidableEq, Repr

/-- A forest of generic trees. -/
inductive GForest where
  | nil
  | cons (t : GTree) (ts : GForest)
deriving DecidableEq, Repr
end

mutual
/-- Token serialization of a generic tree. -/
def serialize1 : GTree → List XTok
  | .elem n a cs => .start n a :: serializeF cs ++ [.close n]
  | .txt s => [.text s]
  | .misc s => [.other s]

/-- Token serialization of a forest. -/
def serializeF : GForest → List XTok
  | .nil => []
  | .cons t ts => serialize1 t ++ serializeF ts
end

/-- A forest made of character data only (the well-formed content of a
leaf element). -/
def allTextF : GForest → Bool
  | .nil => true
  | .cons (.txt _) ts => allTextF ts
  | .cons _ _ => false

/-- Concatenation of the character data of a forest, in order (what
consumeString accumulates). -/
def concatF : GForest → String
  | .nil => ""
  | .cons (.txt s) ts => s ++ concatF ts
  | .cons _ ts => concatF ts

/-- Every character data chunk of the forest parses as a float. -/
def allParseFloatF (E : Parsers) : GForest → Bool
  | .nil => true
  | .cons (.txt s) ts => (E.parseFloat s).isSome && allParseFloatF E ts
  | .cons _ ts => allParseFloatF E ts

/-- Every character data chunk of the forest parses as a timestamp. -/
def allParseTimeF (E : Parsers) : GForest → Bool
  | .nil => true
  | .cons (.txt s) ts => (E.parseTime s).isSome && allParseTimeF E ts
  | .cons _ ts => allParseTimeF E ts

/-- The top of the tree is not an element with one of the given local
names (so a grammar level that recognizes exactly those names will skip
the tree). -/
def topNotIn (bad : List String) : GTree → Bool
  | .elem n _ _ => !(bad.contains n.localName)
  | _ => true

/-- Source-level children of a trkpt element.  ele / time / exts carry
the namespace and attributes of their element (both ignored by the
decoders) and the element content as a forest; `skip` is any other
child item (an element the point level does not recognize, stray
character data or a comment-like token). -/
inductive PItem where
  | ele (sp : String) (a : List Attr) (chunks : GForest)
  | time (sp : String) (a : List Attr) (chunks : GForest)
  | exts (sp : String) (a : List Attr) (body : GForest)
  | skip (t : GTree)
deriving DecidableEq, Repr

/-- Source-level children of a trkseg element. -/
inductive SItem where
  | pt (sp : String) (a : List Attr) (items : List PItem)
  | skip (t : GTree)
deriving DecidableEq, Repr

/-- Source-level children of a trk element. -/
inductive TItem where
  | seg (sp : String) (a : List Attr) (items : List SItem)
  | skip (t : GTree)
deriving DecidableEq, Repr

/-- Source-level children of a metadata element. -/
inductive MItem where
  | mtime (sp : String) (a : List Attr) (chunks : GForest)
  | skip (t : GTree)
deriving DecidableEq, Repr

/-- Source-level children of the gpx root element. -/
inductive GItem where
  | trk (sp : String) (a : List Attr) (items : List TItem)
  | meta (sp : String) (a : List Attr) (items : List MItem)
  | skip (t : GTree)
deriving DecidableEq, Repr

/-- A source GPX document: the namespace and attributes of the root gpx
element and its children. -/
structure SDoc where
  rootSpace : String
  rootAttrs : List Attr
  items : List GItem
deriving DecidableEq, Repr

/-- Serialization of a point child. -/
def serializePItem : PItem → List XTok
  | .ele sp a chunks => .start ⟨sp, "ele"⟩ a :: serializeF chunks ++ [.close ⟨sp, "ele"⟩]
  | .time sp a chunks => .start ⟨sp, "time"⟩ a :: serializeF chunks ++ [.close ⟨sp, "time"⟩]
  | .exts sp a body => .start ⟨sp, "extensions"⟩ a :: serializeF body ++ [.close ⟨sp, "extensions"⟩]
  | .skip t => serialize1 t

/-- Serialization of a list of point children. -/
def serializePItems : List PItem → List XTok
  | [] => []
  | i :: is => serializePItem i ++ serializePItems is

/-- Serialization of a segment child. -/
def serializeSItem : SItem → List XTok
  | .pt sp a items => .start ⟨sp, "trkpt"⟩ a :: serializePItems items ++ [.close ⟨sp, "trkpt"⟩]
  | .skip t => serialize1 t

/-- Serialization of a list of segment children. -/
def serializeSItems : List SItem → List XTok
  | [] => []
  | i :: is => serializeSItem i ++ serializeSItems is

/-- Serialization of a track child. -/
def serializeTItem : TItem → List XTok
  | .seg sp a items => .start ⟨sp, "trkseg"⟩ a :: serializeSItems items ++ [.close ⟨sp, "trkseg"⟩]
  | .skip t => serialize1 t

/-- Serialization of a list of track children. -/
def serializeTItems : List TItem → List XTok
  | [] => []
  | i :: is => serializeTItem i ++ serializeTItems is

/-- Serialization of a metadata child. -/
def serializeMItem : MItem → List XTok
  | .mtime sp a chunks => .start ⟨sp, "time"⟩ a :: serializeF chunks ++ [.close ⟨sp, "time"⟩]
  | .skip t => serialize1 t

/-- Serialization of a list of metadata children. -/
def serializeMItems : List MItem → List XTok
  | [] => []
  | i :: is => serializeMItem i ++ serializeMItems is

/-- Serialization of a root child. -/
def serializeGItem : GItem → List XTok
  | .trk sp a items => .start ⟨sp, "trk"⟩ a :: serializeTItems items ++ [.close ⟨sp, "trk"⟩]
  | .meta sp a items => .start ⟨sp, "metadata"⟩ a :: serializeMItems items ++ [.close ⟨sp, "metadata"⟩]
  | .skip t => serialize1 t

/-- Serialization of a list of root children. -/
def serializeGItems : List GItem → List XTok
  | [] => []
  | i :: is => serializeGItem i ++ serializeGItems is

/-- Serialization of a whole source document. -/
def serializeDoc (d : SDoc) : List XTok :=
  .start ⟨d.rootSpace, "gpx"⟩ d.rootAttrs :: serializeGItems d.items ++ [.close ⟨d.rootSpace, "gpx"⟩]

/-- Every lat / lon attribute value parses as a float (so the shared
attribute loop cannot fail, in either strictness mode). -/
def latlonOk (E : Parsers) (attrs : List Attr) : Bool :=
  attrs.all fun a =>
    if a.1.localName = "lat" ∨ a.1.localName = "lon" then (E.parseFloat a.2).isSome else true

/-- Well-formedness of a point child for the RevB decoder: leaf contents
are character data only and parse successfully (RevB returns the raw
parse error of consumeFloat / consumeTime in either strictness mode, so
parse success is what a decodable document requires); unknown children do
not carry a recognized local name at their top. -/
def wfPItemB (E : Parsers) : PItem → Bool
  | .ele _ _ chunks => allTextF chunks && (E.parseFloat (concatF chunks)).isSome
  | .time _ _ chunks => allTextF chunks && (E.parseTime (concatF chunks)).isSome
  | .exts _ _ _ => true
  | .skip t => topNotIn ["ele", "time", "extensions"] t

/-- Well-formedness of a point child list (RevB). -/
def wfPItemsB (E : Parsers) (l : List PItem) : Bool := l.all (wfPItemB E)

/-- Well-formedness of a segment child (RevB). -/
def wfSItemB (E : Parsers) : SItem → Bool
  | .pt _ a items => latlonOk E a && wfPItemsB E items
  | .skip t => topNotIn ["trkpt"] t

/-- Well-formedness of a segment child list (RevB). -/
def wfSItemsB (E : Parsers) (l : List SItem) : Bool := l.all (wfSItemB E)

/-- Well-formedness of a track child (RevB). -/
def wfTItemB (E : Parsers) : TItem → Bool
  | .seg _ _ items => wfSItemsB E items
  | .skip t => topNotIn ["trkseg"] t

/-- Well-formedness of a track child list (RevB). -/
def wfTItemsB (E : Parsers) (l : List TItem) : Bool := l.all (wfTItemB E)

/-- Well-formedness of a metadata child (RevB, whose metadata time goes
through tokenStream.consumeTime: text only, concatenation parses). -/
def wfMItemB (E : Parsers) : MItem → Bool
  | .mtime _ _ chunks => allTextF chunks && (E.parseTime (concatF chunks)).isSome
  | .skip t => topNotIn ["time"] t

/-- Well-formedness of a metadata child list (RevB). -/
def wfMItemsB (E : Parsers) (l : List MItem) : Bool := l.all (wfMItemB E)

/-- Well-formedness of a root child (RevB). -/
def wfGItemB (E : Parsers) : GItem → Bool
  | .trk _ _ items => wfTItemsB E items
  | .meta _ _ items => wfMItemsB E items
  | .skip t => topNotIn ["trk", "metadata"] t

/-- Well-formedness of a root child list (RevB). -/
def wfGItemsB (E : Parsers) (l : List GItem) : Bool := l.all (wfGItemB E)

/-- Well-formedness of a whole source document for the RevB decoder: the
root namespace is the GPX 1.1 one and every child is well formed. -/
def wfDocB (E : Parsers) (d : SDoc) : Bool :=
  decide (d.rootSpace = nsGPX11) && wfGItemsB E d.items

/-- Well-formedness of a point child for the RevD decoder: leaf contents
are character data only, and in strict mode every chunk parses (in
lenient mode RevD absorbs parse failures, leaving the zero value). -/
def wfPItemD (E : Parsers) (strict : Bool) : PItem → Bool
  | .ele _ _ chunks => allTextF chunks && (!strict || allParseFloatF E chunks)
  | .time _ _ chunks => allTextF chunks && (!strict || allParseTimeF E chunks)
  | .exts _ _ _ => true
  | .skip t => topNotIn ["ele", "time", "extensions"] t

/-- Well-formedness of a point child list (RevD). -/
def wfPItemsD (E : Parsers) (strict : Bool) (l : List PItem) : Bool := l.all (wfPItemD E strict)

/-- Well-formedness of a segment child (RevD). -/
def wfSItemD (E : Parsers) (strict : Bool) : SItem → Bool
  | .pt _ a items => latlonOk E a && wfPItemsD E strict items
  | .skip t => topNotIn ["trkpt"] t

/-- Well-formedness of a segment child list (RevD). -/
def wfSItemsD (E : Parsers) (strict : Bool) (l : List SItem) : Bool := l.all (wfSItemD E strict)

/-- Well-formedness of a track child (RevD). -/
def wfTItemD (E : Parsers) (strict : Bool) : TItem → Bool
  | .seg _ _ items => wfSItemsD E strict items
  | .skip t => topNotIn ["trkseg"] t

/-- Well-formedness of a track child list (RevD). -/
def wfTItemsD (E : Parsers) (strict : Bool) (l : List TItem) : Bool := l.all (wfTItemD E strict)

/-- Well-formedness of a metadata child (RevD, whose metadata time goes
through the RevD consumeTime loop). -/
def wfMItemD (E : Parsers) (strict : Bool) : MItem → Bool
  | .mtime _ _ chunks => allTextF chunks && (!strict || allParseTimeF E chunks)
  | .skip t => topNotIn ["time"] t

/-- Well-formedness of a metadata child list (RevD). -/
def wfMItemsD (E : Parsers) (strict : Bool) (l : List MItem) : Bool := l.all (wfMItemD E strict)

/-- Well-formedness of a root child (RevD). -/
def wfGItemD (E : Parsers) (strict : Bool) : GItem → Bool
  | .trk _ _ items => wfTItemsD E strict items
  | .meta _ _ items => wfMItemsD E strict items
  | .skip t => topNotIn ["trk", "metadata"] t

/-- Well-formedness of a root child list (RevD). -/
def wfGItemsD (E : Parsers) (strict : Bool) (l : List GItem) : Bool := l.all (wfGItemD E strict)

/-- Well-formedness of a whole source document for the RevD decoder. -/
def wfDocD (E : Parsers) (strict : Bool) (d : SDoc) : Bool :=
  decide (d.rootSpace = nsGPX11) && wfGItemsD E strict d.items

/-- The content of a leaf is exactly one character data chunk whose value
parses as a float (the class of documents on which the two embedded
decoder revisions agree). -/
def oneTextFloat (E : Parsers) : GForest → Bool
  | .cons (.txt s) .nil => (E.parseFloat s).isSome
  | _ => false

/-- The content of a leaf is exactly one character data chunk whose value
parses as a timestamp. -/
def oneTextTime (E : Parsers) : GForest → Bool
  | .cons (.txt s) .nil => (E.parseTime s).isSome
  | _ => false

/-- Strong well-formedness of a point child: as wfPItemB, with every leaf
a single parsing chunk. -/
def wfPItemS (E : Parsers) : PItem → Bool
  | .ele _ _ chunks => oneTextFloat E chunks
  | .time _ _ chunks => oneTextTime E chunks
  | .exts _ _ _ => true
  | .skip t => topNotIn ["ele", "time", "extensions"] t

/-- Strong well-formedness of a segment child. -/
def wfSItemS (E : Parsers) : SItem → Bool
  | .pt _ a items => latlonOk E a && items.all (wfPItemS E)
  | .skip t => topNotIn ["trkpt"] t

/-- Strong well-formedness of a track child. -/
def wfTItemS (E : Parsers) : TItem → Bool
  | .seg _ _ items => items.all (wfSItemS E)
  | .skip t => topNotIn ["trkseg"] t

/-- Strong well-formedness of a metadata child. -/
def wfMItemS (E : Parsers) : MItem → Bool
  | .mtime _ _ chunks => oneTextTime E chunks
  | .skip t => topNotIn ["time"] t

/-- Strong well-formedness of a root child. -/
def wfGItemS (E : Parsers) : GItem → Bool
  | .trk _ _ items => items.all (wfTItemS E)
  | .meta _ _ items => items.all (wfMItemS E)
  | .skip t => topNotIn ["trk", "metadata"] t

/-- Strong well-formedness of a document: every leaf holds exactly one
parsing character data chunk and every lat / lon value parses.  On this
class both embedded revisions succeed with the same result. -/
def wfDocS (E : Parsers) (d : SDoc) : Bool :=
  decide (d.rootSpace = nsGPX11) && d.items.all (wfGItemS E)

/-- The point produced by the shared trkpt attribute loop from a starting
point, outside of error cases: a parsing lat / lon value overwrites the
coordinate, anything else leaves the point unchanged. -/
def pointFoldAttrs (E : Parsers) (attrs : List Attr) (p : Point) : Point :=
  attrs.foldl
    (fun p a =>
      if a.1.localName = "lat" then
        match E.parseFloat a.2 with
        | some v => { p with Latitude := v }
        | none => p
      else if a.1.localName = "lon" then
        match E.parseFloat a.2 with
        | some v => { p with Longitude := v }
        | none => p
      else p)
    p

/-- Effect of one source point child on the decoded point, RevB: a leaf
stores the parse of its concatenated text (zero on failure), extensions
stores the serialized body verbatim, an unknown child changes nothing. -/
def applyP (E : Parsers) (p : Point) : PItem → Point
  | .ele _ _ chunks => { p with Elevation := (E.parseFloat (concatF chunks)).getD 0 }
  | .time _ _ chunks => { p with Time := (E.parseTime (concatF chunks)).getD 0 }
  | .exts _ _ body => { p with Extensions := serializeF body }
  | .skip _ => p

/-- The decoded point of a source trkpt, RevB. -/
def pointOfB (E : Parsers) (attrs : List Attr) (items : List PItem) : Point :=
  items.foldl (applyP E) (pointFoldAttrs E attrs {})

/-- The decoded segment of a source trkseg, RevB: one Point per trkpt
child, in document order, nothing else contributing. -/
def segOfB (E : Parsers) (items : List SItem) : Segment :=
  { Points := items.filterMap fun i =>
      match i with
      | .pt _ a pis => some (pointOfB E a pis)
      | .skip _ => none }

/-- The decoded track of a source trk, RevB: one Segment per trkseg
child, in document order. -/
def trackOfB (E : Parsers) (items : List TItem) : Track :=
  { Segments := items.filterMap fun i =>
      match i with
      | .seg _ _ sis => some (segOfB E sis)
      | .skip _ => none }

/-- The decoded metadata of a source metadata element, RevB: the last
time child wins. -/
def metaOfB (E : Parsers) (items : List MItem) : Metadata :=
  items.foldl
    (fun m i =>
      match i with
      | .mtime _ _ chunks => { Time := (E.parseTime (concatF chunks)).getD 0 }
      | .skip _ => m)
    {}

/-- The decoded document of a source document, RevB, following the words
of the specification: the version attribute copied verbatim, one Track
per trk child in document order (no reordering, no deduplication), the
last metadata child providing the metadata, each track holding one
Segment per trkseg child and each segment one Point per trkpt child, all
in document order. -/
def docOfB (E : Parsers) (d : SDoc) : Document :=
  { Version := versionOf d.rootAttrs
    Metadata := d.items.foldl
      (fun md i =>
        match i with
        | .meta _ _ mis => metaOfB E mis
        | _ => md)
      {}
    Tracks := d.items.filterMap fun i =>
      match i with
      | .trk _ _ tis => some (trackOfB E tis)
      | _ => none }

/-- The elevation computed by the RevD consumeEle loop over leaf content:
each character data chunk overwrites the value with its parse (zero when
the parse fails, in lenient mode), other chunks leave it unchanged. -/
def eleValD (E : Parsers) : Rat → GForest → Rat
  | cur, .nil => cur
  | _, .cons (.txt s) ts => eleValD E ((E.parseFloat s).getD 0) ts
  | cur, .cons _ ts => eleValD E cur ts

/-- The timestamp computed by the RevD consumeTime loop over leaf
content. -/
def timeValD (E : Parsers) : Nat → GForest → Nat
  | cur, .nil => cur
  | _, .cons (.txt s) ts => timeValD E ((E.parseTime s).getD 0) ts
  | cur, .cons _ ts => timeValD E cur ts

/-- Effect of one source point child on the decoded point, RevD. -/
def applyPD (E : Parsers) (p : Point) : PItem → Point
  | .ele _ _ chunks => { p with Elevation := eleValD E 0 chunks }
  | .time _ _ chunks => { p with Time := timeValD E 0 chunks }
  | .exts _ _ body => { p with Extensions := serializeF body }
  | .skip _ => p

/-- The decoded point of a source trkpt, RevD. -/
def pointOfD (E : Parsers) (attrs : List Attr) (items : List PItem) : Point :=
  items.foldl (applyPD E) (pointFoldAttrs E attrs {})

/-- The decoded segment of a source trkseg, RevD. -/
def segOfD (E : Parsers) (items : List SItem) : Segment :=
  { Points := items.filterMap fun i =>
      match i with
      | .pt _ a pis => some (pointOfD E a pis)
      | .skip _ => none }

/-- The decoded track of a source trk, RevD. -/
def trackOfD (E : Parsers) (items : List TItem) : Track :=
  { Segments := items.filterMap fun i =>
      match i with
      | .seg _ _ sis => some (segOfD E sis)
      | .skip _ => none }

/-- The decoded metadata of a source metadata element, RevD. -/
def metaOfD (E : Parsers) (items : List MItem) : Metadata :=
  items.foldl
    (fun m i =>
      match i with
      | .mtime _ _ chunks => { Time := timeValD E 0 chunks }
      | .skip _ => m)
    {}

/-- The decoded document of a source document, RevD. -/
def docOfD (E : Parsers) (d : SDoc) : Document :=
  { Version := versionOf d.rootAttrs
    Metadata := d.items.foldl
      (fun md i =>
        match i with
        | .meta _ _ mis => metaOfD E mis
        | _ => md)
      {}
    Tracks := d.items.filterMap fun i =>
      match i with
      | .trk _ _ tis => some (trackOfD E tis)
      | _ => none }

/-- Point children with the unknown ones removed. -/
def stripPItems : List PItem → List PItem
  | [] => []
  | .skip _ :: is => stripPItems is
  | i :: is => i :: stripPItems is

/-- Segment children with the unknown ones removed, recursively. -/
def stripSItems : List SItem → List SItem
  | [] => []
  | .skip _ :: is => stripSItems is
  | .pt sp a pis :: is => .pt sp a (stripPItems pis) :: stripSItems is

/-- Track children with the unknown ones removed, recursively. -/
def stripTItems : List TItem → List TItem
  | [] => []
  | .skip _ :: is => stripTItems is
  | .seg sp a sis :: is => .seg sp a (stripSItems sis) :: stripTItems is

/-- Metadata children with the unknown ones removed. -/
def stripMItems : List MItem → List MItem
  | [] => []
  | .skip _ :: is => stripMItems is
  | i :: is => i :: stripMItems is

/-- Root children with the unknown ones removed, recursively. -/
def stripGItems : List GItem → List GItem
  | [] => []
  | .skip _ :: is => stripGItems is
  | .trk sp a tis :: is => .trk sp a (stripTItems tis) :: stripGItems is
  | .meta sp a mis :: is => .meta sp a (stripMItems mis) :: stripGItems is

/-- A source document with every unknown child removed, at every grammar
level. -/
def stripDoc (d : SDoc) : SDoc := { d with items := stripGItems d.items }

/-- Balance check on a token list, with the running depth explicit: open
tags push, close tags pop, the list must end at depth zero and no close
may appear at depth zero. -/
def balAux : Nat → List XTok → Bool
  | 0, [] => true
  | _ + 1, [] => false
  | d, .start _ _ :: r => balAux (d + 1) r
  | 0, .close _ :: _ => false
  | d + 1, .close _ :: r => balAux d r
  | d, .text _ :: r => balAux d r
  | d, .other _ :: r => balAux d r

/-- A fully balanced token list. -/
def balancedToks (l : List XTok) : Bool := balAux 0 l

/-- Token kind tests. -/
def isStartTok : XTok → Bool
  | .start _ _ => true
  | _ => false

/-- An end element token. -/
def isCloseTok : XTok → Bool
  | .close _ => true
  | _ => false

/-- A character data token. -/
def isTextTok : XTok → Bool
  | .text _ => true
  | _ => false

/-- A comment-like token. -/
def isOtherTok : XTok → Bool
  | .other _ => true
  | _ => false

/-- Rename every namespace of a qualified name with f (local names and
values untouched). -/
def mapName (f : String → String) (n : XName) : XName := ⟨f n.space, n.localName⟩

/-- Rename the namespaces of an attribute list. -/
def mapAttrs (f : String → String) (a : List Attr) : List Attr :=
  a.map fun x => (mapName f x.1, x.2)

/-- Rename the namespaces of one token. -/
def mapTok (f : String → String) : XTok → XTok
  | .start n a => .start (mapName f n) (mapAttrs f a)
  | .close n => .close (mapName f n)
  | .text s => .text s
  | .other s => .other s

/-- Rename the namespaces of a token list. -/
def mapToks (f : String → String) (l : List XTok) : List XTok := l.map (mapTok f)

/-- Rename the namespaces inside a decoded point (only its captured
extension buffer holds any). -/
def mapPointSp (f : String → String) (p : Point) : Point :=
  { p with Extensions := mapToks f p.Extensions }

/-- Rename the namespaces inside a decoded segment. -/
def mapSegSp (f : String → String) (s : Segment) : Segment :=
  { Points := s.Points.map (mapPointSp f) }

/-- Rename the namespaces inside a decoded track. -/
def mapTrackSp (f : String → String) (t : Track) : Track :=
  { Segments := t.Segments.map (mapSegSp f) }

/-- Rename the namespaces inside a decoded document. -/
def mapDocSp (f : String → String) (d : Document) : Document :=
  { d with Tracks := d.Tracks.map (mapTrackSp f) }

/-- Source-level children of the Garmin TrackPointExtension envelope:
the five recognized fields (in the Garmin namespace) with their element
attributes and content, or anything else. -/
inductive FItem where
  | hr (a : List Attr) (chunks : GForest)
  | cad (a : List Attr) (chunks : GForest)
  | atemp (a : List Attr) (chunks : GForest)
  | wtemp (a : List Attr) (chunks : GForest)
  | depth (a : List Attr) (chunks : GForest)
  | skip (t : GTree)
deriving DecidableEq, Repr

/-- Serialization of an envelope child. -/
def serializeFItem : FItem → List XTok
  | .hr a chunks => .start ⟨GarminTrackPointExtensionNS, "hr"⟩ a :: serializeF chunks ++ [.close ⟨GarminTrackPointExtensionNS, "hr"⟩]
  | .cad a chunks => .start ⟨GarminTrackPointExtensionNS, "cad"⟩ a :: serializeF chunks ++ [.close ⟨GarminTrackPointExtensionNS, "cad"⟩]
  | .atemp a chunks => .start ⟨GarminTrackPointExtensionNS, "atemp"⟩ a :: serializeF chunks ++ [.close ⟨GarminTrackPointExtensionNS, "atemp"⟩]
  | .wtemp a chunks => .start ⟨GarminTrackPointExtensionNS, "wtemp"⟩ a :: serializeF chunks ++ [.close ⟨GarminTrackPointExtensionNS, "wtemp"⟩]
  | .depth a chunks => .start ⟨GarminTrackPointExtensionNS, "depth"⟩ a :: serializeF chunks ++ [.close ⟨GarminTrackPointExtensionNS, "depth"⟩]
  | .skip t => serialize1 t

/-- Serialization of a list of envelope children. -/
def serializeFItems : List FItem → List XTok
  | [] => []
  | i :: is => serializeFItem i ++ serializeFItems is

/-- The recognized field names of the Garmin envelope. -/
def garminFieldNames : List String := ["hr", "cad", "atemp", "wtemp", "depth"]

/-- The top of the tree is not a recognized Garmin field element (such a
tree is skipped by the envelope field loop). -/
def notGarminField : GTree → Bool
  | .elem n _ _ => !(decide (n.space = GarminTrackPointExtensionNS) && garminFieldNames.contains n.localName)
  | _ => true

/-- The top of the tree is not the Garmin envelope start element. -/
def notEnvelope : GTree → Bool
  | .elem n _ _ => !(decide (n.space = GarminTrackPointExtensionNS) && decide (n.localName = "TrackPointExtension"))
  | _ => true

/-- All trees of the forest fail to be the envelope (findExtension skips
or ignores them all). -/
def preOkF : GForest → Bool
  | .nil => true
  | .cons t ts => notEnvelope t && preOkF ts

/-- Well-formedness of an envelope child for the field loop: recognized
fields hold character data only (consumeString would fail otherwise);
unknown children are not recognized fields at their top. -/
def wfFItem : FItem → Bool
  | .hr _ chunks => allTextF chunks
  | .cad _ chunks => allTextF chunks
  | .atemp _ chunks => allTextF chunks
  | .wtemp _ chunks => allTextF chunks
  | .depth _ chunks => allTextF chunks
  | .skip t => notGarminField t

/-- Well-formedness of an envelope child list. -/
def wfFItems (l : List FItem) : Bool := l.all wfFItem

/-- Effect of one envelope child on the extension record: recognized
fields overwrite their slot with the parse of the concatenated text,
errors discarded (Atoi and ParseFloat answer 0 on a syntax error, and
the uint conversion reduces modulo 2 to the 64); unknown children change
nothing. -/
def applyGarmin (E : Parsers) (e : GarminTrackPointExtension) : FItem → GarminTrackPointExtension
  | .hr _ chunks => { e with HeartRate := uint64Of (E.atoi (concatF chunks)) }
  | .cad _ chunks => { e with Cadence := uint64Of (E.atoi (concatF chunks)) }
  | .atemp _ chunks => { e with ATemp := (E.parseFloat (concatF chunks)).getD 0 }
  | .wtemp _ chunks => { e with WTemp := (E.parseFloat (concatF chunks)).getD 0 }
  | .depth _ chunks => { e with Depth := (E.parseFloat (concatF chunks)).getD 0 }
  | .skip _ => e

/-- The extension record decoded from a list of envelope children, in
order. -/
def foldGarmin (E : Parsers) (items : List FItem) : GarminTrackPointExtension :=
  items.foldl (applyGarmin E) {}

/-- Lift a token list to the slice element type (a Go []xml.Token whose
entries are all non-nil, as consumeExtensions produces). -/
def mapSome (l : List XTok) : List (Option XTok) := l.map some

/-- Fixture: a concrete instance of the external parsers, a small table
modelling strconv.ParseFloat / time.Parse / strconv.Atoi on the strings
appearing in the concrete documents of this development; any other string
is a parse error (with Atoi answering 0, as strconv does on a syntax
error). -/
def E0 : Parsers where
  parseFloat s :=
    if s = "49.0" then some 49
    else if s = "11.0" then some 11
    else if s = "49.1" then some (mkRat 491 10)
    else if s = "11.1" then some (mkRat 111 10)
    else if s = "350.5" then some (mkRat 701 2)
    else if s = "1.0" then some 1
    else none
  parseTime s := if s = "2015-12-13T18:35:18Z" then some 1450031718 else none
  atoi s := if s = "142" then 142 else if s = "90" then 90 else 0

/-- Fixture: the concrete scenario of the specification - one track with
one segment and two points; point A at lat 49.0 lon 11.0 with the
unparsable elevation text not-a-number and a valid time; point B at lat
49.1 lon 11.1 with elevation 350.5 and no time child. -/
def docScenario : SDoc :=
  { rootSpace := nsGPX11
    rootAttrs := [(⟨"", "version"⟩, "1.1")]
    items :=
      [.trk nsGPX11 []
        [.seg nsGPX11 []
          [.pt nsGPX11 [(⟨"", "lat"⟩, "49.0"), (⟨"", "lon"⟩, "11.0")]
            [.ele nsGPX11 [] (.cons (.txt "not-a-number") .nil),
             .time nsGPX11 [] (.cons (.txt "2015-12-13T18:35:18Z") .nil)],
           .pt nsGPX11 [(⟨"", "lat"⟩, "49.1"), (⟨"", "lon"⟩, "11.1")]
            [.ele nsGPX11 [] (.cons (.txt "350.5") .nil)]]]]}

/-- Fixture: a document whose only point carries an extensions element
containing just a comment. -/
def docCommentExt : SDoc :=
  { rootSpace := nsGPX11
    rootAttrs := []
    items :=
      [.trk nsGPX11 []
        [.seg nsGPX11 []
          [.pt nsGPX11 []
            [.exts nsGPX11 [] (.cons (.misc " made with unit x ") .nil)]]]]}

/-- Fixture: a document whose only point carries an empty ele element
(no character data at all), the smallest input separating the two decoder
revisions in strict mode. -/
def docEmptyEle : SDoc :=
  { rootSpace := nsGPX11
    rootAttrs := []
    items :=
      [.trk nsGPX11 []
        [.seg nsGPX11 []
          [.pt nsGPX11 [] [.ele nsGPX11 [] .nil]]]]}

/-- Fixture: a strongly well-formed document exercising every recognized
child: version attribute, metadata time, an unknown root child, and one
point with elevation, time, a captured Garmin extension and an unknown
child. -/
def docW : SDoc :=
  { rootSpace := nsGPX11
    rootAttrs := [(⟨"", "version"⟩, "1.1")]
    items :=
      [.meta nsGPX11 [] [.mtime nsGPX11 [] (.cons (.txt "2015-12-13T18:35:18Z") .nil)],
       .skip (.elem ⟨nsGPX11, "wpt"⟩ [] (.cons (.txt "x") .nil)),
       .trk nsGPX11 []
         [.seg nsGPX11 []
            [.pt nsGPX11 [(⟨"", "lat"⟩, "49.0"), (⟨"", "lon"⟩, "11.0")]
               [.ele nsGPX11 [] (.cons (.txt "350.5") .nil),
                .time nsGPX11 [] (.cons (.txt "2015-12-13T18:35:18Z") .nil),
                .exts nsGPX11 []
                  (.cons
                    (.elem ⟨GarminTrackPointExtensionNS, "TrackPointExtension"⟩ []
                      (.cons (.elem ⟨GarminTrackPointExtensionNS, "hr"⟩ [] (.cons (.txt "142") .nil)) .nil))
                    .nil),
                .skip (.misc " note ")]]]]}

/-- Fixture: docW with one more unknown element (carrying a nested trkpt
named element) inserted among the segment children; its stripped form
equals the stripped form of docW. -/
def docWins : SDoc :=
  { rootSpace := nsGPX11
    rootAttrs := [(⟨"", "version"⟩, "1.1")]
    items :=
      [.meta nsGPX11 [] [.mtime nsGPX11 [] (.cons (.txt "2015-12-13T18:35:18Z") .nil)],
       .skip (.elem ⟨nsGPX11, "wpt"⟩ [] (.cons (.txt "x") .nil)),
       .trk nsGPX11 []
         [.seg nsGPX11 []
            [.skip (.elem ⟨"x", "foo"⟩ [(⟨"", "k"⟩, "v")]
               (.cons (.elem ⟨"x", "trkpt"⟩ [] (.cons (.txt "deep") .nil)) .nil)),
             .pt nsGPX11 [(⟨"", "lat"⟩, "49.0"), (⟨"", "lon"⟩, "11.0")]
               [.ele nsGPX11 [] (.cons (.txt "350.5") .nil),
                .time nsGPX11 [] (.cons (.txt "2015-12-13T18:35:18Z") .nil),
                .exts nsGPX11 []
                  (.cons
                    (.elem ⟨GarminTrackPointExtensionNS, "TrackPointExtension"⟩ []
                      (.cons (.elem ⟨GarminTrackPointExtensionNS, "hr"⟩ [] (.cons (.txt "142") .nil)) .nil))
                    .nil),
                .skip (.misc " note ")]]]]}

/-- Fixture: the envelope children heart rate 142 and cadence 90 of the
extension round-trip scenario. -/
def fieldsW : List FItem :=
  [.hr [] (.cons (.txt "142") .nil), .cad [] (.cons (.txt "90") .nil)]

/-- Fixture: a constant namespace renaming for the witness of the
local-name-only matching claim. -/
def renameW : String → String := fun _ => "urn:other"

mutual
/-- skipTag passes over a serialized tree without looking at it: the
level counter returns to its entry value. -/
theorem skipTag_tree (t : GTree) : ∀ lvl rest, skipTagAux lvl (serialize1 t ++ rest) = skipTagAux lvl rest := by
  match t with
  | .elem n a cs =>
      intro lvl rest
      rw [serialize1]
      simp only [List.cons_append, List.append_assoc, List.singleton_append]
      rw [skipTagAux, skipTag_forest cs]
      rw [skipTagAux]
      simp
  | .txt s =>
      intro lvl rest
      rw [serialize1]
      simp only [List.singleton_append]
      rw [skipTagAux]
  | .misc s =>
      intro lvl rest
      rw [serialize1]
      simp only [List.singleton_append]
      rw [skipTagAux]

/-- skipTag passes over a serialized forest. -/
theorem skipTag_forest (ts : GForest) : ∀ lvl rest, skipTagAux lvl (serializeF ts ++ rest) = skipTagAux lvl rest := by
  match ts with
  | .nil => intro lvl rest; rw [serializeF]; simp
  | .cons t ts2 =>
      intro lvl rest
      rw [serializeF]
      simp only [List.append_assoc]
      rw [skipTag_tree t, skipTag_forest ts2]
end

/-- After the start element of an unknown child, skipTag consumes exactly
the serialized children and the matching end element, resuming at the
following token. -/
theorem skipTag_exact (cs : GForest) (n : XName) (rest : List XTok) :
    skipTagAux 0 (serializeF cs ++ .close n :: rest) = .ok rest := by
  have h := skipTag_forest cs 0 (.close n :: rest)
  rw [h, skipTagAux]
  simp

/-- consumeString over serialized leaf content: the character data
concatenates, the end element stops the read. -/
theorem consumeString_ser (chunks : GForest) (n : XName) (rest : List XTok) :
    allTextF chunks = true →
    consumeString (serializeF chunks ++ .close n :: rest) = .ok (concatF chunks, rest) := by
  match chunks with
  | .nil =>
      intro h
      rw [serializeF, concatF]
      simp only [List.nil_append]
      rw [consumeString]
  | .cons t ts =>
      intro h
      cases t with
      | txt s =>
          rw [allTextF] at h
          rw [serializeF, serialize1, concatF]
          simp only [List.singleton_append, List.cons_append, List.append_assoc, List.nil_append]
          rw [consumeString]
          rw [consumeString_ser ts n rest h]
      | elem n2 a2 cs2 => simp [allTextF] at h
      | misc s => simp [allTextF] at h

/-- consumeFloat over serialized leaf content that parses. -/
theorem consumeFloat_ser (E : Parsers) (chunks : GForest) (n : XName) (rest : List XTok) (v : Rat) :
    allTextF chunks = true → E.parseFloat (concatF chunks) = some v →
    consumeFloat E (serializeF chunks ++ .close n :: rest) = .ok (v, rest) := by
  intro h hp
  rw [consumeFloat]
  rw [consumeString_ser chunks n rest h]
  simp only []
  rw [hp]

/-- consumeTime over serialized leaf content that parses. -/
theorem consumeTime_ser (E : Parsers) (chunks : GForest) (n : XName) (rest : List XTok) (t : Nat) :
    allTextF chunks = true → E.parseTime (concatF chunks) = some t →
    consumeTime E (serializeF chunks ++ .close n :: rest) = .ok (t, rest) := by
  intro h hp
  rw [consumeTime]
  rw [consumeString_ser chunks n rest h]
  simp only []
  rw [hp]

/-- consumeString errors out on the first start element of the leaf
content, whatever follows it (the MalformedLeaf condition). -/
theorem consumeString_nested (chunks : GForest) (n : XName) (a : List Attr) (junk : List XTok) :
    allTextF chunks = true →
    consumeString (serializeF chunks ++ .start n a :: junk) = .error .unexpectedElement := by
  match chunks with
  | .nil =>
      intro h
      rw [serializeF]
      simp only [List.nil_append]
      rw [consumeString]
  | .cons t ts =>
      intro h
      cases t with
      | txt s =>
          rw [allTextF] at h
          rw [serializeF, serialize1]
          simp only [List.singleton_append, List.cons_append, List.append_assoc, List.nil_append]
          rw [consumeString]
          rw [consumeString_nested ts n a junk h]
      | elem n2 a2 cs2 => simp [allTextF] at h
      | misc s => simp [allTextF] at h

mutual
/-- The RevB extensions loop copies a serialized tree verbatim and keeps
collecting. -/
theorem extsAux_tree (t : GTree) : ∀ lvl rest,
    RevB.extsAux lvl (serialize1 t ++ rest) =
      (match RevB.extsAux lvl rest with
       | .ok (ts2, r) => .ok (serialize1 t ++ ts2, r)
       | .error e => .error e) := by
  match t with
  | .elem n a cs =>
      intro lvl rest
      rw [serialize1]
      simp only [List.cons_append, List.append_assoc, List.singleton_append, List.nil_append]
      rw [RevB.extsAux]
      rw [extsAux_forest cs (lvl + 1) (XTok.close n :: rest)]
      rw [RevB.extsAux]
      rw [if_neg (by omega : ¬ lvl + 1 = 0)]
      have h2 : lvl + 1 - 1 = lvl := by omega
      rw [h2]
      cases he : RevB.extsAux lvl rest with
      | ok p => obtain ⟨ts2, r⟩ := p; simp
      | error e => simp
  | .txt s =>
      intro lvl rest
      rw [serialize1]
      simp only [List.singleton_append]
      rw [RevB.extsAux]
  | .misc s =>
      intro lvl rest
      rw [serialize1]
      simp only [List.singleton_append]
      rw [RevB.extsAux]

/-- The RevB extensions loop copies a serialized forest verbatim. -/
theorem extsAux_forest (ts : GForest) : ∀ lvl rest,
    RevB.extsAux lvl (serializeF ts ++ rest) =
      (match RevB.extsAux lvl rest with
       | .ok (ts2, r) => .ok (serializeF ts ++ ts2, r)
       | .error e => .error e) := by
  match ts with
  | .nil =>
      intro lvl rest
      rw [serializeF]
      simp only [List.nil_append]
      cases he : RevB.extsAux lvl rest with
      | ok p => obtain ⟨ts2, r⟩ := p; simp
      | error e => simp
  | .cons t ts2 =>
      intro lvl rest
      rw [serializeF]
      simp only [List.append_assoc]
      rw [extsAux_tree t, extsAux_forest ts2]
      cases he : RevB.extsAux lvl rest with
      | ok p => obtain ⟨ts3, r⟩ := p; simp
      | error e => simp
end

/-- consumeExtensions (RevB) over a serialized body captures exactly the
serialized body - every token between the wrapper tags, the wrapper tags
themselves excluded - and resumes after the end element. -/
theorem consumeExtensions_ser (body : GForest) (n : XName) (rest : List XTok) :
    RevB.extsAux 0 (serializeF body ++ .close n :: rest) = .ok (serializeF body, rest) := by
  rw [extsAux_forest body 0 (XTok.close n :: rest)]
  rw [RevB.extsAux]
  simp

/-- The shared attribute loop never fails when every lat / lon value
parses, and computes the coordinate fold. -/
theorem consumeAttrs_ok (E : Parsers) (attrs : List Attr) :
    latlonOk E attrs = true →
    ∀ strict p, consumeAttrs E strict attrs p = .ok (pointFoldAttrs E attrs p) := by
  induction attrs with
  | nil => intro h strict p; rw [consumeAttrs, pointFoldAttrs]; rfl
  | cons a rest ih =>
      intro h strict p
      rw [latlonOk] at h
      simp only [List.all_cons, Bool.and_eq_true] at h
      obtain ⟨ha, hrest⟩ := h
      have hrest2 : latlonOk E rest = true := by rw [latlonOk]; exact hrest
      rw [consumeAttrs]
      by_cases h1 : a.1.localName = "lat"
      · simp only [h1, if_true]
        have hsome : (E.parseFloat a.2).isSome = true := by
          simp only [h1] at ha; simpa using ha
        cases hp : E.parseFloat a.2 with
        | some v =>
            simp only []
            rw [ih hrest2 strict]
            rw [pointFoldAttrs, pointFoldAttrs]
            simp only [List.foldl_cons, h1, if_true, hp]
        | none => rw [hp] at hsome; simp at hsome
      · simp only [h1, if_false]
        by_cases h2 : a.1.localName = "lon"
        · simp only [h2, if_true]
          have hsome : (E.parseFloat a.2).isSome = true := by
            simp only [h1, h2] at ha; simpa using ha
          cases hp : E.parseFloat a.2 with
          | some v =>
              simp only []
              rw [ih hrest2 strict]
              rw [pointFoldAttrs, pointFoldAttrs]
              simp [List.foldl_cons, h1, h2, hp]
          | none => rw [hp] at hsome; simp at hsome
        · simp only [h2, if_false]
          rw [ih hrest2 strict]
          rw [pointFoldAttrs, pointFoldAttrs]
          simp only [List.foldl_cons, h1, h2, if_false]

/-- Processing one serialized well-formed trkpt child updates the point
as applyP describes and continues with the rest of the stream. -/
theorem pointItem_stepB (E : Parsers) (i : PItem) :
    wfPItemB E i = true →
    ∀ p rest, RevB.pointLoop E p (serializePItem i ++ rest) = RevB.pointLoop E (applyP E p i) rest := by
  match i with
  | .ele sp a chunks =>
      intro hwf p rest
      rw [wfPItemB] at hwf
      simp only [Bool.and_eq_true] at hwf
      obtain ⟨htxt, hparse⟩ := hwf
      rw [serializePItem]
      simp only [List.cons_append, List.append_assoc, List.singleton_append, List.nil_append]
      rw [RevB.pointLoop_start]
      rw [if_pos (show (⟨sp, "ele"⟩ : XName).localName = "ele" from rfl)]
      cases hp : E.parseFloat (concatF chunks) with
      | some v =>
          rw [consumeFloat_ser E chunks ⟨sp, "ele"⟩ rest v htxt hp]
          simp only []
          rw [applyP]
          rw [hp]
          simp only [Option.getD_some]
      | none => rw [hp] at hparse; simp at hparse
  | .time sp a chunks =>
      intro hwf p rest
      rw [wfPItemB] at hwf
      simp only [Bool.and_eq_true] at hwf
      obtain ⟨htxt, hparse⟩ := hwf
      rw [serializePItem]
      simp only [List.cons_append, List.append_assoc, List.singleton_append, List.nil_append]
      rw [RevB.pointLoop_start]
      rw [if_neg (show ¬ (⟨sp, "time"⟩ : XName).localName = "ele" by simp)]
      rw [if_pos (show (⟨sp, "time"⟩ : XName).localName = "time" from rfl)]
      cases hp : E.parseTime (concatF chunks) with
      | some t =>
          rw [consumeTime_ser E chunks ⟨sp, "time"⟩ rest t htxt hp]
          simp only []
          rw [applyP]
          rw [hp]
          simp only [Option.getD_some]
      | none => rw [hp] at hparse; simp at hparse
  | .exts sp a body =>
      intro hwf p rest
      rw [serializePItem]
      simp only [List.cons_append, List.append_assoc, List.singleton_append, List.nil_append]
      rw [RevB.pointLoop_start]
      rw [if_neg (show ¬ (⟨sp, "extensions"⟩ : XName).localName = "ele" by simp)]
      rw [if_neg (show ¬ (⟨sp, "extensions"⟩ : XName).localName = "time" by simp)]
      rw [if_pos (show (⟨sp, "extensions"⟩ : XName).localName = "extensions" from rfl)]
      rw [consumeExtensions_ser body ⟨sp, "extensions"⟩ rest]
      simp only []
      rw [applyP]
  | .skip t =>
      intro hwf p rest
      rw [wfPItemB] at hwf
      rw [applyP]
      match t with
      | .elem n2 a2 cs2 =>
          rw [topNotIn] at hwf
          simp only [List.contains_cons, Bool.not_eq_true, Bool.or_eq_false_iff] at hwf
          rw [serializePItem, serialize1]
          simp only [List.cons_append, List.append_assoc, List.singleton_append, List.nil_append]
          rw [RevB.pointLoop_start]
          have h1 : ¬ n2.localName = "ele" := by
            intro hc
            simp [hc] at hwf
          have h2 : ¬ n2.localName = "time" := by
            intro hc
            simp [hc] at hwf
          have h3 : ¬ n2.localName = "extensions" := by
            intro hc
            simp [hc] at hwf
          rw [if_neg h1, if_neg h2, if_neg h3]
          rw [skipTag_exact cs2 n2 rest]
      | .txt s =>
          rw [serializePItem, serialize1]
          simp only [List.singleton_append]
          rw [RevB.pointLoop_text]
      | .misc s =>
          rw [serializePItem, serialize1]
          simp only [List.singleton_append]
          rw [RevB.pointLoop_other]

/-- Processing a serialized list of well-formed trkpt children folds
applyP over the point, left to right. -/
theorem pointItems_stepB (E : Parsers) (items : List PItem) :
    wfPItemsB E items = true →
    ∀ p rest, RevB.pointLoop E p (serializePItems items ++ rest) =
      RevB.pointLoop E (items.foldl (applyP E) p) rest := by
  induction items with
  | nil =>
      intro hwf p rest
      rw [serializePItems]
      simp only [List.nil_append, List.foldl_nil]
  | cons i is ih =>
      intro hwf p rest
      rw [wfPItemsB] at hwf
      simp only [List.all_cons, Bool.and_eq_true] at hwf
      obtain ⟨hi, his⟩ := hwf
      rw [serializePItems]
      simp only [List.append_assoc]
      rw [pointItem_stepB E i hi]
      rw [ih (by rw [wfPItemsB]; exact his)]
      simp only [List.foldl_cons]

/-- consumePoint (RevB) over a serialized well-formed trkpt: attributes
folded, children folded, the end element closing the point. -/
theorem consumePoint_serB (E : Parsers) (strict : Bool) (attrs : List Attr) (items : List PItem) :
    latlonOk E attrs = true → wfPItemsB E items = true →
    ∀ n rest, RevB.consumePoint E strict attrs (serializePItems items ++ .close n :: rest) =
      .ok (pointOfB E attrs items, rest) := by
  intro ha hwf n rest
  rw [RevB.consumePoint]
  rw [consumeAttrs_ok E attrs ha strict]
  simp only []
  rw [pointItems_stepB E items hwf]
  rw [RevB.pointLoop_close]
  rw [pointOfB]

/-- Processing a serialized list of well-formed trkseg children appends
one decoded point per trkpt child, in order. -/
theorem sItems_stepB (E : Parsers) (strict : Bool) (items : List SItem) :
    wfSItemsB E items = true →
    ∀ seg rest, RevB.segLoop E strict seg (serializeSItems items ++ rest) =
      RevB.segLoop E strict ⟨seg.Points ++ (segOfB E items).Points⟩ rest := by
  induction items with
  | nil =>
      intro hwf seg rest
      rw [serializeSItems, segOfB]
      simp only [List.nil_append, List.filterMap_nil, List.append_nil]
  | cons i is ih =>
      intro hwf seg rest
      rw [wfSItemsB] at hwf
      simp only [List.all_cons, Bool.and_eq_true] at hwf
      obtain ⟨hi, his⟩ := hwf
      have his2 : wfSItemsB E is = true := by rw [wfSItemsB]; exact his
      match i with
      | .pt sp a pis =>
          rw [wfSItemB] at hi
          simp only [Bool.and_eq_true] at hi
          obtain ⟨hla, hpis⟩ := hi
          rw [serializeSItems, serializeSItem]
          simp only [List.cons_append, List.append_assoc, List.singleton_append, List.nil_append]
          rw [RevB.segLoop_start]
          rw [if_pos (show (⟨sp, "trkpt"⟩ : XName).localName = "trkpt" from rfl)]
          rw [consumePoint_serB E strict a pis hla hpis]
          simp only []
          rw [ih his2]
          rw [segOfB, segOfB]
          simp only [List.filterMap_cons, List.append_assoc]
          rfl
      | .skip t =>
          rw [wfSItemB] at hi
          rw [serializeSItems]
          simp only [List.append_assoc]
          match t with
          | .elem n2 a2 cs2 =>
              rw [topNotIn] at hi
              simp only [List.contains_cons, Bool.not_eq_true, Bool.or_eq_false_iff] at hi
              rw [serializeSItem, serialize1]
              simp only [List.cons_append, List.append_assoc, List.singleton_append, List.nil_append]
              rw [RevB.segLoop_start]
              have h1 : ¬ n2.localName = "trkpt" := by
                intro hc
                simp [hc] at hi
              rw [if_neg h1]
              rw [skipTag_exact cs2 n2 _]
              simp only []
              rw [ih his2]
              rw [segOfB, segOfB]
              simp only [List.filterMap_cons]
          | .txt s =>
              rw [serializeSItem, serialize1]
              simp only [List.singleton_append]
              rw [RevB.segLoop_text]
              rw [ih his2]
              rw [segOfB, segOfB]
              simp only [List.filterMap_cons]
          | .misc s =>
              rw [serializeSItem, serialize1]
              simp only [List.singleton_append]
              rw [RevB.segLoop_other]
              rw [ih his2]
              rw [segOfB, segOfB]
              simp only [List.filterMap_cons]

/-- consumeSegment (RevB) over a serialized well-formed trkseg. -/
theorem consumeSegment_serB (E : Parsers) (strict : Bool) (items : List SItem) :
    wfSItemsB E items = true →
    ∀ n rest, RevB.consumeSegment E strict (serializeSItems items ++ .close n :: rest) =
      .ok (segOfB E items, rest) := by
  intro hwf n rest
  rw [RevB.consumeSegment]
  rw [sItems_stepB E strict items hwf]
  rw [RevB.segLoop_close]
  rfl

/-- Processing a serialized list of well-formed trk children appends one
decoded segment per trkseg child, in order. -/
theorem tItems_stepB (E : Parsers) (strict : Bool) (items : List TItem) :
    wfTItemsB E items = true →
    ∀ track rest, RevB.trackLoop E strict track (serializeTItems items ++ rest) =
      RevB.trackLoop E strict ⟨track.Segments ++ (trackOfB E items).Segments⟩ rest := by
  induction items with
  | nil =>
      intro hwf track rest
      rw [serializeTItems, trackOfB]
      simp only [List.nil_append, List.filterMap_nil, List.append_nil]
  | cons i is ih =>
      intro hwf track rest
      rw [wfTItemsB] at hwf
      simp only [List.all_cons, Bool.and_eq_true] at hwf
      obtain ⟨hi, his⟩ := hwf
      have his2 : wfTItemsB E is = true := by rw [wfTItemsB]; exact his
      match i with
      | .seg sp a sis =>
          rw [wfTItemB] at hi
          rw [serializeTItems, serializeTItem]
          simp only [List.cons_append, List.append_assoc, List.singleton_append, List.nil_append]
          rw [RevB.trackLoop_start]
          rw [if_pos (show (⟨sp, "trkseg"⟩ : XName).localName = "trkseg" from rfl)]
          rw [consumeSegment_serB E strict sis hi]
          simp only []
          rw [ih his2]
          rw [trackOfB, trackOfB]
          simp only [List.filterMap_cons, List.append_assoc]
          rfl
      | .skip t =>
          rw [wfTItemB] at hi
          rw [serializeTItems]
          simp only [List.append_assoc]
          match t with
          | .elem n2 a2 cs2 =>
              rw [topNotIn] at hi
              simp only [List.contains_cons, Bool.not_eq_true, Bool.or_eq_false_iff] at hi
              rw [serializeTItem, serialize1]
              simp only [List.cons_append, List.append_assoc, List.singleton_append, List.nil_append]
              rw [RevB.trackLoop_start]
              have h1 : ¬ n2.localName = "trkseg" := by
                intro hc
                simp [hc] at hi
              rw [if_neg h1]
              rw [skipTag_exact cs2 n2 _]
              simp only []
              rw [ih his2]
              rw [trackOfB, trackOfB]
              simp only [List.filterMap_cons]
          | .txt s =>
              rw [serializeTItem, serialize1]
              simp only [List.singleton_append]
              rw [RevB.trackLoop_text]
              rw [ih his2]
              rw [trackOfB, trackOfB]
              simp only [List.filterMap_cons]
          | .misc s =>
              rw [serializeTItem, serialize1]
              simp only [List.singleton_append]
              rw [RevB.trackLoop_other]
              rw [ih his2]
              rw [trackOfB, trackOfB]
              simp only [List.filterMap_cons]

/-- consumeTrack (RevB) over a serialized well-formed trk. -/
theorem consumeTrack_serB (E : Parsers) (strict : Bool) (items : List TItem) :
    wfTItemsB E items = true →
    ∀ n rest, RevB.consumeTrack E strict (serializeTItems items ++ .close n :: rest) =
      .ok (trackOfB E items, rest) := by
  intro hwf n rest
  rw [RevB.consumeTrack]
  rw [tItems_stepB E strict items hwf]
  rw [RevB.trackLoop_close]
  rfl

/-- Processing a serialized list of well-formed metadata children: the
last time child wins. -/
theorem mItems_stepB (E : Parsers) (items : List MItem) :
    wfMItemsB E items = true →
    ∀ m rest, RevB.metaLoop E m (serializeMItems items ++ rest) =
      RevB.metaLoop E
        (items.foldl
          (fun m i =>
            match i with
            | .mtime _ _ chunks => { Time := (E.parseTime (concatF chunks)).getD 0 }
            | .skip _ => m)
          m)
        rest := by
  induction items with
  | nil =>
      intro hwf m rest
      rw [serializeMItems]
      simp only [List.nil_append, List.foldl_nil]
  | cons i is ih =>
      intro hwf m rest
      rw [wfMItemsB] at hwf
      simp only [List.all_cons, Bool.and_eq_true] at hwf
      obtain ⟨hi, his⟩ := hwf
      have his2 : wfMItemsB E is = true := by rw [wfMItemsB]; exact his
      match i with
      | .mtime sp a chunks =>
          rw [wfMItemB] at hi
          simp only [Bool.and_eq_true] at hi
          obtain ⟨htxt, hparse⟩ := hi
          rw [serializeMItems, serializeMItem]
          simp only [List.cons_append, List.append_assoc, List.singleton_append, List.nil_append]
          rw [RevB.metaLoop_start]
          rw [if_pos (show (⟨sp, "time"⟩ : XName).localName = "time" from rfl)]
          cases hp : E.parseTime (concatF chunks) with
          | some t =>
              rw [consumeTime_ser E chunks ⟨sp, "time"⟩ _ t htxt hp]
              simp only []
              rw [ih his2]
              simp only [List.foldl_cons, hp, Option.getD_some]
          | none => rw [hp] at hparse; simp at hparse
      | .skip t =>
          rw [wfMItemB] at hi
          rw [serializeMItems]
          simp only [List.append_assoc]
          match t with
          | .elem n2 a2 cs2 =>
              rw [topNotIn] at hi
              simp only [List.contains_cons, Bool.not_eq_true, Bool.or_eq_false_iff] at hi
              rw [serializeMItem, serialize1]
              simp only [List.cons_append, List.append_assoc, List.singleton_append, List.nil_append]
              rw [RevB.metaLoop_start]
              have h1 : ¬ n2.localName = "time" := by
                intro hc
                simp [hc] at hi
              rw [if_neg h1]
              rw [skipTag_exact cs2 n2 _]
              simp only []
              rw [ih his2]
              simp only [List.foldl_cons]
          | .txt s =>
              rw [serializeMItem, serialize1]
              simp only [List.singleton_append]
              rw [RevB.metaLoop_text]
              rw [ih his2]
              simp only [List.foldl_cons]
          | .misc s =>
              rw [serializeMItem, serialize1]
              simp only [List.singleton_append]
              rw [RevB.metaLoop_other]
              rw [ih his2]
              simp only [List.foldl_cons]

/-- consumeMetadata (RevB) over a serialized well-formed metadata
element. -/
theorem consumeMetadata_serB (E : Parsers) (items : List MItem) :
    wfMItemsB E items = true →
    ∀ n rest, RevB.consumeMetadata E (serializeMItems items ++ .close n :: rest) =
      .ok (metaOfB E items, rest) := by
  intro hwf n rest
  rw [RevB.consumeMetadata]
  rw [mItems_stepB E items hwf]
  rw [RevB.metaLoop_close]
  rw [metaOfB]

/-- Processing a serialized list of well-formed root children: tracks
append in order, metadata is overwritten by each metadata child. -/
theorem gItems_stepB (E : Parsers) (strict : Bool) (items : List GItem) :
    wfGItemsB E items = true →
    ∀ doc rest, RevB.gpxLoop E strict doc (serializeGItems items ++ rest) =
      RevB.gpxLoop E strict
        (items.foldl
          (fun doc i =>
            match i with
            | .trk _ _ tis => { doc with Tracks := doc.Tracks ++ [trackOfB E tis] }
            | .meta _ _ mis => { doc with Metadata := metaOfB E mis }
            | .skip _ => doc)
          doc)
        rest := by
  induction items with
  | nil =>
      intro hwf doc rest
      rw [serializeGItems]
      simp only [List.nil_append, List.foldl_nil]
  | cons i is ih =>
      intro hwf doc rest
      rw [wfGItemsB] at hwf
      simp only [List.all_cons, Bool.and_eq_true] at hwf
      obtain ⟨hi, his⟩ := hwf
      have his2 : wfGItemsB E is = true := by rw [wfGItemsB]; exact his
      match i with
      | .trk sp a tis =>
          rw [wfGItemB] at hi
          rw [serializeGItems, serializeGItem]
          simp only [List.cons_append, List.append_assoc, List.singleton_append, List.nil_append]
          rw [RevB.gpxLoop_start]
          rw [if_pos (show (⟨sp, "trk"⟩ : XName).localName = "trk" from rfl)]
          rw [consumeTrack_serB E strict tis hi]
          simp only []
          rw [ih his2]
          simp only [List.foldl_cons]
      | .meta sp a mis =>
          rw [wfGItemB] at hi
          rw [serializeGItems, serializeGItem]
          simp only [List.cons_append, List.append_assoc, List.singleton_append, List.nil_append]
          rw [RevB.gpxLoop_start]
          rw [if_neg (show ¬ (⟨sp, "metadata"⟩ : XName).localName = "trk" by simp)]
          rw [if_pos (show (⟨sp, "metadata"⟩ : XName).localName = "metadata" from rfl)]
          rw [consumeMetadata_serB E mis hi]
          simp only []
          rw [ih his2]
          simp only [List.foldl_cons]
      | .skip t =>
          rw [wfGItemB] at hi
          rw [serializeGItems]
          simp only [List.append_assoc]
          match t with
          | .elem n2 a2 cs2 =>
              rw [topNotIn] at hi
              simp only [List.contains_cons, Bool.not_eq_true, Bool.or_eq_false_iff] at hi
              rw [serializeGItem, serialize1]
              simp only [List.cons_append, List.append_assoc, List.singleton_append, List.nil_append]
              rw [RevB.gpxLoop_start]
              have h1 : ¬ n2.localName = "trk" := by
                intro hc
                simp [hc] at hi
              have h2 : ¬ n2.localName = "metadata" := by
                intro hc
                simp [hc] at hi
              rw [if_neg h1, if_neg h2]
              rw [skipTag_exact cs2 n2 _]
              simp only []
              rw [ih his2]
              simp only [List.foldl_cons]
          | .txt s =>
              rw [serializeGItem, serialize1]
              simp only [List.singleton_append]
              rw [RevB.gpxLoop_text]
              rw [ih his2]
              simp only [List.foldl_cons]
          | .misc s =>
              rw [serializeGItem, serialize1]
              simp only [List.singleton_append]
              rw [RevB.gpxLoop_other]
              rw [ih his2]
              simp only [List.foldl_cons]

/-- The combined root fold splits into its three fields: version
untouched, metadata the last metadata child, tracks appended in order. -/
theorem gpxFoldB_fields (E : Parsers) (items : List GItem) : ∀ doc : Document,
    (items.foldl
      (fun doc i =>
        match i with
        | .trk _ _ tis => { doc with Tracks := doc.Tracks ++ [trackOfB E tis] }
        | .meta _ _ mis => { doc with Metadata := metaOfB E mis }
        | .skip _ => doc)
      doc) =
    { Version := doc.Version
      Metadata := items.foldl
        (fun md i =>
          match i with
          | .meta _ _ mis => metaOfB E mis
          | _ => md)
        doc.Metadata
      Tracks := doc.Tracks ++ items.filterMap fun i =>
        match i with
        | .trk _ _ tis => some (trackOfB E tis)
        | _ => none } := by
  induction items with
  | nil => intro doc; simp
  | cons i is ih =>
      intro doc
      match i with
      | .trk sp a tis =>
          simp only [List.foldl_cons, List.filterMap_cons]
          rw [ih]
          simp
      | .meta sp a mis =>
          simp only [List.foldl_cons, List.filterMap_cons]
          rw [ih]
      | .skip t =>
          simp only [List.foldl_cons, List.filterMap_cons]
          rw [ih]

/-- Decode (RevB) of a serialized well-formed document produces exactly
the specified document: version verbatim, last metadata, one Track per
trk child in order, one Segment per trkseg child in order, one Point per
trkpt child in order. -/
theorem decode_serB (E : Parsers) (strict : Bool) (d : SDoc) :
    wfDocB E d = true →
    RevB.Decode E strict (serializeDoc d) = .ok (docOfB E d) := by
  intro hwf
  rw [wfDocB] at hwf
  simp only [Bool.and_eq_true, decide_eq_true_eq] at hwf
  obtain ⟨hns, hitems⟩ := hwf
  rw [RevB.Decode, serializeDoc]
  simp only [List.cons_append]
  have hfind : findGPX (XTok.start ⟨d.rootSpace, "gpx"⟩ d.rootAttrs :: (serializeGItems d.items ++ [XTok.close ⟨d.rootSpace, "gpx"⟩])) = .ok (⟨d.rootSpace, "gpx"⟩, d.rootAttrs, serializeGItems d.items ++ [XTok.close ⟨d.rootSpace, "gpx"⟩]) := by
    rw [findGPX.eq_def]
    simp [hns]
  simp only [hfind]
  rw [RevB.consumeGPX]
  rw [gItems_stepB E strict d.items hitems]
  rw [RevB.gpxLoop_close]
  rw [gpxFoldB_fields E d.items]
  rw [docOfB]
  simp

mutual
/-- The RevD point loop passes over a serialized tree when its level is
at least 1 (nothing is recognized above level 0). -/
theorem pointLoopD_pass_tree (t : GTree) : ∀ E strict lvl (p : Point) rest, 1 ≤ lvl →
    RevD.pointLoop E strict lvl p (serialize1 t ++ rest) = RevD.pointLoop E strict lvl p rest := by
  match t with
  | .elem n a cs =>
      intro E strict lvl p rest hlvl
      rw [serialize1]
      simp only [List.cons_append, List.append_assoc, List.singleton_append, List.nil_append]
      rw [RevD.pointLoop_start]
      rw [if_neg (by rintro ⟨h0, h1⟩; omega)]
      rw [if_neg (by rintro ⟨h0, h1⟩; omega)]
      rw [if_neg (by rintro ⟨h0, h1⟩; omega)]
      rw [pointLoopD_pass_forest cs E strict (lvl + 1) p (XTok.close n :: rest) (by omega)]
      rw [RevD.pointLoop_close]
      rw [if_neg (by rintro ⟨h0, h1⟩; omega)]
      have h2 : lvl + 1 - 1 = lvl := by omega
      rw [h2]
  | .txt s =>
      intro E strict lvl p rest hlvl
      rw [serialize1]
      simp only [List.singleton_append]
      rw [RevD.pointLoop_text]
  | .misc s =>
      intro E strict lvl p rest hlvl
      rw [serialize1]
      simp only [List.singleton_append]
      rw [RevD.pointLoop_other]

/-- The RevD point loop passes over a serialized forest above level 0. -/
theorem pointLoopD_pass_forest (ts : GForest) : ∀ E strict lvl (p : Point) rest, 1 ≤ lvl →
    RevD.pointLoop E strict lvl p (serializeF ts ++ rest) = RevD.pointLoop E strict lvl p rest := by
  match ts with
  | .nil => intro E strict lvl p rest hlvl; rw [serializeF]; simp
  | .cons t ts2 =>
      intro E strict lvl p rest hlvl
      rw [serializeF]
      simp only [List.append_assoc]
      rw [pointLoopD_pass_tree t E strict lvl p _ hlvl]
      rw [pointLoopD_pass_forest ts2 E strict lvl p rest hlvl]
end

mutual
/-- The RevD segment loop passes over a serialized tree above level 0. -/
theorem segLoopD_pass_tree (t : GTree) : ∀ E strict lvl (seg : Segment) rest, 1 ≤ lvl →
    RevD.segLoop E strict lvl seg (serialize1 t ++ rest) = RevD.segLoop E strict lvl seg rest := by
  match t with
  | .elem n a cs =>
      intro E strict lvl seg rest hlvl
      rw [serialize1]
      simp only [List.cons_append, List.append_assoc, List.singleton_append, List.nil_append]
      rw [RevD.segLoop_start]
      rw [if_neg (by rintro ⟨h0, h1⟩; omega)]
      rw [segLoopD_pass_forest cs E strict (lvl + 1) seg (XTok.close n :: rest) (by omega)]
      rw [RevD.segLoop_close]
      rw [if_neg (by rintro ⟨h0, h1⟩; omega)]
      have h2 : lvl + 1 - 1 = lvl := by omega
      rw [h2]
  | .txt s =>
      intro E strict lvl seg rest hlvl
      rw [serialize1]
      simp only [List.singleton_append]
      rw [RevD.segLoop_text]
  | .misc s =>
      intro E strict lvl seg rest hlvl
      rw [serialize1]
      simp only [List.singleton_append]
      rw [RevD.segLoop_other]

/-- The RevD segment loop passes over a serialized forest above level 0. -/
theorem segLoopD_pass_forest (ts : GForest) : ∀ E strict lvl (seg : Segment) rest, 1 ≤ lvl →
    RevD.segLoop E strict lvl seg (serializeF ts ++ rest) = RevD.segLoop E strict lvl seg rest := by
  match ts with
  | .nil => intro E strict lvl seg rest hlvl; rw [serializeF]; simp
  | .cons t ts2 =>
      intro E strict lvl seg rest hlvl
      rw [serializeF]
      simp only [List.append_assoc]
      rw [segLoopD_pass_tree t E strict lvl seg _ hlvl]
      rw [segLoopD_pass_forest ts2 E strict lvl seg rest hlvl]
end

mutual
/-- The RevD track loop passes over a serialized tree above level 0. -/
theorem trackLoopD_pass_tree (t : GTree) : ∀ E strict lvl (track : Track) rest, 1 ≤ lvl →
    RevD.trackLoop E strict lvl track (serialize1 t ++ rest) = RevD.trackLoop E strict lvl track rest := by
  match t with
  | .elem n a cs =>
      intro E strict lvl track rest hlvl
      rw [serialize1]
      simp only [List.cons_append, List.append_assoc, List.singleton_append, List.nil_append]
      rw [RevD.trackLoop_start]
      rw [if_neg (by rintro ⟨h0, h1⟩; omega)]
      rw [trackLoopD_pass_forest cs E strict (lvl + 1) track (XTok.close n :: rest) (by omega)]
      rw [RevD.trackLoop_close]
      rw [if_neg (by rintro ⟨h0, h1⟩; omega)]
      have h2 : lvl + 1 - 1 = lvl := by omega
      rw [h2]
  | .txt s =>
      intro E strict lvl track rest hlvl
      rw [serialize1]
      simp only [List.singleton_append]
      rw [RevD.trackLoop_text]
  | .misc s =>
      intro E strict lvl track rest hlvl
      rw [serialize1]
      simp only [List.singleton_append]
      rw [RevD.trackLoop_other]

/-- The RevD track loop passes over a serialized forest above level 0. -/
theorem trackLoopD_pass_forest (ts : GForest) : ∀ E strict lvl (track : Track) rest, 1 ≤ lvl →
    RevD.trackLoop E strict lvl track (serializeF ts ++ rest) = RevD.trackLoop E strict lvl track rest := by
  match ts with
  | .nil => intro E strict lvl track rest hlvl; rw [serializeF]; simp
  | .cons t ts2 =>
      intro E strict lvl track rest hlvl
      rw [serializeF]
      simp only [List.append_assoc]
      rw [trackLoopD_pass_tree t E strict lvl track _ hlvl]
      rw [trackLoopD_pass_forest ts2 E strict lvl track rest hlvl]
end

mutual
/-- The RevD metadata loop passes over a serialized tree above level 0. -/
theorem metaLoopD_pass_tree (t : GTree) : ∀ E strict lvl (m : Metadata) rest, 1 ≤ lvl →
    RevD.metaLoop E strict lvl m (serialize1 t ++ rest) = RevD.metaLoop E strict lvl m rest := by
  match t with
  | .elem n a cs =>
      intro E strict lvl m rest hlvl
      rw [serialize1]
      simp only [List.cons_append, List.append_assoc, List.singleton_append, List.nil_append]
      rw [RevD.metaLoop_start]
      rw [if_neg (by rintro ⟨h0, h1⟩; omega)]
      rw [metaLoopD_pass_forest cs E strict (lvl + 1) m (XTok.close n :: rest) (by omega)]
      rw [RevD.metaLoop_close]
      rw [if_neg (by rintro ⟨h0, h1⟩; omega)]
      have h2 : lvl + 1 - 1 = lvl := by omega
      rw [h2]
  | .txt s =>
      intro E strict lvl m rest hlvl
      rw [serialize1]
      simp only [List.singleton_append]
      rw [RevD.metaLoop_text]
  | .misc s =>
      intro E strict lvl m rest hlvl
      rw [serialize1]
      simp only [List.singleton_append]
      rw [RevD.metaLoop_other]

/-- The RevD metadata loop passes over a serialized forest above level 0. -/
theorem metaLoopD_pass_forest (ts : GForest) : ∀ E strict lvl (m : Metadata) rest, 1 ≤ lvl →
    RevD.metaLoop E strict lvl m (serializeF ts ++ rest) = RevD.metaLoop E strict lvl m rest := by
  match ts with
  | .nil => intro E strict lvl m rest hlvl; rw [serializeF]; simp
  | .cons t ts2 =>
      intro E strict lvl m rest hlvl
      rw [serializeF]
      simp only [List.append_assoc]
      rw [metaLoopD_pass_tree t E strict lvl m _ hlvl]
      rw [metaLoopD_pass_forest ts2 E strict lvl m rest hlvl]
end

mutual
/-- The RevD root loop passes over a serialized tree above level 0. -/
theorem gpxLoopD_pass_tree (t : GTree) : ∀ E strict lvl (doc : Document) rest, 1 ≤ lvl →
    RevD.gpxLoop E strict lvl doc (serialize1 t ++ rest) = RevD.gpxLoop E strict lvl doc rest := by
  match t with
  | .elem n a cs =>
      intro E strict lvl doc rest hlvl
      rw [serialize1]
      simp only [List.cons_append, List.append_assoc, List.singleton_append, List.nil_append]
      rw [RevD.gpxLoop_start]
      rw [if_neg (by rintro ⟨h0, h1⟩; omega)]
      rw [if_neg (by rintro ⟨h0, h1⟩; omega)]
      rw [gpxLoopD_pass_forest cs E strict (lvl + 1) doc (XTok.close n :: rest) (by omega)]
      rw [RevD.gpxLoop_close]
      rw [if_neg (by rintro ⟨h0, h1⟩; omega)]
      have h2 : lvl + 1 - 1 = lvl := by omega
      rw [h2]
  | .txt s =>
      intro E strict lvl doc rest hlvl
      rw [serialize1]
      simp only [List.singleton_append]
      rw [RevD.gpxLoop_text]
  | .misc s =>
      intro E strict lvl doc rest hlvl
      rw [serialize1]
      simp only [List.singleton_append]
      rw [RevD.gpxLoop_other]

/-- The RevD root loop passes over a serialized forest above level 0. -/
theorem gpxLoopD_pass_forest (ts : GForest) : ∀ E strict lvl (doc : Document) rest, 1 ≤ lvl →
    RevD.gpxLoop E strict lvl doc (serializeF ts ++ rest) = RevD.gpxLoop E strict lvl doc rest := by
  match ts with
  | .nil => intro E strict lvl doc rest hlvl; rw [serializeF]; simp
  | .cons t ts2 =>
      intro E strict lvl doc rest hlvl
      rw [serializeF]
      simp only [List.append_assoc]
      rw [gpxLoopD_pass_tree t E strict lvl doc _ hlvl]
      rw [gpxLoopD_pass_forest ts2 E strict lvl doc rest hlvl]
end

/-- consumeEle (RevD) over serialized all-text leaf content: each chunk
overwrites the running value (its parse, or 0 on a lenient parse
failure); in strict mode every chunk must parse. -/
theorem consumeEle_ser (E : Parsers) (strict : Bool) (chunks : GForest) :
    allTextF chunks = true → (strict = true → allParseFloatF E chunks = true) →
    ∀ v0 n rest, RevD.consumeEle E strict v0 (serializeF chunks ++ .close n :: rest) =
      .ok (eleValD E v0 chunks, rest) := by
  match chunks with
  | .nil =>
      intro ht hp v0 n rest
      rw [serializeF, eleValD]
      simp only [List.nil_append]
      rw [RevD.consumeEle]
  | .cons t ts =>
      intro ht hp v0 n rest
      cases t with
      | txt s =>
          rw [allTextF] at ht
          rw [serializeF, serialize1, eleValD]
          simp only [List.singleton_append, List.cons_append, List.append_assoc, List.nil_append]
          rw [RevD.consumeEle]
          cases hps : E.parseFloat s with
          | some v =>
              simp only []
              rw [consumeEle_ser E strict ts ht
                (fun hs => by
                  have := hp hs
                  rw [allParseFloatF] at this
                  simp only [Bool.and_eq_true] at this
                  exact this.2) v n rest]
              simp only [Option.getD_some]
          | none =>
              have hs : strict = false := by
                cases hstrict : strict with
                | false => rfl
                | true =>
                    have := hp hstrict
                    rw [allParseFloatF] at this
                    simp only [Bool.and_eq_true] at this
                    rw [hps] at this
                    simp at this
              rw [hs]
              simp only [Bool.false_eq_true, if_false]
              rw [consumeEle_ser E false ts ht (fun hc => by simp at hc) 0 n rest]
              simp only [Option.getD_none]
      | elem n2 a2 cs2 => simp [allTextF] at ht
      | misc s => simp [allTextF] at ht

/-- consumeTime (RevD) over serialized all-text leaf content. -/
theorem consumeTimeD_ser (E : Parsers) (strict : Bool) (chunks : GForest) :
    allTextF chunks = true → (strict = true → allParseTimeF E chunks = true) →
    ∀ v0 n rest, RevD.consumeTime E strict v0 (serializeF chunks ++ .close n :: rest) =
      .ok (timeValD E v0 chunks, rest) := by
  match chunks with
  | .nil =>
      intro ht hp v0 n rest
      rw [serializeF, timeValD]
      simp only [List.nil_append]
      rw [RevD.consumeTime]
  | .cons t ts =>
      intro ht hp v0 n rest
      cases t with
      | txt s =>
          rw [allTextF] at ht
          rw [serializeF, serialize1, timeValD]
          simp only [List.singleton_append, List.cons_append, List.append_assoc, List.nil_append]
          rw [RevD.consumeTime]
          cases hps : E.parseTime s with
          | some v =>
              simp only []
              rw [consumeTimeD_ser E strict ts ht
                (fun hs => by
                  have := hp hs
                  rw [allParseTimeF] at this
                  simp only [Bool.and_eq_true] at this
                  exact this.2) v n rest]
              simp only [Option.getD_some]
          | none =>
              have hs : strict = false := by
                cases hstrict : strict with
                | false => rfl
                | true =>
                    have := hp hstrict
                    rw [allParseTimeF] at this
                    simp only [Bool.and_eq_true] at this
                    rw [hps] at this
                    simp at this
              rw [hs]
              simp only [Bool.false_eq_true, if_false]
              rw [consumeTimeD_ser E false ts ht (fun hc => by simp at hc) 0 n rest]
              simp only [Option.getD_none]
      | elem n2 a2 cs2 => simp [allTextF] at ht
      | misc s => simp [allTextF] at ht

mutual
/-- The RevD extensions loop copies a serialized tree verbatim (the close
guard cannot fire above level 0). -/
theorem extsAuxD_tree (t : GTree) : ∀ lvl rest, 0 ≤ lvl →
    RevD.extsAux lvl (serialize1 t ++ rest) =
      (match RevD.extsAux lvl rest with
       | .ok (ts2, r) => .ok (serialize1 t ++ ts2, r)
       | .error e => .error e) := by
  match t with
  | .elem n a cs =>
      intro lvl rest hlvl
      rw [serialize1]
      simp only [List.cons_append, List.append_assoc, List.singleton_append, List.nil_append]
      rw [RevD.extsAux]
      rw [extsAuxD_forest cs (lvl + 1) (XTok.close n :: rest) (by omega)]
      rw [RevD.extsAux]
      rw [if_neg (by rintro ⟨h0, h1⟩; omega)]
      have h2 : lvl + 1 - 1 = lvl := by omega
      rw [h2]
      cases he : RevD.extsAux lvl rest with
      | ok p => obtain ⟨ts2, r⟩ := p; simp
      | error e => simp
  | .txt s =>
      intro lvl rest hlvl
      rw [serialize1]
      simp only [List.singleton_append]
      rw [RevD.extsAux]
  | .misc s =>
      intro lvl rest hlvl
      rw [serialize1]
      simp only [List.singleton_append]
      rw [RevD.extsAux]

/-- The RevD extensions loop copies a serialized forest verbatim. -/
theorem extsAuxD_forest (ts : GForest) : ∀ lvl rest, 0 ≤ lvl →
    RevD.extsAux lvl (serializeF ts ++ rest) =
      (match RevD.extsAux lvl rest with
       | .ok (ts2, r) => .ok (serializeF ts ++ ts2, r)
       | .error e => .error e) := by
  match ts with
  | .nil =>
      intro lvl rest hlvl
      rw [serializeF]
      simp only [List.nil_append]
      cases he : RevD.extsAux lvl rest with
      | ok p => obtain ⟨ts2, r⟩ := p; simp
      | error e => simp
  | .cons t ts2 =>
      intro lvl rest hlvl
      rw [serializeF]
      simp only [List.append_assoc]
      rw [extsAuxD_tree t lvl _ hlvl, extsAuxD_forest ts2 lvl rest hlvl]
      cases he : RevD.extsAux lvl rest with
      | ok p => obtain ⟨ts3, r⟩ := p; simp
      | error e => simp
end

/-- consumeExtensions (RevD) over a serialized body followed by the
extensions end element captures exactly the serialized body. -/
theorem consumeExtensions_serD (body : GForest) (sp : String) (rest : List XTok) :
    RevD.extsAux 0 (serializeF body ++ .close ⟨sp, "extensions"⟩ :: rest) = .ok (serializeF body, rest) := by
  rw [extsAuxD_forest body 0 (XTok.close ⟨sp, "extensions"⟩ :: rest) (by omega)]
  rw [RevD.extsAux]
  rw [if_pos ⟨rfl, rfl⟩]
  simp

/-- Processing one serialized well-formed trkpt child in the RevD point
loop at level 0. -/
theorem pointItem_stepD (E : Parsers) (strict : Bool) (i : PItem) :
    wfPItemD E strict i = true →
    ∀ p rest, RevD.pointLoop E strict 0 p (serializePItem i ++ rest) =
      RevD.pointLoop E strict 0 (applyPD E p i) rest := by
  match i with
  | .ele sp a chunks =>
      intro hwf p rest
      rw [wfPItemD] at hwf
      simp only [Bool.and_eq_true] at hwf
      obtain ⟨htxt, hparse⟩ := hwf
      rw [serializePItem]
      simp only [List.cons_append, List.append_assoc, List.singleton_append, List.nil_append]
      rw [RevD.pointLoop_start]
      rw [if_pos ⟨rfl, rfl⟩]
      rw [consumeEle_ser E strict chunks htxt
        (fun hs => by rw [hs] at hparse; simpa using hparse) 0 ⟨sp, "ele"⟩ rest]
      simp only []
      rw [applyPD]
  | .time sp a chunks =>
      intro hwf p rest
      rw [wfPItemD] at hwf
      simp only [Bool.and_eq_true] at hwf
      obtain ⟨htxt, hparse⟩ := hwf
      rw [serializePItem]
      simp only [List.cons_append, List.append_assoc, List.singleton_append, List.nil_append]
      rw [RevD.pointLoop_start]
      rw [if_neg (by rintro ⟨h0, hc⟩; simp at hc)]
      rw [if_pos ⟨rfl, rfl⟩]
      rw [consumeTimeD_ser E strict chunks htxt
        (fun hs => by rw [hs] at hparse; simpa using hparse) 0 ⟨sp, "time"⟩ rest]
      simp only []
      rw [applyPD]
  | .exts sp a body =>
      intro hwf p rest
      rw [serializePItem]
      simp only [List.cons_append, List.append_assoc, List.singleton_append, List.nil_append]
      rw [RevD.pointLoop_start]
      rw [if_neg (by rintro ⟨h0, hc⟩; simp at hc)]
      rw [if_neg (by rintro ⟨h0, hc⟩; simp at hc)]
      rw [if_pos ⟨rfl, rfl⟩]
      rw [consumeExtensions_serD body sp rest]
      simp only []
      rw [applyPD]
  | .skip t =>
      intro hwf p rest
      rw [wfPItemD] at hwf
      rw [applyPD]
      match t with
      | .elem n2 a2 cs2 =>
          rw [topNotIn] at hwf
          simp only [List.contains_cons, Bool.not_eq_true, Bool.or_eq_false_iff] at hwf
          rw [serializePItem, serialize1]
          simp only [List.cons_append, List.append_assoc, List.singleton_append, List.nil_append]
          rw [RevD.pointLoop_start]
          have h1 : ¬ n2.localName = "ele" := by intro hc; simp [hc] at hwf
          have h2 : ¬ n2.localName = "time" := by intro hc; simp [hc] at hwf
          have h3 : ¬ n2.localName = "extensions" := by intro hc; simp [hc] at hwf
          rw [if_neg (by rintro ⟨h0, hc⟩; exact h1 hc)]
          rw [if_neg (by rintro ⟨h0, hc⟩; exact h2 hc)]
          rw [if_neg (by rintro ⟨h0, hc⟩; exact h3 hc)]
          rw [pointLoopD_pass_forest cs2 E strict (0 + 1) p _ (by omega)]
          rw [RevD.pointLoop_close]
          rw [if_neg (by rintro ⟨h0, hc⟩; omega)]
          have h4 : (0 : Int) + 1 - 1 = 0 := by omega
          rw [h4]
      | .txt s =>
          rw [serializePItem, serialize1]
          simp only [List.singleton_append]
          rw [RevD.pointLoop_text]
      | .misc s =>
          rw [serializePItem, serialize1]
          simp only [List.singleton_append]
          rw [RevD.pointLoop_other]

/-- Processing a serialized list of well-formed trkpt children in RevD. -/
theorem pointItems_stepD (E : Parsers) (strict : Bool) (items : List PItem) :
    wfPItemsD E strict items = true →
    ∀ p rest, RevD.pointLoop E strict 0 p (serializePItems items ++ rest) =
      RevD.pointLoop E strict 0 (items.foldl (applyPD E) p) rest := by
  induction items with
  | nil =>
      intro hwf p rest
      rw [serializePItems]
      simp only [List.nil_append, List.foldl_nil]
  | cons i is ih =>
      intro hwf p rest
      rw [wfPItemsD] at hwf
      simp only [List.all_cons, Bool.and_eq_true] at hwf
      obtain ⟨hi, his⟩ := hwf
      rw [serializePItems]
      simp only [List.append_assoc]
      rw [pointItem_stepD E strict i hi]
      rw [ih (by rw [wfPItemsD]; exact his)]
      simp only [List.foldl_cons]

/-- consumePoint (RevD) over a serialized well-formed trkpt. -/
theorem consumePoint_serD (E : Parsers) (strict : Bool) (attrs : List Attr) (items : List PItem) :
    latlonOk E attrs = true → wfPItemsD E strict items = true →
    ∀ sp rest, RevD.consumePoint E strict attrs (serializePItems items ++ .close ⟨sp, "trkpt"⟩ :: rest) =
      .ok (pointOfD E attrs items, rest) := by
  intro ha hwf sp rest
  rw [RevD.consumePoint]
  rw [consumeAttrs_ok E attrs ha strict]
  simp only []
  rw [pointItems_stepD E strict items hwf]
  rw [RevD.pointLoop_close]
  rw [if_pos ⟨rfl, rfl⟩]
  rw [pointOfD]

/-- Processing a serialized list of well-formed trkseg children in RevD. -/
theorem sItems_stepD (E : Parsers) (strict : Bool) (items : List SItem) :
    wfSItemsD E strict items = true →
    ∀ seg rest, RevD.segLoop E strict 0 seg (serializeSItems items ++ rest) =
      RevD.segLoop E strict 0 ⟨seg.Points ++ (segOfD E items).Points⟩ rest := by
  induction items with
  | nil =>
      intro hwf seg rest
      rw [serializeSItems, segOfD]
      simp only [List.nil_append, List.filterMap_nil, List.append_nil]
  | cons i is ih =>
      intro hwf seg rest
      rw [wfSItemsD] at hwf
      simp only [List.all_cons, Bool.and_eq_true] at hwf
      obtain ⟨hi, his⟩ := hwf
      have his2 : wfSItemsD E strict is = true := by rw [wfSItemsD]; exact his
      match i with
      | .pt sp a pis =>
          rw [wfSItemD] at hi
          simp only [Bool.and_eq_true] at hi
          obtain ⟨hla, hpis⟩ := hi
          rw [serializeSItems, serializeSItem]
          simp only [List.cons_append, List.append_assoc, List.singleton_append, List.nil_append]
          rw [RevD.segLoop_start]
          rw [if_pos ⟨rfl, rfl⟩]
          rw [consumePoint_serD E strict a pis hla hpis]
          simp only []
          rw [ih his2]
          rw [segOfD, segOfD]
          simp only [List.filterMap_cons, List.append_assoc]
          rfl
      | .skip t =>
          rw [wfSItemD] at hi
          rw [serializeSItems]
          simp only [List.append_assoc]
          match t with
          | .elem n2 a2 cs2 =>
              rw [topNotIn] at hi
              simp only [List.contains_cons, Bool.not_eq_true, Bool.or_eq_false_iff] at hi
              rw [serializeSItem, serialize1]
              simp only [List.cons_append, List.append_assoc, List.singleton_append, List.nil_append]
              rw [RevD.segLoop_start]
              have h1 : ¬ n2.localName = "trkpt" := by intro hc; simp [hc] at hi
              rw [if_neg (by rintro ⟨h0, hc⟩; exact h1 hc)]
              rw [segLoopD_pass_forest cs2 E strict (0 + 1) seg _ (by omega)]
              rw [RevD.segLoop_close]
              rw [if_neg (by rintro ⟨h0, hc⟩; omega)]
              have h4 : (0 : Int) + 1 - 1 = 0 := by omega
              rw [h4]
              rw [ih his2]
              rw [segOfD, segOfD]
              simp only [List.filterMap_cons]
          | .txt s =>
              rw [serializeSItem, serialize1]
              simp only [List.singleton_append]
              rw [RevD.segLoop_text]
              rw [ih his2]
              rw [segOfD, segOfD]
              simp only [List.filterMap_cons]
          | .misc s =>
              rw [serializeSItem, serialize1]
              simp only [List.singleton_append]
              rw [RevD.segLoop_other]
              rw [ih his2]
              rw [segOfD, segOfD]
              simp only [List.filterMap_cons]

/-- consumeSegment (RevD) over a serialized well-formed trkseg. -/
theorem consumeSegment_serD (E : Parsers) (strict : Bool) (items : List SItem) :
    wfSItemsD E strict items = true →
    ∀ sp rest, RevD.consumeSegment E strict (serializeSItems items ++ .close ⟨sp, "trkseg"⟩ :: rest) =
      .ok (segOfD E items, rest) := by
  intro hwf sp rest
  rw [RevD.consumeSegment]
  rw [sItems_stepD E strict items hwf]
  rw [RevD.segLoop_close]
  rw [if_pos ⟨rfl, rfl⟩]
  rfl

/-- Processing a serialized list of well-formed trk children in RevD. -/
theorem tItems_stepD (E : Parsers) (strict : Bool) (items : List TItem) :
    wfTItemsD E strict items = true →
    ∀ track rest, RevD.trackLoop E strict 0 track (serializeTItems items ++ rest) =
      RevD.trackLoop E strict 0 ⟨track.Segments ++ (trackOfD E items).Segments⟩ rest := by
  induction items with
  | nil =>
      intro hwf track rest
      rw [serializeTItems, trackOfD]
      simp only [List.nil_append, List.filterMap_nil, List.append_nil]
  | cons i is ih =>
      intro hwf track rest
      rw [wfTItemsD] at hwf
      simp only [List.all_cons, Bool.and_eq_true] at hwf
      obtain ⟨hi, his⟩ := hwf
      have his2 : wfTItemsD E strict is = true := by rw [wfTItemsD]; exact his
      match i with
      | .seg sp a sis =>
          rw [wfTItemD] at hi
          rw [serializeTItems, serializeTItem]
          simp only [List.cons_append, List.append_assoc, List.singleton_append, List.nil_append]
          rw [RevD.trackLoop_start]
          rw [if_pos ⟨rfl, rfl⟩]
          rw [consumeSegment_serD E strict sis hi]
          simp only []
          rw [ih his2]
          rw [trackOfD, trackOfD]
          simp only [List.filterMap_cons, List.append_assoc]
          rfl
      | .skip t =>
          rw [wfTItemD] at hi
          rw [serializeTItems]
          simp only [List.append_assoc]
          match t with
          | .elem n2 a2 cs2 =>
              rw [topNotIn] at hi
              simp only [List.contains_cons, Bool.not_eq_true, Bool.or_eq_false_iff] at hi
              rw [serializeTItem, serialize1]
              simp only [List.cons_append, List.append_assoc, List.singleton_append, List.nil_append]
              rw [RevD.trackLoop_start]
              have h1 : ¬ n2.localName = "trkseg" := by intro hc; simp [hc] at hi
              rw [if_neg (by rintro ⟨h0, hc⟩; exact h1 hc)]
              rw [trackLoopD_pass_forest cs2 E strict (0 + 1) track _ (by omega)]
              rw [RevD.trackLoop_close]
              rw [if_neg (by rintro ⟨h0, hc⟩; omega)]
              have h4 : (0 : Int) + 1 - 1 = 0 := by omega
              rw [h4]
              rw [ih his2]
              rw [trackOfD, trackOfD]
              simp only [List.filterMap_cons]
          | .txt s =>
              rw [serializeTItem, serialize1]
              simp only [List.singleton_append]
              rw [RevD.trackLoop_text]
              rw [ih his2]
              rw [trackOfD, trackOfD]
              simp only [List.filterMap_cons]
          | .misc s =>
              rw [serializeTItem, serialize1]
              simp only [List.singleton_append]
              rw [RevD.trackLoop_other]
              rw [ih his2]
              rw [trackOfD, trackOfD]
              simp only [List.filterMap_cons]

/-- consumeTrack (RevD) over a serialized well-formed trk. -/
theorem consumeTrack_serD (E : Parsers) (strict : Bool) (items : List TItem) :
    wfTItemsD E strict items = true →
    ∀ sp rest, RevD.consumeTrack E strict (serializeTItems items ++ .close ⟨sp, "trk"⟩ :: rest) =
      .ok (trackOfD E items, rest) := by
  intro hwf sp rest
  rw [RevD.consumeTrack]
  rw [tItems_stepD E strict items hwf]
  rw [RevD.trackLoop_close]
  rw [if_pos ⟨rfl, rfl⟩]
  rfl

/-- Processing a serialized list of well-formed metadata children in
RevD: the last time child wins, read through the RevD time loop. -/
theorem mItems_stepD (E : Parsers) (strict : Bool) (items : List MItem) :
    wfMItemsD E strict items = true →
    ∀ m rest, RevD.metaLoop E strict 0 m (serializeMItems items ++ rest) =
      RevD.metaLoop E strict 0
        (items.foldl
          (fun m i =>
            match i with
            | .mtime _ _ chunks => { Time := timeValD E 0 chunks }
            | .skip _ => m)
          m)
        rest := by
  induction items with
  | nil =>
      intro hwf m rest
      rw [serializeMItems]
      simp only [List.nil_append, List.foldl_nil]
  | cons i is ih =>
      intro hwf m rest
      rw [wfMItemsD] at hwf
      simp only [List.all_cons, Bool.and_eq_true] at hwf
      obtain ⟨hi, his⟩ := hwf
      have his2 : wfMItemsD E strict is = true := by rw [wfMItemsD]; exact his
      match i with
      | .mtime sp a chunks =>
          rw [wfMItemD] at hi
          simp only [Bool.and_eq_true] at hi
          obtain ⟨htxt, hparse⟩ := hi
          rw [serializeMItems, serializeMItem]
          simp only [List.cons_append, List.append_assoc, List.singleton_append, List.nil_append]
          rw [RevD.metaLoop_start]
          rw [if_pos ⟨rfl, rfl⟩]
          rw [consumeTimeD_ser E strict chunks htxt
            (fun hs => by rw [hs] at hparse; simpa using hparse) 0 ⟨sp, "time"⟩ _]
          simp only []
          rw [ih his2]
          simp only [List.foldl_cons]
      | .skip t =>
          rw [wfMItemD] at hi
          rw [serializeMItems]
          simp only [List.append_assoc]
          match t with
          | .elem n2 a2 cs2 =>
              rw [topNotIn] at hi
              simp only [List.contains_cons, Bool.not_eq_true, Bool.or_eq_false_iff] at hi
              rw [serializeMItem, serialize1]
              simp only [List.cons_append, List.append_assoc, List.singleton_append, List.nil_append]
              rw [RevD.metaLoop_start]
              have h1 : ¬ n2.localName = "time" := by intro hc; simp [hc] at hi
              rw [if_neg (by rintro ⟨h0, hc⟩; exact h1 hc)]
              rw [metaLoopD_pass_forest cs2 E strict (0 + 1) m _ (by omega)]
              rw [RevD.metaLoop_close]
              rw [if_neg (by rintro ⟨h0, hc⟩; omega)]
              have h4 : (0 : Int) + 1 - 1 = 0 := by omega
              rw [h4]
              rw [ih his2]
              simp only [List.foldl_cons]
          | .txt s =>
              rw [serializeMItem, serialize1]
              simp only [List.singleton_append]
              rw [RevD.metaLoop_text]
              rw [ih his2]
              simp only [List.foldl_cons]
          | .misc s =>
              rw [serializeMItem, serialize1]
              simp only [List.singleton_append]
              rw [RevD.metaLoop_other]
              rw [ih his2]
              simp only [List.foldl_cons]

/-- consumeMetadata (RevD) over a serialized well-formed metadata
element. -/
theorem consumeMetadata_serD (E : Parsers) (strict : Bool) (items : List MItem) :
    wfMItemsD E strict items = true →
    ∀ sp rest, RevD.consumeMetadata E strict (serializeMItems items ++ .close ⟨sp, "metadata"⟩ :: rest) =
      .ok (metaOfD E items, rest) := by
  intro hwf sp rest
  rw [RevD.consumeMetadata]
  rw [mItems_stepD E strict items hwf]
  rw [RevD.metaLoop_close]
  rw [if_pos ⟨rfl, rfl⟩]
  rw [metaOfD]

/-- Processing a serialized list of well-formed root children in RevD. -/
theorem gItems_stepD (E : Parsers) (strict : Bool) (items : List GItem) :
    wfGItemsD E strict items = true →
    ∀ doc rest, RevD.gpxLoop E strict 0 doc (serializeGItems items ++ rest) =
      RevD.gpxLoop E strict 0
        (items.foldl
          (fun doc i =>
            match i with
            | .trk _ _ tis => { doc with Tracks := doc.Tracks ++ [trackOfD E tis] }
            | .meta _ _ mis => { doc with Metadata := metaOfD E mis }
            | .skip _ => doc)
          doc)
        rest := by
  induction items with
  | nil =>
      intro hwf doc rest
      rw [serializeGItems]
      simp only [List.nil_append, List.foldl_nil]
  | cons i is ih =>
      intro hwf doc rest
      rw [wfGItemsD] at hwf
      simp only [List.all_cons, Bool.and_eq_true] at hwf
      obtain ⟨hi, his⟩ := hwf
      have his2 : wfGItemsD E strict is = true := by rw [wfGItemsD]; exact his
      match i with
      | .trk sp a tis =>
          rw [wfGItemD] at hi
          rw [serializeGItems, serializeGItem]
          simp only [List.cons_append, List.append_assoc, List.singleton_append, List.nil_append]
          rw [RevD.gpxLoop_start]
          rw [if_pos ⟨rfl, rfl⟩]
          rw [consumeTrack_serD E strict tis hi]
          simp only []
          rw [ih his2]
          simp only [List.foldl_cons]
      | .meta sp a mis =>
          rw [wfGItemD] at hi
          rw [serializeGItems, serializeGItem]
          simp only [List.cons_append, List.append_assoc, List.singleton_append, List.nil_append]
          rw [RevD.gpxLoop_start]
          rw [if_neg (by rintro ⟨h0, hc⟩; simp at hc)]
          rw [if_pos ⟨rfl, rfl⟩]
          rw [consumeMetadata_serD E strict mis hi]
          simp only []
          rw [ih his2]
          simp only [List.foldl_cons]
      | .skip t =>
          rw [wfGItemD] at hi
          rw [serializeGItems]
          simp only [List.append_assoc]
          match t with
          | .elem n2 a2 cs2 =>
              rw [topNotIn] at hi
              simp only [List.contains_cons, Bool.not_eq_true, Bool.or_eq_false_iff] at hi
              rw [serializeGItem, serialize1]
              simp only [List.cons_append, List.append_assoc, List.singleton_append, List.nil_append]
              rw [RevD.gpxLoop_start]
              have h1 : ¬ n2.localName = "trk" := by intro hc; simp [hc] at hi
              have h2 : ¬ n2.localName = "metadata" := by intro hc; simp [hc] at hi
              rw [if_neg (by rintro ⟨h0, hc⟩; exact h1 hc)]
              rw [if_neg (by rintro ⟨h0, hc⟩; exact h2 hc)]
              rw [gpxLoopD_pass_forest cs2 E strict (0 + 1) doc _ (by omega)]
              rw [RevD.gpxLoop_close]
              rw [if_neg (by rintro ⟨h0, hc⟩; omega)]
              have h4 : (0 : Int) + 1 - 1 = 0 := by omega
              rw [h4]
              rw [ih his2]
              simp only [List.foldl_cons]
          | .txt s =>
              rw [serializeGItem, serialize1]
              simp only [List.singleton_append]
              rw [RevD.gpxLoop_text]
              rw [ih his2]
              simp only [List.foldl_cons]
          | .misc s =>
              rw [serializeGItem, serialize1]
              simp only [List.singleton_append]
              rw [RevD.gpxLoop_other]
              rw [ih his2]
              simp only [List.foldl_cons]

/-- The combined RevD root fold splits into its three fields. -/
theorem gpxFoldD_fields (E : Parsers) (items : List GItem) : ∀ doc : Document,
    (items.foldl
      (fun doc i =>
        match i with
        | .trk _ _ tis => { doc with Tracks := doc.Tracks ++ [trackOfD E tis] }
        | .meta _ _ mis => { doc with Metadata := metaOfD E mis }
        | .skip _ => doc)
      doc) =
    { Version := doc.Version
      Metadata := items.foldl
        (fun md i =>
          match i with
          | .meta _ _ mis => metaOfD E mis
          | _ => md)
        doc.Metadata
      Tracks := doc.Tracks ++ items.filterMap fun i =>
        match i with
        | .trk _ _ tis => some (trackOfD E tis)
        | _ => none } := by
  induction items with
  | nil => intro doc; simp
  | cons i is ih =>
      intro doc
      match i with
      | .trk sp a tis =>
          simp only [List.foldl_cons, List.filterMap_cons]
          rw [ih]
          simp
      | .meta sp a mis =>
          simp only [List.foldl_cons, List.filterMap_cons]
          rw [ih]
      | .skip t =>
          simp only [List.foldl_cons, List.filterMap_cons]
          rw [ih]

/-- Decode (RevD) of a serialized well-formed document produces the RevD
specified document. -/
theorem decode_serD (E : Parsers) (strict : Bool) (d : SDoc) :
    wfDocD E strict d = true →
    RevD.Decode E strict (serializeDoc d) = .ok (docOfD E d) := by
  intro hwf
  rw [wfDocD] at hwf
  simp only [Bool.and_eq_true, decide_eq_true_eq] at hwf
  obtain ⟨hns, hitems⟩ := hwf
  rw [RevD.Decode, serializeDoc]
  simp only [List.cons_append]
  have hfind : findGPX (XTok.start ⟨d.rootSpace, "gpx"⟩ d.rootAttrs :: (serializeGItems d.items ++ [XTok.close ⟨d.rootSpace, "gpx"⟩])) = .ok (⟨d.rootSpace, "gpx"⟩, d.rootAttrs, serializeGItems d.items ++ [XTok.close ⟨d.rootSpace, "gpx"⟩]) := by
    rw [findGPX.eq_def]
    simp [hns]
  simp only [hfind]
  rw [RevD.consumeGPX]
  rw [gItems_stepD E strict d.items hitems]
  rw [RevD.gpxLoop_close]
  rw [if_pos ⟨rfl, rfl⟩]
  rw [gpxFoldD_fields E d.items]
  rw [docOfD]
  simp

/-- A point-level error inside a well-formed context aborts the whole
RevB decode with that error: the document before the failing point is
consumed normally, then the error unwinds through every level. -/
theorem decodeB_fail_point (E : Parsers) (strict : Bool) (rootAttrs : List Attr)
    (gPre : List GItem) (spT : String) (aT : List Attr) (tPre : List TItem)
    (spS : String) (aS : List Attr) (sPre : List SItem) (spP : String) (pAttrs : List Attr)
    (pPre : List PItem) (T : List XTok) (e : Err) :
    wfGItemsB E gPre = true → wfTItemsB E tPre = true → wfSItemsB E sPre = true →
    latlonOk E pAttrs = true → wfPItemsB E pPre = true →
    RevB.pointLoop E (pPre.foldl (applyP E) (pointFoldAttrs E pAttrs {})) T = .error e →
    RevB.Decode E strict
      (.start ⟨nsGPX11, "gpx"⟩ rootAttrs ::
        (serializeGItems gPre ++ .start ⟨spT, "trk"⟩ aT ::
          (serializeTItems tPre ++ .start ⟨spS, "trkseg"⟩ aS ::
            (serializeSItems sPre ++ .start ⟨spP, "trkpt"⟩ pAttrs ::
              (serializePItems pPre ++ T))))) = .error e := by
  intro hg ht hs hla hpp hT
  rw [RevB.Decode]
  have hfind : findGPX
      (XTok.start ⟨nsGPX11, "gpx"⟩ rootAttrs ::
        (serializeGItems gPre ++ XTok.start ⟨spT, "trk"⟩ aT ::
          (serializeTItems tPre ++ XTok.start ⟨spS, "trkseg"⟩ aS ::
            (serializeSItems sPre ++ XTok.start ⟨spP, "trkpt"⟩ pAttrs ::
              (serializePItems pPre ++ T))))) =
      .ok (⟨nsGPX11, "gpx"⟩, rootAttrs,
        serializeGItems gPre ++ XTok.start ⟨spT, "trk"⟩ aT ::
          (serializeTItems tPre ++ XTok.start ⟨spS, "trkseg"⟩ aS ::
            (serializeSItems sPre ++ XTok.start ⟨spP, "trkpt"⟩ pAttrs ::
              (serializePItems pPre ++ T)))) := by
    rw [findGPX.eq_def]
    simp
  simp only [hfind]
  rw [RevB.consumeGPX]
  rw [gItems_stepB E strict gPre hg]
  rw [RevB.gpxLoop_start]
  rw [if_pos (show (⟨spT, "trk"⟩ : XName).localName = "trk" from rfl)]
  rw [RevB.consumeTrack]
  rw [tItems_stepB E strict tPre ht]
  rw [RevB.trackLoop_start]
  rw [if_pos (show (⟨spS, "trkseg"⟩ : XName).localName = "trkseg" from rfl)]
  rw [RevB.consumeSegment]
  rw [sItems_stepB E strict sPre hs]
  rw [RevB.segLoop_start]
  rw [if_pos (show (⟨spP, "trkpt"⟩ : XName).localName = "trkpt" from rfl)]
  rw [RevB.consumePoint]
  rw [consumeAttrs_ok E pAttrs hla strict]
  simp only []
  rw [pointItems_stepB E pPre hpp]
  rw [hT]

/-- A point-level error inside a well-formed context aborts the whole
RevD decode with that error. -/
theorem decodeD_fail_point (E : Parsers) (strict : Bool) (rootAttrs : List Attr)
    (gPre : List GItem) (spT : String) (aT : List Attr) (tPre : List TItem)
    (spS : String) (aS : List Attr) (sPre : List SItem) (spP : String) (pAttrs : List Attr)
    (pPre : List PItem) (T : List XTok) (e : Err) :
    wfGItemsD E strict gPre = true → wfTItemsD E strict tPre = true → wfSItemsD E strict sPre = true →
    latlonOk E pAttrs = true → wfPItemsD E strict pPre = true →
    RevD.pointLoop E strict 0 (pPre.foldl (applyPD E) (pointFoldAttrs E pAttrs {})) T = .error e →
    RevD.Decode E strict
      (.start ⟨nsGPX11, "gpx"⟩ rootAttrs ::
        (serializeGItems gPre ++ .start ⟨spT, "trk"⟩ aT ::
          (serializeTItems tPre ++ .start ⟨spS, "trkseg"⟩ aS ::
            (serializeSItems sPre ++ .start ⟨spP, "trkpt"⟩ pAttrs ::
              (serializePItems pPre ++ T))))) = .error e := by
  intro hg ht hs hla hpp hT
  rw [RevD.Decode]
  have hfind : findGPX
      (XTok.start ⟨nsGPX11, "gpx"⟩ rootAttrs ::
        (serializeGItems gPre ++ XTok.start ⟨spT, "trk"⟩ aT ::
          (serializeTItems tPre ++ XTok.start ⟨spS, "trkseg"⟩ aS ::
            (serializeSItems sPre ++ XTok.start ⟨spP, "trkpt"⟩ pAttrs ::
              (serializePItems pPre ++ T))))) =
      .ok (⟨nsGPX11, "gpx"⟩, rootAttrs,
        serializeGItems gPre ++ XTok.start ⟨spT, "trk"⟩ aT ::
          (serializeTItems tPre ++ XTok.start ⟨spS, "trkseg"⟩ aS ::
            (serializeSItems sPre ++ XTok.start ⟨spP, "trkpt"⟩ pAttrs ::
              (serializePItems pPre ++ T)))) := by
    rw [findGPX.eq_def]
    simp
  simp only [hfind]
  rw [RevD.consumeGPX]
  rw [gItems_stepD E strict gPre hg]
  rw [RevD.gpxLoop_start]
  rw [if_pos ⟨rfl, rfl⟩]
  rw [RevD.consumeTrack]
  rw [tItems_stepD E strict tPre ht]
  rw [RevD.trackLoop_start]
  rw [if_pos ⟨rfl, rfl⟩]
  rw [RevD.consumeSegment]
  rw [sItems_stepD E strict sPre hs]
  rw [RevD.segLoop_start]
  rw [if_pos ⟨rfl, rfl⟩]
  rw [RevD.consumePoint]
  rw [consumeAttrs_ok E pAttrs hla strict]
  simp only []
  rw [pointItems_stepD E strict pPre hpp]
  rw [hT]

/-- An ele child whose all-text content fails to parse makes the RevB
point loop return the raw ParseFloat error, in either strictness mode. -/
theorem pointLoop_eleParseFail_B (E : Parsers) (p : Point) (sp : String) (a : List Attr)
    (chunks : GForest) (n : XName) (junk : List XTok) :
    allTextF chunks = true → E.parseFloat (concatF chunks) = none →
    RevB.pointLoop E p (.start ⟨sp, "ele"⟩ a :: (serializeF chunks ++ .close n :: junk)) =
      .error .floatErr := by
  intro htxt hp
  rw [RevB.pointLoop_start]
  rw [if_pos (show (⟨sp, "ele"⟩ : XName).localName = "ele" from rfl)]
  rw [consumeFloat]
  rw [consumeString_ser chunks n junk htxt]
  simp only []
  rw [hp]

/-- An ele child holding a nested element makes the RevB point loop
return the consumeString error, in either strictness mode. -/
theorem pointLoop_eleNested_B (E : Parsers) (p : Point) (sp : String) (a : List Attr)
    (txtF : GForest) (nB : XName) (aB : List Attr) (junk : List XTok) :
    allTextF txtF = true →
    RevB.pointLoop E p (.start ⟨sp, "ele"⟩ a :: (serializeF txtF ++ .start nB aB :: junk)) =
      .error .unexpectedElement := by
  intro htxt
  rw [RevB.pointLoop_start]
  rw [if_pos (show (⟨sp, "ele"⟩ : XName).localName = "ele" from rfl)]
  rw [consumeFloat]
  rw [consumeString_nested txtF nB aB junk htxt]

/-- A time child holding a nested element makes the RevB point loop
return the consumeString error, in either strictness mode. -/
theorem pointLoop_timeNested_B (E : Parsers) (p : Point) (sp : String) (a : List Attr)
    (txtF : GForest) (nB : XName) (aB : List Attr) (junk : List XTok) :
    allTextF txtF = true →
    RevB.pointLoop E p (.start ⟨sp, "time"⟩ a :: (serializeF txtF ++ .start nB aB :: junk)) =
      .error .unexpectedElement := by
  intro htxt
  rw [RevB.pointLoop_start]
  rw [if_neg (show ¬ (⟨sp, "time"⟩ : XName).localName = "ele" by simp)]
  rw [if_pos (show (⟨sp, "time"⟩ : XName).localName = "time" from rfl)]
  rw [consumeTime]
  rw [consumeString_nested txtF nB aB junk htxt]

/-- consumeEle (RevD) fails with the invalid-ele element error at a
nested start element, after passing the preceding character data. -/
theorem consumeEle_nested (E : Parsers) (strict : Bool) (chunks : GForest) :
    allTextF chunks = true → (strict = true → allParseFloatF E chunks = true) →
    ∀ v0 (nB : XName) aB junk, RevD.consumeEle E strict v0 (serializeF chunks ++ .start nB aB :: junk) =
      .error .invalidEleElem := by
  match chunks with
  | .nil =>
      intro ht hp v0 nB aB junk
      rw [serializeF]
      simp only [List.nil_append]
      rw [RevD.consumeEle]
  | .cons t ts =>
      intro ht hp v0 nB aB junk
      cases t with
      | txt s =>
          rw [allTextF] at ht
          rw [serializeF, serialize1]
          simp only [List.singleton_append, List.cons_append, List.append_assoc, List.nil_append]
          rw [RevD.consumeEle]
          cases hps : E.parseFloat s with
          | some v =>
              simp only []
              rw [consumeEle_nested E strict ts ht
                (fun hs => by
                  have := hp hs
                  rw [allParseFloatF] at this
                  simp only [Bool.and_eq_true] at this
                  exact this.2) v nB aB junk]
          | none =>
              have hs : strict = false := by
                cases hstrict : strict with
                | false => rfl
                | true =>
                    have := hp hstrict
                    rw [allParseFloatF] at this
                    simp only [Bool.and_eq_true] at this
                    rw [hps] at this
                    simp at this
              rw [hs]
              simp only [Bool.false_eq_true, if_false]
              rw [consumeEle_nested E false ts ht (fun hc => by simp at hc) 0 nB aB junk]
      | elem n2 a2 cs2 => simp [allTextF] at ht
      | misc s => simp [allTextF] at ht

/-- consumeTime (RevD) fails with the invalid-time element error at a
nested start element. -/
theorem consumeTimeD_nested (E : Parsers) (strict : Bool) (chunks : GForest) :
    allTextF chunks = true → (strict = true → allParseTimeF E chunks = true) →
    ∀ v0 (nB : XName) aB junk, RevD.consumeTime E strict v0 (serializeF chunks ++ .start nB aB :: junk) =
      .error .invalidTimeElem := by
  match chunks with
  | .nil =>
      intro ht hp v0 nB aB junk
      rw [serializeF]
      simp only [List.nil_append]
      rw [RevD.consumeTime]
  | .cons t ts =>
      intro ht hp v0 nB aB junk
      cases t with
      | txt s =>
          rw [allTextF] at ht
          rw [serializeF, serialize1]
          simp only [List.singleton_append, List.cons_append, List.append_assoc, List.nil_append]
          rw [RevD.consumeTime]
          cases hps : E.parseTime s with
          | some v =>
              simp only []
              rw [consumeTimeD_nested E strict ts ht
                (fun hs => by
                  have := hp hs
                  rw [allParseTimeF] at this
                  simp only [Bool.and_eq_true] at this
                  exact this.2) v nB aB junk]
          | none =>
              have hs : strict = false := by
                cases hstrict : strict with
                | false => rfl
                | true =>
                    have := hp hstrict
                    rw [allParseTimeF] at this
                    simp only [Bool.and_eq_true] at this
                    rw [hps] at this
                    simp at this
              rw [hs]
              simp only [Bool.false_eq_true, if_false]
              rw [consumeTimeD_nested E false ts ht (fun hc => by simp at hc) 0 nB aB junk]
      | elem n2 a2 cs2 => simp [allTextF] at ht
      | misc s => simp [allTextF] at ht

/-- An ele child holding a nested element makes the RevD point loop
return the invalid-ele element error, in either strictness mode. -/
theorem pointLoop_eleNested_D (E : Parsers) (strict : Bool) (p : Point) (sp : String) (a : List Attr)
    (txtF : GForest) (nB : XName) (aB : List Attr) (junk : List XTok) :
    allTextF txtF = true → (strict = true → allParseFloatF E txtF = true) →
    RevD.pointLoop E strict 0 p (.start ⟨sp, "ele"⟩ a :: (serializeF txtF ++ .start nB aB :: junk)) =
      .error .invalidEleElem := by
  intro htxt hp
  rw [RevD.pointLoop_start]
  rw [if_pos ⟨rfl, rfl⟩]
  rw [consumeEle_nested E strict txtF htxt hp 0 nB aB junk]

/-- A time child holding a nested element makes the RevD point loop
return the invalid-time element error, in either strictness mode. -/
theorem pointLoop_timeNested_D (E : Parsers) (strict : Bool) (p : Point) (sp : String) (a : List Attr)
    (txtF : GForest) (nB : XName) (aB : List Attr) (junk : List XTok) :
    allTextF txtF = true → (strict = true → allParseTimeF E txtF = true) →
    RevD.pointLoop E strict 0 p (.start ⟨sp, "time"⟩ a :: (serializeF txtF ++ .start nB aB :: junk)) =
      .error .invalidTimeElem := by
  intro htxt hp
  rw [RevD.pointLoop_start]
  rw [if_neg (by rintro ⟨h0, hc⟩; simp at hc)]
  rw [if_pos ⟨rfl, rfl⟩]
  rw [consumeTimeD_nested E strict txtF htxt hp 0 nB aB junk]

mutual
/-- sliceSkipTag passes over a serialized tree lifted into the buffer. -/
theorem sliceSkip_tree (t : GTree) : ∀ lvl rest,
    sliceSkipTag lvl (mapSome (serialize1 t) ++ rest) = sliceSkipTag lvl rest := by
  match t with
  | .elem n a cs =>
      intro lvl rest
      rw [serialize1, mapSome]
      simp only [List.map_cons, List.map_append, List.map_nil, List.cons_append,
        List.append_assoc, List.singleton_append, List.nil_append]
      rw [sliceSkipTag]
      rw [show (List.map some (serializeF cs) : List (Option XTok)) = mapSome (serializeF cs) from rfl]
      rw [sliceSkip_forest cs (lvl + 1) (some (XTok.close n) :: rest)]
      rw [sliceSkipTag]
      simp
  | .txt s =>
      intro lvl rest
      rw [serialize1, mapSome]
      simp only [List.map_cons, List.map_nil, List.singleton_append]
      rw [sliceSkipTag]
  | .misc s =>
      intro lvl rest
      rw [serialize1, mapSome]
      simp only [List.map_cons, List.map_nil, List.singleton_append]
      rw [sliceSkipTag]

/-- sliceSkipTag passes over a serialized forest lifted into the buffer. -/
theorem sliceSkip_forest (ts : GForest) : ∀ lvl rest,
    sliceSkipTag lvl (mapSome (serializeF ts) ++ rest) = sliceSkipTag lvl rest := by
  match ts with
  | .nil => intro lvl rest; rw [serializeF, mapSome]; simp
  | .cons t ts2 =>
      intro lvl rest
      rw [serializeF, mapSome]
      simp only [List.map_append, List.append_assoc]
      rw [show (List.map some (serialize1 t) : List (Option XTok)) = mapSome (serialize1 t) from rfl]
      rw [show (List.map some (serializeF ts2) : List (Option XTok)) = mapSome (serializeF ts2) from rfl]
      rw [sliceSkip_tree t lvl _]
      rw [sliceSkip_forest ts2 lvl rest]
end

/-- sliceConsumeString over lifted serialized leaf content. -/
theorem sliceConsumeString_ser (chunks : GForest) (n : XName) (rest : List (Option XTok)) :
    allTextF chunks = true →
    sliceConsumeString (mapSome (serializeF chunks) ++ some (.close n) :: rest) =
      .ok (concatF chunks, rest) := by
  match chunks with
  | .nil =>
      intro h
      rw [serializeF, concatF, mapSome]
      simp only [List.map_nil, List.nil_append]
      rw [sliceConsumeString]
  | .cons t ts =>
      intro h
      cases t with
      | txt s =>
          rw [allTextF] at h
          rw [serializeF, serialize1, concatF, mapSome]
          simp only [List.map_cons, List.map_append, List.map_nil, List.singleton_append,
            List.cons_append, List.append_assoc, List.nil_append]
          rw [sliceConsumeString]
          rw [show (List.map some (serializeF ts) : List (Option XTok)) = mapSome (serializeF ts) from rfl]
          rw [sliceConsumeString_ser ts n rest h]
      | elem n2 a2 cs2 => simp [allTextF] at h
      | misc s => simp [allTextF] at h

/-- findExtension passes over every lifted serialized tree that is not
the envelope. -/
theorem findExtension_pre (pre : GForest) :
    preOkF pre = true →
    ∀ rest, findExtension GarminTrackPointExtensionNS "TrackPointExtension"
        (mapSome (serializeF pre) ++ rest) =
      findExtension GarminTrackPointExtensionNS "TrackPointExtension" rest := by
  match pre with
  | .nil =>
      intro h rest
      rw [serializeF, mapSome]
      simp
  | .cons t ts =>
      intro h rest
      rw [preOkF] at h
      simp only [Bool.and_eq_true] at h
      obtain ⟨ht, hts⟩ := h
      rw [serializeF, mapSome]
      simp only [List.map_append, List.append_assoc]
      rw [show (List.map some (serialize1 t) : List (Option XTok)) = mapSome (serialize1 t) from rfl]
      rw [show (List.map some (serializeF ts) : List (Option XTok)) = mapSome (serializeF ts) from rfl]
      cases t with
      | elem n2 a2 cs2 =>
          rw [notEnvelope] at ht
          rw [serialize1, mapSome]
          simp only [List.map_cons, List.map_append, List.map_nil, List.cons_append,
            List.append_assoc, List.singleton_append, List.nil_append]
          rw [findExtension]
          rw [if_neg (by
            rintro ⟨hsp, hln⟩
            rw [hsp, hln] at ht
            simp at ht)]
          rw [show (List.map some (serializeF cs2) : List (Option XTok)) = mapSome (serializeF cs2) from rfl]
          rw [show mapSome (serializeF cs2) ++ some (XTok.close n2) :: (mapSome (serializeF ts) ++ rest) =
            mapSome (serializeF cs2) ++ (some (XTok.close n2) :: (mapSome (serializeF ts) ++ rest)) from rfl]
          rw [sliceSkip_forest cs2 0 (some (XTok.close n2) :: (mapSome (serializeF ts) ++ rest))]
          rw [sliceSkipTag]
          rw [if_pos (show (0 : Nat) = 0 from rfl)]
          exact findExtension_pre ts hts rest
      | txt s =>
          rw [serialize1, mapSome]
          simp only [List.map_cons, List.map_nil, List.singleton_append]
          rw [findExtension]
          rw [findExtension_pre ts hts rest]
      | misc s =>
          rw [serialize1, mapSome]
          simp only [List.map_cons, List.map_nil, List.singleton_append]
          rw [findExtension]
          rw [findExtension_pre ts hts rest]

/-- Processing one lifted serialized envelope child updates the record
as applyGarmin describes. -/
theorem garminItem_step (E : Parsers) (i : FItem) :
    wfFItem i = true →
    ∀ e rest, garminLoop E e (mapSome (serializeFItem i) ++ rest) =
      garminLoop E (applyGarmin E e i) rest := by
  match i with
  | .hr a chunks =>
      intro hwf e rest
      rw [wfFItem] at hwf
      rw [serializeFItem, applyGarmin, mapSome]
      simp only [List.map_cons, List.map_append, List.map_nil, List.cons_append,
        List.append_assoc, List.singleton_append, List.nil_append]
      rw [garminLoop]
      rw [if_neg (by simp)]
      rw [if_pos (show (⟨GarminTrackPointExtensionNS, "hr"⟩ : XName).localName = "hr" from rfl)]
      rw [show (List.map some (serializeF chunks) : List (Option XTok)) = mapSome (serializeF chunks) from rfl]
      rw [sliceConsumeString_ser chunks ⟨GarminTrackPointExtensionNS, "hr"⟩ rest hwf]
  | .cad a chunks =>
      intro hwf e rest
      rw [wfFItem] at hwf
      rw [serializeFItem, applyGarmin, mapSome]
      simp only [List.map_cons, List.map_append, List.map_nil, List.cons_append,
        List.append_assoc, List.singleton_append, List.nil_append]
      rw [garminLoop]
      rw [if_neg (by simp)]
      rw [if_neg (by simp)]
      rw [if_pos (show (⟨GarminTrackPointExtensionNS, "cad"⟩ : XName).localName = "cad" from rfl)]
      rw [show (List.map some (serializeF chunks) : List (Option XTok)) = mapSome (serializeF chunks) from rfl]
      rw [sliceConsumeString_ser chunks ⟨GarminTrackPointExtensionNS, "cad"⟩ rest hwf]
  | .atemp a chunks =>
      intro hwf e rest
      rw [wfFItem] at hwf
      rw [serializeFItem, applyGarmin, mapSome]
      simp only [List.map_cons, List.map_append, List.map_nil, List.cons_append,
        List.append_assoc, List.singleton_append, List.nil_append]
      rw [garminLoop]
      rw [if_neg (by simp)]
      rw [if_neg (by simp)]
      rw [if_neg (by simp)]
      rw [if_pos (show (⟨GarminTrackPointExtensionNS, "atemp"⟩ : XName).localName = "atemp" from rfl)]
      rw [show (List.map some (serializeF chunks) : List (Option XTok)) = mapSome (serializeF chunks) from rfl]
      rw [sliceConsumeString_ser chunks ⟨GarminTrackPointExtensionNS, "atemp"⟩ rest hwf]
  | .wtemp a chunks =>
      intro hwf e rest
      rw [wfFItem] at hwf
      rw [serializeFItem, applyGarmin, mapSome]
      simp only [List.map_cons, List.map_append, List.map_nil, List.cons_append,
        List.append_assoc, List.singleton_append, List.nil_append]
      rw [garminLoop]
      rw [if_neg (by simp)]
      rw [if_neg (by simp)]
      rw [if_neg (by simp)]
      rw [if_neg (by simp)]
      rw [if_pos (show (⟨GarminTrackPointExtensionNS, "wtemp"⟩ : XName).localName = "wtemp" from rfl)]
      rw [show (List.map some (serializeF chunks) : List (Option XTok)) = mapSome (serializeF chunks) from rfl]
      rw [sliceConsumeString_ser chunks ⟨GarminTrackPointExtensionNS, "wtemp"⟩ rest hwf]
  | .depth a chunks =>
      intro hwf e rest
      rw [wfFItem] at hwf
      rw [serializeFItem, applyGarmin, mapSome]
      simp only [List.map_cons, List.map_append, List.map_nil, List.cons_append,
        List.append_assoc, List.singleton_append, List.nil_append]
      rw [garminLoop]
      rw [if_neg (by simp)]
      rw [if_neg (by simp)]
      rw [if_neg (by simp)]
      rw [if_neg (by simp)]
      rw [if_neg (by simp)]
      rw [if_pos (show (⟨GarminTrackPointExtensionNS, "depth"⟩ : XName).localName = "depth" from rfl)]
      rw [show (List.map some (serializeF chunks) : List (Option XTok)) = mapSome (serializeF chunks) from rfl]
      rw [sliceConsumeString_ser chunks ⟨GarminTrackPointExtensionNS, "depth"⟩ rest hwf]
  | .skip t =>
      intro hwf e rest
      rw [wfFItem] at hwf
      rw [serializeFItem, applyGarmin]
      cases t with
      | elem n2 a2 cs2 =>
          rw [notGarminField] at hwf
          rw [serialize1, mapSome]
          simp only [List.map_cons, List.map_append, List.map_nil, List.cons_append,
            List.append_assoc, List.singleton_append, List.nil_append]
          rw [garminLoop]
          rw [show (List.map some (serializeF cs2) : List (Option XTok)) = mapSome (serializeF cs2) from rfl]
          by_cases hsp : n2.space = GarminTrackPointExtensionNS
          · rw [if_neg (by simp [hsp])]
            rw [hsp] at hwf
            simp only [decide_True, Bool.true_and, Bool.not_eq_true] at hwf
            rw [garminFieldNames] at hwf
            simp only [List.contains_cons, List.contains_nil, Bool.or_eq_false_iff] at hwf
            have h1 : ¬ n2.localName = "hr" := by intro hc; simp [hc] at hwf
            have h2 : ¬ n2.localName = "cad" := by intro hc; simp [hc] at hwf
            have h3 : ¬ n2.localName = "atemp" := by intro hc; simp [hc] at hwf
            have h4 : ¬ n2.localName = "wtemp" := by intro hc; simp [hc] at hwf
            have h5 : ¬ n2.localName = "depth" := by intro hc; simp [hc] at hwf
            rw [if_neg h1, if_neg h2, if_neg h3, if_neg h4, if_neg h5]
            rw [show mapSome (serializeF cs2) ++ some (XTok.close n2) :: rest =
              mapSome (serializeF cs2) ++ (some (XTok.close n2) :: rest) from rfl]
            rw [sliceSkip_forest cs2 0 (some (XTok.close n2) :: rest)]
            rw [sliceSkipTag]
            rw [if_pos (show (0 : Nat) = 0 from rfl)]
          · rw [if_pos (by simp [hsp])]
            rw [sliceSkip_forest cs2 0 (some (XTok.close n2) :: rest)]
            rw [sliceSkipTag]
            rw [if_pos (show (0 : Nat) = 0 from rfl)]
      | txt s =>
          rw [serialize1, mapSome]
          simp only [List.map_cons, List.map_nil, List.singleton_append]
          rw [garminLoop]
      | misc s =>
          rw [serialize1, mapSome]
          simp only [List.map_cons, List.map_nil, List.singleton_append]
          rw [garminLoop]

/-- Processing a lifted serialized list of envelope children folds
applyGarmin over the record. -/
theorem garminItems_step (E : Parsers) (items : List FItem) :
    wfFItems items = true →
    ∀ e rest, garminLoop E e (mapSome (serializeFItems items) ++ rest) =
      garminLoop E (items.foldl (applyGarmin E) e) rest := by
  induction items with
  | nil =>
      intro hwf e rest
      rw [serializeFItems, mapSome]
      simp
  | cons i is ih =>
      intro hwf e rest
      rw [wfFItems] at hwf
      simp only [List.all_cons, Bool.and_eq_true] at hwf
      obtain ⟨hi, his⟩ := hwf
      rw [serializeFItems, mapSome]
      simp only [List.map_append, List.append_assoc]
      rw [show (List.map some (serializeFItem i) : List (Option XTok)) = mapSome (serializeFItem i) from rfl]
      rw [show (List.map some (serializeFItems is) : List (Option XTok)) = mapSome (serializeFItems is) from rfl]
      rw [garminItem_step E i hi]
      rw [ih (by rw [wfFItems]; exact his)]
      simp only [List.foldl_cons]

/-- ParseGarminTrackPointExtension over a captured buffer holding the
envelope: preceding non-envelope content is skipped, the envelope fields
are folded in order, the envelope end element ends the parse. -/
theorem parseGarmin_ser (E : Parsers) (pre : GForest) (ea : List Attr) (items : List FItem)
    (cn : XName) (after : List XTok) :
    preOkF pre = true → wfFItems items = true →
    ParseGarminTrackPointExtension E
      (serializeF pre ++ .start ⟨GarminTrackPointExtensionNS, "TrackPointExtension"⟩ ea ::
        (serializeFItems items ++ .close cn :: after)) = .ok (foldGarmin E items) := by
  intro hpre hwf
  rw [ParseGarminTrackPointExtension]
  rw [show (serializeF pre ++ XTok.start ⟨GarminTrackPointExtensionNS, "TrackPointExtension"⟩ ea ::
      (serializeFItems items ++ XTok.close cn :: after)).map some =
    mapSome (serializeF pre) ++ some (XTok.start ⟨GarminTrackPointExtensionNS, "TrackPointExtension"⟩ ea) ::
      (mapSome (serializeFItems items) ++ some (XTok.close cn) :: mapSome after) from by
    rw [mapSome, mapSome, mapSome]
    simp]
  rw [findExtension_pre pre hpre]
  rw [findExtension]
  rw [if_pos ⟨rfl, rfl⟩]
  simp only []
  rw [garminItems_step E items hwf]
  rw [garminLoop]
  rw [foldGarmin]

/-- Unknown point children do not change the decoded point. -/
theorem applyP_strip (E : Parsers) (items : List PItem) : ∀ p,
    (stripPItems items).foldl (applyP E) p = items.foldl (applyP E) p := by
  induction items with
  | nil => intro p; rw [stripPItems]
  | cons i is ih =>
      intro p
      match i with
      | .ele sp a chunks =>
          rw [show stripPItems (.ele sp a chunks :: is) = .ele sp a chunks :: stripPItems is from rfl]
          simp only [List.foldl_cons]; rw [ih]
      | .time sp a chunks =>
          rw [show stripPItems (.time sp a chunks :: is) = .time sp a chunks :: stripPItems is from rfl]
          simp only [List.foldl_cons]; rw [ih]
      | .exts sp a body =>
          rw [show stripPItems (.exts sp a body :: is) = .exts sp a body :: stripPItems is from rfl]
          simp only [List.foldl_cons]; rw [ih]
      | .skip t =>
          rw [show stripPItems (.skip t :: is) = stripPItems is from rfl]
          simp only [List.foldl_cons]
          rw [ih]
          rw [show applyP E p (.skip t) = p from rfl]

/-- Unknown segment children do not change the decoded segment. -/
theorem segOfB_strip (E : Parsers) (items : List SItem) :
    segOfB E (stripSItems items) = segOfB E items := by
  induction items with
  | nil => rw [stripSItems]
  | cons i is ih =>
      match i with
      | .pt sp a pis =>
          rw [stripSItems]
          rw [segOfB, segOfB]
          simp only [List.filterMap_cons]
          have h1 : pointOfB E a (stripPItems pis) = pointOfB E a pis := by
            rw [pointOfB, pointOfB, applyP_strip]
          rw [h1]
          have h2 := ih
          rw [segOfB, segOfB] at h2
          simp only [Segment.mk.injEq] at h2 ⊢
          rw [h2]
      | .skip t =>
          rw [stripSItems]
          rw [ih]
          rw [segOfB, segOfB]
          simp only [List.filterMap_cons]

/-- Unknown track children do not change the decoded track. -/
theorem trackOfB_strip (E : Parsers) (items : List TItem) :
    trackOfB E (stripTItems items) = trackOfB E items := by
  induction items with
  | nil => rw [stripTItems]
  | cons i is ih =>
      match i with
      | .seg sp a sis =>
          rw [stripTItems]
          rw [trackOfB, trackOfB]
          simp only [List.filterMap_cons]
          rw [segOfB_strip]
          have h2 := ih
          rw [trackOfB, trackOfB] at h2
          simp only [Track.mk.injEq] at h2 ⊢
          rw [h2]
      | .skip t =>
          rw [stripTItems]
          rw [ih]
          rw [trackOfB, trackOfB]
          simp only [List.filterMap_cons]

/-- Unknown metadata children do not change the decoded metadata. -/
theorem metaOfB_strip (E : Parsers) (items : List MItem) :
    metaOfB E (stripMItems items) = metaOfB E items := by
  have main : ∀ (l : List MItem) (m : Metadata),
      (stripMItems l).foldl
        (fun m i =>
          match i with
          | MItem.mtime _ _ chunks => { Time := (E.parseTime (concatF chunks)).getD 0 }
          | MItem.skip _ => m)
        m =
      l.foldl
        (fun m i =>
          match i with
          | MItem.mtime _ _ chunks => { Time := (E.parseTime (concatF chunks)).getD 0 }
          | MItem.skip _ => m)
        m := by
    intro l
    induction l with
    | nil => intro m; rw [stripMItems]
    | cons i is ih =>
        intro m
        match i with
        | .mtime sp a chunks =>
            rw [show stripMItems (.mtime sp a chunks :: is) = .mtime sp a chunks :: stripMItems is from rfl]
            simp only [List.foldl_cons]; rw [ih]
        | .skip t =>
            rw [show stripMItems (.skip t :: is) = stripMItems is from rfl]
            simp only [List.foldl_cons]; rw [ih]
  rw [metaOfB, metaOfB, main]

/-- Unknown root children do not change the decoded document. -/
theorem docOfB_strip (E : Parsers) (d : SDoc) : docOfB E (stripDoc d) = docOfB E d := by
  rw [docOfB, docOfB, stripDoc]
  simp only []
  have hmeta : ∀ (l : List GItem) (md : Metadata),
      (stripGItems l).foldl
        (fun md i =>
          match i with
          | GItem.meta _ _ mis => metaOfB E mis
          | _ => md)
        md =
      l.foldl
        (fun md i =>
          match i with
          | GItem.meta _ _ mis => metaOfB E mis
          | _ => md)
        md := by
    intro l
    induction l with
    | nil => intro md; rw [stripGItems]
    | cons i is ih =>
        intro md
        match i with
        | .trk sp a tis => rw [stripGItems]; simp only [List.foldl_cons]; rw [ih]
        | .meta sp a mis =>
            rw [stripGItems]
            simp only [List.foldl_cons]
            rw [ih, metaOfB_strip]
        | .skip t => rw [stripGItems]; simp only [List.foldl_cons]; rw [ih]
  have htrk : ∀ (l : List GItem),
      (stripGItems l).filterMap
        (fun i =>
          match i with
          | GItem.trk _ _ tis => some (trackOfB E tis)
          | _ => none) =
      l.filterMap
        (fun i =>
          match i with
          | GItem.trk _ _ tis => some (trackOfB E tis)
          | _ => none) := by
    intro l
    induction l with
    | nil => rw [stripGItems]
    | cons i is ih =>
        match i with
        | .trk sp a tis =>
            rw [stripGItems]
            simp only [List.filterMap_cons]
            rw [ih, trackOfB_strip]
        | .meta sp a mis =>
            rw [stripGItems]
            simp only [List.filterMap_cons]
            rw [ih]
        | .skip t => rw [stripGItems]; simp only [List.filterMap_cons]; rw [ih]
  rw [hmeta, htrk]

mutual
/-- The balance counter passes over a serialized tree unchanged. -/
theorem balAux_tree (t : GTree) : ∀ d rest, balAux d (serialize1 t ++ rest) = balAux d rest := by
  match t with
  | .elem n a cs =>
      intro d rest
      rw [serialize1]
      simp only [List.cons_append, List.append_assoc, List.singleton_append]
      rw [balAux, balAux_forest cs]
      rw [balAux]
      simp
  | .txt s =>
      intro d rest
      rw [serialize1]
      simp only [List.singleton_append]
      rw [balAux]
  | .misc s =>
      intro d rest
      rw [serialize1]
      simp only [List.singleton_append]
      rw [balAux]

/-- The balance counter passes over a serialized forest unchanged. -/
theorem balAux_forest (ts : GForest) : ∀ d rest, balAux d (serializeF ts ++ rest) = balAux d rest := by
  match ts with
  | .nil => intro d rest; rw [serializeF]; simp
  | .cons t ts2 =>
      intro d rest
      rw [serializeF]
      simp only [List.append_assoc]
      rw [balAux_tree t, balAux_forest ts2]
end

/-- A serialized forest is balanced: starts and ends nest correctly. -/
theorem balanced_serializeF (body : GForest) : balancedToks (serializeF body) = true := by
  rw [balancedToks]
  have h := balAux_forest body 0 []
  rw [List.append_nil] at h
  rw [h, balAux]

/-- A token list partitions into start, end, character-data and other
tokens. -/
theorem length_countP_partition (l : List XTok) :
    l.length = l.countP isStartTok + l.countP isCloseTok +
      l.countP isTextTok + l.countP isOtherTok := by
  induction l with
  | nil => simp
  | cons t r ih =>
      cases t <;>
        simp [List.countP_cons, isStartTok, isCloseTok, isTextTok, isOtherTok, ih] <;>
        omega

/-- Point children other than extensions do not touch the Extensions
field. -/
theorem applyP_noExts (E : Parsers) (post : List PItem) :
    ∀ p, (∀ i ∈ post, ∀ sp a b, i ≠ PItem.exts sp a b) →
    (post.foldl (applyP E) p).Extensions = p.Extensions := by
  induction post with
  | nil => intro p h; rfl
  | cons i is ih =>
      intro p h
      simp only [List.foldl_cons]
      have hi := h i (by simp)
      have htail : ∀ j ∈ is, ∀ sp a b, j ≠ PItem.exts sp a b :=
        fun j hj => h j (List.mem_cons_of_mem _ hj)
      rw [ih _ htail]
      match i with
      | .ele sp a c => rfl
      | .time sp a c => rfl
      | .skip t => rfl
      | .exts sp a b => exact absurd rfl (hi sp a b)

/-- The Extensions buffer of a decoded point is exactly the serialized
content of its last extensions child. -/
theorem pointOfB_exts_last (E : Parsers) (a : List Attr) (pis : List PItem)
    (sp : String) (ea : List Attr) (body : GForest) (post : List PItem)
    (h : ∀ i ∈ post, ∀ sp2 a2 b2, i ≠ PItem.exts sp2 a2 b2) :
    (pointOfB E a (pis ++ .exts sp ea body :: post)).Extensions = serializeF body := by
  rw [pointOfB, List.foldl_append, List.foldl_cons]
  rw [applyP_noExts E post _ h]
  rfl

/-- A single parsing float chunk is all text, concatenates to itself,
parses chunk-wise, and gives the same value to both revisions. -/
theorem oneTextFloat_props (E : Parsers) (chunks : GForest)
    (h : oneTextFloat E chunks = true) :
    allTextF chunks = true ∧ (E.parseFloat (concatF chunks)).isSome = true ∧
    allParseFloatF E chunks = true ∧
    eleValD E 0 chunks = (E.parseFloat (concatF chunks)).getD 0 := by
  match chunks with
  | .nil => simp [oneTextFloat] at h
  | .cons (.txt s) .nil =>
      simp only [oneTextFloat] at h
      have hs : concatF (.cons (.txt s) .nil) = s := by
        rw [concatF, concatF, String.append_empty]
      refine ⟨rfl, ?_, ?_, ?_⟩
      · rw [hs]; exact h
      · rw [allParseFloatF, allParseFloatF, h, Bool.true_and]
      · rw [hs, eleValD, eleValD]
  | .cons (.txt s) (.cons t ts) => simp [oneTextFloat] at h
  | .cons (.elem n a cs) ts => simp [oneTextFloat] at h
  | .cons (.misc s) ts => simp [oneTextFloat] at h

/-- A single parsing timestamp chunk: the time analogue. -/
theorem oneTextTime_props (E : Parsers) (chunks : GForest)
    (h : oneTextTime E chunks = true) :
    allTextF chunks = true ∧ (E.parseTime (concatF chunks)).isSome = true ∧
    allParseTimeF E chunks = true ∧
    timeValD E 0 chunks = (E.parseTime (concatF chunks)).getD 0 := by
  match chunks with
  | .nil => simp [oneTextTime] at h
  | .cons (.txt s) .nil =>
      simp only [oneTextTime] at h
      have hs : concatF (.cons (.txt s) .nil) = s := by
        rw [concatF, concatF, String.append_empty]
      refine ⟨rfl, ?_, ?_, ?_⟩
      · rw [hs]; exact h
      · rw [allParseTimeF, allParseTimeF, h, Bool.true_and]
      · rw [hs, timeValD, timeValD]
  | .cons (.txt s) (.cons t ts) => simp [oneTextTime] at h
  | .cons (.elem n a cs) ts => simp [oneTextTime] at h
  | .cons (.misc s) ts => simp [oneTextTime] at h

/-- A strongly well-formed point child is well formed for both revisions
and has the same effect on the decoded point in both. -/
theorem wfPItemS_split (E : Parsers) (i : PItem) (h : wfPItemS E i = true) :
    wfPItemB E i = true ∧ (∀ strict, wfPItemD E strict i = true) ∧
    (∀ p, applyP E p i = applyPD E p i) := by
  match i with
  | .ele sp a chunks =>
      rw [wfPItemS] at h
      obtain ⟨h1, h2, h3, h4⟩ := oneTextFloat_props E chunks h
      refine ⟨?_, ?_, ?_⟩
      · rw [wfPItemB, h1, h2]; rfl
      · intro strict; rw [wfPItemD, h1, h3]; simp
      · intro p; rw [applyP, applyPD, h4]
  | .time sp a chunks =>
      rw [wfPItemS] at h
      obtain ⟨h1, h2, h3, h4⟩ := oneTextTime_props E chunks h
      refine ⟨?_, ?_, ?_⟩
      · rw [wfPItemB, h1, h2]; rfl
      · intro strict; rw [wfPItemD, h1, h3]; simp
      · intro p; rw [applyP, applyPD, h4]
  | .exts sp a body =>
      exact ⟨rfl, fun _ => rfl, fun p => rfl⟩
  | .skip t =>
      rw [wfPItemS] at h
      exact ⟨h, fun _ => h, fun p => rfl⟩

/-- Strong well-formedness of a point child list gives both revision
well-formednesses and agreement of the decoded point. -/
theorem wfPItemsS_split (E : Parsers) (items : List PItem)
    (h : items.all (wfPItemS E) = true) :
    wfPItemsB E items = true ∧ (∀ strict, wfPItemsD E strict items = true) ∧
    (∀ a, pointOfB E a items = pointOfD E a items) := by
  have main : ∀ (l : List PItem), l.all (wfPItemS E) = true →
      l.all (wfPItemB E) = true ∧ (∀ strict, l.all (wfPItemD E strict) = true) ∧
      (∀ p, l.foldl (applyP E) p = l.foldl (applyPD E) p) := by
    intro l hl
    induction l with
    | nil => exact ⟨rfl, fun _ => rfl, fun p => rfl⟩
    | cons i is ih =>
        rw [List.all_cons, Bool.and_eq_true] at hl
        obtain ⟨hi, his⟩ := hl
        obtain ⟨b1, b2, b3⟩ := wfPItemS_split E i hi
        obtain ⟨c1, c2, c3⟩ := ih his
        refine ⟨?_, ?_, ?_⟩
        · rw [List.all_cons, b1, c1]; rfl
        · intro strict; rw [List.all_cons, b2 strict, c2 strict]; rfl
        · intro p; simp only [List.foldl_cons]; rw [b3 p, c3]
  obtain ⟨m1, m2, m3⟩ := main items h
  exact ⟨m1, m2, fun a => by rw [pointOfB, pointOfD, m3]⟩

/-- A strongly well-formed segment child is well formed for both
revisions and decodes the same way. -/
theorem wfSItemsS_split (E : Parsers) (items : List SItem)
    (h : items.all (wfSItemS E) = true) :
    wfSItemsB E items = true ∧ (∀ strict, wfSItemsD E strict items = true) ∧
    segOfB E items = segOfD E items := by
  induction items with
  | nil => exact ⟨rfl, fun _ => rfl, rfl⟩
  | cons i is ih =>
      rw [List.all_cons, Bool.and_eq_true] at h
      obtain ⟨hi, his⟩ := h
      obtain ⟨c1, c2, c3⟩ := ih his
      match i with
      | .pt sp a pis =>
          rw [wfSItemS, Bool.and_eq_true] at hi
          obtain ⟨hll, hwp⟩ := hi
          obtain ⟨b1, b2, b3⟩ := wfPItemsS_split E pis hwp
          refine ⟨?_, ?_, ?_⟩
          · rw [wfSItemsB, List.all_cons]
            rw [show wfSItemB E (.pt sp a pis) = (latlonOk E a && wfPItemsB E pis) from rfl]
            rw [hll, b1, wfSItemsB] at *
            rw [c1]
            rfl
          · intro strict
            rw [wfSItemsD, List.all_cons]
            rw [show wfSItemD E strict (.pt sp a pis) = (latlonOk E a && wfPItemsD E strict pis) from rfl]
            rw [hll, b2 strict]
            have := c2 strict
            rw [wfSItemsD] at this
            rw [this]
            rfl
          · rw [segOfB, segOfD]
            simp only [List.filterMap_cons]
            rw [b3 a]
            rw [segOfB, segOfD] at c3
            simp only [Segment.mk.injEq] at c3 ⊢
            rw [c3]
      | .skip t =>
          rw [wfSItemS] at hi
          refine ⟨?_, ?_, ?_⟩
          · rw [wfSItemsB, List.all_cons]
            rw [show wfSItemB E (.skip t) = topNotIn ["trkpt"] t from rfl, hi]
            rw [wfSItemsB] at c1
            rw [c1]
            rfl
          · intro strict
            rw [wfSItemsD, List.all_cons]
            rw [show wfSItemD E strict (.skip t) = topNotIn ["trkpt"] t from rfl, hi]
            have := c2 strict
            rw [wfSItemsD] at this
            rw [this]
            rfl
          · rw [segOfB, segOfD]
            simp only [List.filterMap_cons]
            rw [segOfB, segOfD] at c3
            exact c3

/-- A strongly well-formed track child list is well formed for both
revisions and decodes the same way. -/
theorem wfTItemsS_split (E : Parsers) (items : List TItem)
    (h : items.all (wfTItemS E) = true) :
    wfTItemsB E items = true ∧ (∀ strict, wfTItemsD E strict items = true) ∧
    trackOfB E items = trackOfD E items := by
  induction items with
  | nil => exact ⟨rfl, fun _ => rfl, rfl⟩
  | cons i is ih =>
      rw [List.all_cons, Bool.and_eq_true] at h
      obtain ⟨hi, his⟩ := h
      obtain ⟨c1, c2, c3⟩ := ih his
      match i with
      | .seg sp a sis =>
          rw [wfTItemS] at hi
          obtain ⟨b1, b2, b3⟩ := wfSItemsS_split E sis hi
          refine ⟨?_, ?_, ?_⟩
          · rw [wfTItemsB, List.all_cons]
            rw [show wfTItemB E (.seg sp a sis) = wfSItemsB E sis from rfl, b1]
            rw [wfTItemsB] at c1
            rw [c1]
            rfl
          · intro strict
            rw [wfTItemsD, List.all_cons]
            rw [show wfTItemD E strict (.seg sp a sis) = wfSItemsD E strict sis from rfl, b2 strict]
            have := c2 strict
            rw [wfTItemsD] at this
            rw [this]
            rfl
          · rw [trackOfB, trackOfD]
            simp only [List.filterMap_cons]
            rw [b3]
            rw [trackOfB, trackOfD] at c3
            simp only [Track.mk.injEq] at c3 ⊢
            rw [c3]
      | .skip t =>
          rw [wfTItemS] at hi
          refine ⟨?_, ?_, ?_⟩
          · rw [wfTItemsB, List.all_cons]
            rw [show wfTItemB E (.skip t) = topNotIn ["trkseg"] t from rfl, hi]
            rw [wfTItemsB] at c1
            rw [c1]
            rfl
          · intro strict
            rw [wfTItemsD, List.all_cons]
            rw [show wfTItemD E strict (.skip t) = topNotIn ["trkseg"] t from rfl, hi]
            have := c2 strict
            rw [wfTItemsD] at this
            rw [this]
            rfl
          · rw [trackOfB, trackOfD]
            simp only [List.filterMap_cons]
            rw [trackOfB, trackOfD] at c3
            exact c3

/-- A strongly well-formed metadata child list is well formed for both
revisions and decodes the same way. -/
theorem wfMItemsS_split (E : Parsers) (items : List MItem)
    (h : items.all (wfMItemS E) = true) :
    wfMItemsB E items = true ∧ (∀ strict, wfMItemsD E strict items = true) ∧
    metaOfB E items = metaOfD E items := by
  have main : ∀ (l : List MItem), l.all (wfMItemS E) = true →
      l.all (wfMItemB E) = true ∧ (∀ strict, l.all (wfMItemD E strict) = true) ∧
      (∀ m : Metadata,
        l.foldl
          (fun m i =>
            match i with
            | MItem.mtime _ _ chunks => { Time := (E.parseTime (concatF chunks)).getD 0 }
            | MItem.skip _ => m)
          m =
        l.foldl
          (fun m i =>
            match i with
            | MItem.mtime _ _ chunks => { Time := timeValD E 0 chunks }
            | MItem.skip _ => m)
          m) := by
    intro l hl
    induction l with
    | nil => exact ⟨rfl, fun _ => rfl, fun m => rfl⟩
    | cons i is ih =>
        rw [List.all_cons, Bool.and_eq_true] at hl
        obtain ⟨hi, his⟩ := hl
        obtain ⟨c1, c2, c3⟩ := ih his
        match i with
        | .mtime sp a chunks =>
            rw [wfMItemS] at hi
            obtain ⟨h1, h2, h3, h4⟩ := oneTextTime_props E chunks hi
            refine ⟨?_, ?_, ?_⟩
            · rw [List.all_cons]
              rw [show wfMItemB E (.mtime sp a chunks) =
                (allTextF chunks && (E.parseTime (concatF chunks)).isSome) from rfl]
              rw [h1, h2, c1]
              rfl
            · intro strict
              rw [List.all_cons]
              rw [show wfMItemD E strict (.mtime sp a chunks) =
                (allTextF chunks && (!strict || allParseTimeF E chunks)) from rfl]
              rw [h1, h3, c2 strict]
              simp
            · intro m
              simp only [List.foldl_cons]
              rw [h4] at *
              rw [c3]
        | .skip t =>
            rw [wfMItemS] at hi
            refine ⟨?_, ?_, ?_⟩
            · rw [List.all_cons]
              rw [show wfMItemB E (.skip t) = topNotIn ["time"] t from rfl, hi, c1]
              rfl
            · intro strict
              rw [List.all_cons]
              rw [show wfMItemD E strict (.skip t) = topNotIn ["time"] t from rfl, hi, c2 strict]
              rfl
            · intro m
              simp only [List.foldl_cons]
              rw [c3]
  obtain ⟨m1, m2, m3⟩ := main items h
  refine ⟨m1, m2, ?_⟩
  rw [metaOfB, metaOfD, m3]

/-- A strongly well-formed root child list is well formed for both
revisions, and the decoded metadata and track lists agree. -/
theorem wfGItemsS_split (E : Parsers) (items : List GItem)
    (h : items.all (wfGItemS E) = true) :
    wfGItemsB E items = true ∧ (∀ strict, wfGItemsD E strict items = true) ∧
    (∀ md : Metadata,
      items.foldl
        (fun md i =>
          match i with
          | GItem.meta _ _ mis => metaOfB E mis
          | _ => md)
        md =
      items.foldl
        (fun md i =>
          match i with
          | GItem.meta _ _ mis => metaOfD E mis
          | _ => md)
        md) ∧
    (items.filterMap
      (fun i =>
        match i with
        | GItem.trk _ _ tis => some (trackOfB E tis)
        | _ => none) =
     items.filterMap
      (fun i =>
        match i with
        | GItem.trk _ _ tis => some (trackOfD E tis)
        | _ => none)) := by
  induction items with
  | nil => exact ⟨rfl, fun _ => rfl, fun md => rfl, rfl⟩
  | cons i is ih =>
      rw [List.all_cons, Bool.and_eq_true] at h
      obtain ⟨hi, his⟩ := h
      obtain ⟨c1, c2, c3, c4⟩ := ih his
      match i with
      | .trk sp a tis =>
          rw [wfGItemS] at hi
          obtain ⟨b1, b2, b3⟩ := wfTItemsS_split E tis hi
          refine ⟨?_, ?_, ?_, ?_⟩
          · rw [wfGItemsB, List.all_cons]
            rw [show wfGItemB E (.trk sp a tis) = wfTItemsB E tis from rfl, b1]
            rw [wfGItemsB] at c1
            rw [c1]
            rfl
          · intro strict
            rw [wfGItemsD, List.all_cons]
            rw [show wfGItemD E strict (.trk sp a tis) = wfTItemsD E strict tis from rfl, b2 strict]
            have := c2 strict
            rw [wfGItemsD] at this
            rw [this]
            rfl
          · intro md
            simp only [List.foldl_cons]
            rw [c3]
          · simp only [List.filterMap_cons]
            rw [b3, c4]
      | .meta sp a mis =>
          rw [wfGItemS] at hi
          obtain ⟨b1, b2, b3⟩ := wfMItemsS_split E mis hi
          refine ⟨?_, ?_, ?_, ?_⟩
          · rw [wfGItemsB, List.all_cons]
            rw [show wfGItemB E (.meta sp a mis) = wfMItemsB E mis from rfl, b1]
            rw [wfGItemsB] at c1
            rw [c1]
            rfl
          · intro strict
            rw [wfGItemsD, List.all_cons]
            rw [show wfGItemD E strict (.meta sp a mis) = wfMItemsD E strict mis from rfl, b2 strict]
            have := c2 strict
            rw [wfGItemsD] at this
            rw [this]
            rfl
          · intro md
            simp only [List.foldl_cons]
            rw [b3, c3]
          · simp only [List.filterMap_cons]
            rw [c4]
      | .skip t =>
          rw [wfGItemS] at hi
          refine ⟨?_, ?_, ?_, ?_⟩
          · rw [wfGItemsB, List.all_cons]
            rw [show wfGItemB E (.skip t) = topNotIn ["trk", "metadata"] t from rfl, hi]
            rw [wfGItemsB] at c1
            rw [c1]
            rfl
          · intro strict
            rw [wfGItemsD, List.all_cons]
            rw [show wfGItemD E strict (.skip t) = topNotIn ["trk", "metadata"] t from rfl, hi]
            have := c2 strict
            rw [wfGItemsD] at this
            rw [this]
            rfl
          · intro md
            simp only [List.foldl_cons]
            rw [c3]
          · simp only [List.filterMap_cons]
            rw [c4]

/-- A strongly well-formed document is well formed for both revisions and
both spec-side documents coincide. -/
theorem wfDocS_split (E : Parsers) (d : SDoc) (h : wfDocS E d = true) :
    wfDocB E d = true ∧ (∀ strict, wfDocD E strict d = true) ∧
    docOfB E d = docOfD E d := by
  rw [wfDocS, Bool.and_eq_true] at h
  obtain ⟨hns, hitems⟩ := h
  obtain ⟨c1, c2, c3, c4⟩ := wfGItemsS_split E d.items hitems
  refine ⟨?_, ?_, ?_⟩
  · rw [wfDocB, hns, c1]; rfl
  · intro strict; rw [wfDocD, hns, c2 strict]; rfl
  · rw [docOfB, docOfD, c3, c4]

/-- findGPX skips every token before the first start element. -/
theorem findGPX_skip (pre : List XTok) (l : List XTok)
    (h : ∀ t ∈ pre, isStartTok t = false) :
    findGPX (pre ++ l) = findGPX l := by
  induction pre with
  | nil => rw [List.nil_append]
  | cons t ts ih =>
      have ht := h t (by simp)
      have hts : ∀ u ∈ ts, isStartTok u = false :=
        fun u hu => h u (List.mem_cons_of_mem _ hu)
      rw [List.cons_append]
      match t with
      | .start n a => rw [isStartTok] at ht; exact absurd ht (by simp)
      | .close n => rw [findGPX]; exact ih hts
      | .text s => rw [findGPX]; exact ih hts
      | .other s => rw [findGPX]; exact ih hts

/-- The first start element decides the outcome of findGPX: a root whose
local name is gpx but whose namespace is not the GPX 1.1 one is rejected
with the version error, never the root-tag error. -/
theorem findGPX_wrongNS (pre : List XTok) (sp : String) (a : List Attr)
    (rest : List XTok) (h : ∀ t ∈ pre, isStartTok t = false)
    (hsp : sp ≠ nsGPX11) :
    findGPX (pre ++ .start ⟨sp, "gpx"⟩ a :: rest) = .error .gpx11Only := by
  rw [findGPX_skip pre _ h, findGPX]
  rw [if_neg (by simp)]
  rw [if_pos (by simpa using hsp)]

/-- consumeString only inspects token kinds and character data, so it
commutes with a namespace renaming. -/
theorem consumeString_map (f : String → String) (l : List XTok) :
    consumeString (mapToks f l) =
      match consumeString l with
      | .ok (s, r) => .ok (s, mapToks f r)
      | .error e => .error e := by
  induction l with
  | nil => rfl
  | cons t rest ih =>
      match t with
      | .text s =>
          rw [show mapToks f (.text s :: rest) = .text s :: mapToks f rest from rfl]
          rw [consumeString, consumeString, ih]
          cases consumeString rest with
          | ok p => obtain ⟨s2, r⟩ := p; rfl
          | error e => rfl
      | .close n => rfl
      | .start n a => rfl
      | .other s => rfl

/-- consumeFloat commutes with a namespace renaming. -/
theorem consumeFloat_map (f : String → String) (E : Parsers) (l : List XTok) :
    consumeFloat E (mapToks f l) =
      match consumeFloat E l with
      | .ok (v, r) => .ok (v, mapToks f r)
      | .error e => .error e := by
  rw [consumeFloat, consumeFloat, consumeString_map]
  cases consumeString l with
  | ok p =>
      obtain ⟨s, r⟩ := p
      simp only []
      cases E.parseFloat s with
      | some v => rfl
      | none => rfl
  | error e => rfl

/-- consumeTime commutes with a namespace renaming. -/
theorem consumeTime_map (f : String → String) (E : Parsers) (l : List XTok) :
    consumeTime E (mapToks f l) =
      match consumeTime E l with
      | .ok (v, r) => .ok (v, mapToks f r)
      | .error e => .error e := by
  rw [consumeTime, consumeTime, consumeString_map]
  cases consumeString l with
  | ok p =>
      obtain ⟨s, r⟩ := p
      simp only []
      cases E.parseTime s with
      | some v => rfl
      | none => rfl
  | error e => rfl

/-- skipTag only counts starts and ends, so it commutes with a namespace
renaming. -/
theorem skipTagAux_map (f : String → String) (l : List XTok) : ∀ lvl,
    skipTagAux lvl (mapToks f l) =
      match skipTagAux lvl l with
      | .ok r => .ok (mapToks f r)
      | .error e => .error e := by
  induction l with
  | nil => intro lvl; rfl
  | cons t rest ih =>
      intro lvl
      match t with
      | .start n a =>
          rw [show mapToks f (.start n a :: rest) =
            .start (mapName f n) (mapAttrs f a) :: mapToks f rest from rfl]
          rw [skipTagAux, skipTagAux]
          exact ih (lvl + 1)
      | .close n =>
          rw [show mapToks f (.close n :: rest) = .close (mapName f n) :: mapToks f rest from rfl]
          rw [skipTagAux, skipTagAux]
          by_cases hl : lvl = 0
          · rw [if_pos hl, if_pos hl]
          · rw [if_neg hl, if_neg hl]; exact ih (lvl - 1)
      | .text s =>
          rw [show mapToks f (.text s :: rest) = .text s :: mapToks f rest from rfl]
          rw [skipTagAux, skipTagAux]
          exact ih lvl
      | .other s =>
          rw [show mapToks f (.other s :: rest) = .other s :: mapToks f rest from rfl]
          rw [skipTagAux, skipTagAux]
          exact ih lvl

/-- The RevB extensions capture loop copies tokens and counts nesting, so
it commutes with a namespace renaming (the captured buffer is renamed
token for token). -/
theorem extsAux_map (f : String → String) (l : List XTok) : ∀ lvl,
    RevB.extsAux lvl (mapToks f l) =
      match RevB.extsAux lvl l with
      | .ok (ts, r) => .ok (mapToks f ts, mapToks f r)
      | .error e => .error e := by
  induction l with
  | nil => intro lvl; rfl
  | cons t rest ih =>
      intro lvl
      match t with
      | .start n a =>
          rw [show mapToks f (.start n a :: rest) =
            .start (mapName f n) (mapAttrs f a) :: mapToks f rest from rfl]
          rw [RevB.extsAux, RevB.extsAux, ih (lvl + 1)]
          cases RevB.extsAux (lvl + 1) rest with
          | ok p => obtain ⟨ts, r⟩ := p; rfl
          | error e => rfl
      | .close n =>
          rw [show mapToks f (.close n :: rest) = .close (mapName f n) :: mapToks f rest from rfl]
          rw [RevB.extsAux, RevB.extsAux]
          by_cases hl : lvl = 0
          · rw [if_pos hl, if_pos hl]; rfl
          · rw [if_neg hl, if_neg hl, ih (lvl - 1)]
            cases RevB.extsAux (lvl - 1) rest with
            | ok p => obtain ⟨ts, r⟩ := p; rfl
            | error e => rfl
      | .text s =>
          rw [show mapToks f (.text s :: rest) = .text s :: mapToks f rest from rfl]
          rw [RevB.extsAux, RevB.extsAux, ih lvl]
          cases RevB.extsAux lvl rest with
          | ok p => obtain ⟨ts, r⟩ := p; rfl
          | error e => rfl
      | .other s =>
          rw [show mapToks f (.other s :: rest) = .other s :: mapToks f rest from rfl]
          rw [RevB.extsAux, RevB.extsAux, ih lvl]
          cases RevB.extsAux lvl rest with
          | ok p => obtain ⟨ts, r⟩ := p; rfl
          | error e => rfl

/-- The trkpt attribute loop only reads local names and attribute values,
so it commutes with a namespace renaming. -/
theorem consumeAttrs_map (f : String → String) (E : Parsers) (strict : Bool) :
    ∀ (attrs : List Attr) (p : Point),
      consumeAttrs E strict (mapAttrs f attrs) (mapPointSp f p) =
        match consumeAttrs E strict attrs p with
        | .ok q => .ok (mapPointSp f q)
        | .error e => .error e := by
  intro attrs
  induction attrs with
  | nil => intro p; rfl
  | cons a rest ih =>
      intro p
      rw [show mapAttrs f (a :: rest) = (mapName f a.1, a.2) :: mapAttrs f rest from rfl]
      rw [consumeAttrs, consumeAttrs]
      by_cases h1 : a.1.localName = "lat"
      · rw [if_pos (show ((mapName f a.1, a.2) : Attr).1.localName = "lat" from h1), if_pos h1]
        cases hv : E.parseFloat a.2 with
        | some v =>
            simp only []
            exact ih { p with Latitude := v }
        | none =>
            simp only []
            cases strict with
            | true => rfl
            | false => exact ih p
      · rw [if_neg (show ¬((mapName f a.1, a.2) : Attr).1.localName = "lat" from h1),
            if_neg h1]
        by_cases h2 : a.1.localName = "lon"
        · rw [if_pos (show ((mapName f a.1, a.2) : Attr).1.localName = "lon" from h2), if_pos h2]
          cases hv : E.parseFloat a.2 with
          | some v =>
              simp only []
              exact ih { p with Longitude := v }
          | none =>
              simp only []
              cases strict with
              | true => rfl
              | false => exact ih p
        · rw [if_neg (show ¬((mapName f a.1, a.2) : Attr).1.localName = "lon" from h2),
              if_neg h2]
          exact ih p

/-- The RevB point child loop matches on local names only, so it commutes
with a namespace renaming; the captured extension buffer is renamed token
for token. -/
theorem pointLoop_map (f : String → String) (E : Parsers) :
    ∀ (l : List XTok) (p : Point),
      RevB.pointLoop E (mapPointSp f p) (mapToks f l) =
        match RevB.pointLoop E p l with
        | .ok (q, r) => .ok (mapPointSp f q, mapToks f r)
        | .error e => .error e := by
  have main : ∀ (N : Nat) (l : List XTok), l.length ≤ N → ∀ p : Point,
      RevB.pointLoop E (mapPointSp f p) (mapToks f l) =
        match RevB.pointLoop E p l with
        | .ok (q, r) => .ok (mapPointSp f q, mapToks f r)
        | .error e => .error e := by
    intro N
    induction N with
    | zero =>
        intro l hl p
        have hnil : l = [] := List.length_eq_zero.mp (by omega)
        subst hnil
        rw [show mapToks f [] = [] from rfl, RevB.pointLoop_nil, RevB.pointLoop_nil]
    | succ N ih =>
        intro l hl p
        match l with
        | [] => rw [show mapToks f [] = [] from rfl, RevB.pointLoop_nil, RevB.pointLoop_nil]
        | .start n a :: rest =>
            have hrest : rest.length ≤ N := by simp at hl; omega
            rw [show mapToks f (.start n a :: rest) =
              .start (mapName f n) (mapAttrs f a) :: mapToks f rest from rfl]
            rw [RevB.pointLoop_start, RevB.pointLoop_start]
            by_cases h1 : n.localName = "ele"
            · rw [if_pos (show (mapName f n).localName = "ele" from h1), if_pos h1]
              rw [consumeFloat_map]
              cases hf : consumeFloat E rest with
              | ok v =>
                  obtain ⟨v, r⟩ := v
                  simp only []
                  have hr : r.length ≤ N := by
                    have := consumeFloat_len E rest v r hf; omega
                  exact ih r hr { p with Elevation := v }
              | error e => rfl
            · rw [if_neg (show ¬(mapName f n).localName = "ele" from h1), if_neg h1]
              by_cases h2 : n.localName = "time"
              · rw [if_pos (show (mapName f n).localName = "time" from h2), if_pos h2]
                rw [consumeTime_map]
                cases hf : consumeTime E rest with
                | ok v =>
                    obtain ⟨t, r⟩ := v
                    simp only []
                    have hr : r.length ≤ N := by
                      have := consumeTime_len E rest t r hf; omega
                    exact ih r hr { p with Time := t }
                | error e => rfl
              · rw [if_neg (show ¬(mapName f n).localName = "time" from h2), if_neg h2]
                by_cases h3 : n.localName = "extensions"
                · rw [if_pos (show (mapName f n).localName = "extensions" from h3), if_pos h3]
                  rw [extsAux_map]
                  cases hf : RevB.extsAux 0 rest with
                  | ok v =>
                      obtain ⟨ts, r⟩ := v
                      simp only []
                      have hr : r.length ≤ N := by
                        have := RevB.extsAux_len rest 0 ts r hf; omega
                      exact ih r hr { p with Extensions := ts }
                  | error e => rfl
                · rw [if_neg (show ¬(mapName f n).localName = "extensions" from h3), if_neg h3]
                  rw [skipTagAux_map]
                  cases hf : skipTagAux 0 rest with
                  | ok r =>
                      simp only []
                      have hr : r.length ≤ N := by
                        have := skipTagAux_len rest 0 r hf; omega
                      exact ih r hr p
                  | error e => rfl
        | .close n :: rest =>
            rw [show mapToks f (.close n :: rest) =
              .close (mapName f n) :: mapToks f rest from rfl]
            rw [RevB.pointLoop_close, RevB.pointLoop_close]
        | .text s :: rest =>
            have hrest : rest.length ≤ N := by simp at hl; omega
            rw [show mapToks f (.text s :: rest) = .text s :: mapToks f rest from rfl]
            rw [RevB.pointLoop_text, RevB.pointLoop_text]
            exact ih rest hrest p
        | .other s :: rest =>
            have hrest : rest.length ≤ N := by simp at hl; omega
            rw [show mapToks f (.other s :: rest) = .other s :: mapToks f rest from rfl]
            rw [RevB.pointLoop_other, RevB.pointLoop_other]
            exact ih rest hrest p
  intro l p
  exact main l.length l (by omega) p

/-- consumePoint commutes with a namespace renaming. -/
theorem consumePoint_map (f : String → String) (E : Parsers) (strict : Bool)
    (attrs : List Attr) (l : List XTok) :
    RevB.consumePoint E strict (mapAttrs f attrs) (mapToks f l) =
      match RevB.consumePoint E strict attrs l with
      | .ok (q, r) => .ok (mapPointSp f q, mapToks f r)
      | .error e => .error e := by
  rw [RevB.consumePoint, RevB.consumePoint]
  have h0 : consumeAttrs E strict (mapAttrs f attrs) ({} : Point) =
      match consumeAttrs E strict attrs {} with
      | .ok q => .ok (mapPointSp f q)
      | .error e => .error e := consumeAttrs_map f E strict attrs {}
  rw [h0]
  cases consumeAttrs E strict attrs {} with
  | ok p =>
      simp only []
      exact pointLoop_map f E l p
  | error e => rfl

/-- The RevB segment child loop commutes with a namespace renaming. -/
theorem segLoop_map (f : String → String) (E : Parsers) (strict : Bool) :
    ∀ (l : List XTok) (seg : Segment),
      RevB.segLoop E strict (mapSegSp f seg) (mapToks f l) =
        match RevB.segLoop E strict seg l with
        | .ok (q, r) => .ok (mapSegSp f q, mapToks f r)
        | .error e => .error e := by
  have main : ∀ (N : Nat) (l : List XTok), l.length ≤ N → ∀ seg : Segment,
      RevB.segLoop E strict (mapSegSp f seg) (mapToks f l) =
        match RevB.segLoop E strict seg l with
        | .ok (q, r) => .ok (mapSegSp f q, mapToks f r)
        | .error e => .error e := by
    intro N
    induction N with
    | zero =>
        intro l hl seg
        have hnil : l = [] := List.length_eq_zero.mp (by omega)
        subst hnil
        rw [show mapToks f [] = [] from rfl, RevB.segLoop_nil, RevB.segLoop_nil]
    | succ N ih =>
        intro l hl seg
        match l with
        | [] => rw [show mapToks f [] = [] from rfl, RevB.segLoop_nil, RevB.segLoop_nil]
        | .start n a :: rest =>
            have hrest : rest.length ≤ N := by simp at hl; omega
            rw [show mapToks f (.start n a :: rest) =
              .start (mapName f n) (mapAttrs f a) :: mapToks f rest from rfl]
            rw [RevB.segLoop_start, RevB.segLoop_start]
            by_cases h1 : n.localName = "trkpt"
            · rw [if_pos (show (mapName f n).localName = "trkpt" from h1), if_pos h1]
              rw [consumePoint_map]
              cases hf : RevB.consumePoint E strict a rest with
              | ok v =>
                  obtain ⟨pt, r⟩ := v
                  simp only []
                  have hr : r.length ≤ N := by
                    have := RevB.consumePoint_len E strict a rest pt r hf; omega
                  have hseg : ({ Points := (mapSegSp f seg).Points ++ [mapPointSp f pt] } : Segment) =
                      mapSegSp f { Points := seg.Points ++ [pt] } := by
                    rw [mapSegSp, mapSegSp]
                    simp
                  rw [hseg]
                  exact ih r hr { Points := seg.Points ++ [pt] }
              | error e => rfl
            · rw [if_neg (show ¬(mapName f n).localName = "trkpt" from h1), if_neg h1]
              rw [skipTagAux_map]
              cases hf : skipTagAux 0 rest with
              | ok r =>
                  simp only []
                  have hr : r.length ≤ N := by
                    have := skipTagAux_len rest 0 r hf; omega
                  exact ih r hr seg
              | error e => rfl
        | .close n :: rest =>
            rw [show mapToks f (.close n :: rest) =
              .close (mapName f n) :: mapToks f rest from rfl]
            rw [RevB.segLoop_close, RevB.segLoop_close]
        | .text s :: rest =>
            have hrest : rest.length ≤ N := by simp at hl; omega
            rw [show mapToks f (.text s :: rest) = .text s :: mapToks f rest from rfl]
            rw [RevB.segLoop_text, RevB.segLoop_text]
            exact ih rest hrest seg
        | .other s :: rest =>
            have hrest : rest.length ≤ N := by simp at hl; omega
            rw [show mapToks f (.other s :: rest) = .other s :: mapToks f rest from rfl]
            rw [RevB.segLoop_other, RevB.segLoop_other]
            exact ih rest hrest seg
  intro l seg
  exact main l.length l (by omega) seg

/-- consumeSegment commutes with a namespace renaming. -/
theorem consumeSegment_map (f : String → String) (E : Parsers) (strict : Bool)
    (l : List XTok) :
    RevB.consumeSegment E strict (mapToks f l) =
      match RevB.consumeSegment E strict l with
      | .ok (q, r) => .ok (mapSegSp f q, mapToks f r)
      | .error e => .error e := by
  rw [RevB.consumeSegment, RevB.consumeSegment]
  exact segLoop_map f E strict l {}

/-- The RevB track child loop commutes with a namespace renaming. -/
theorem trackLoop_map (f : String → String) (E : Parsers) (strict : Bool) :
    ∀ (l : List XTok) (track : Track),
      RevB.trackLoop E strict (mapTrackSp f track) (mapToks f l) =
        match RevB.trackLoop E strict track l with
        | .ok (q, r) => .ok (mapTrackSp f q, mapToks f r)
        | .error e => .error e := by
  have main : ∀ (N : Nat) (l : List XTok), l.length ≤ N → ∀ track : Track,
      RevB.trackLoop E strict (mapTrackSp f track) (mapToks f l) =
        match RevB.trackLoop E strict track l with
        | .ok (q, r) => .ok (mapTrackSp f q, mapToks f r)
        | .error e => .error e := by
    intro N
    induction N with
    | zero =>
        intro l hl track
        have hnil : l = [] := List.length_eq_zero.mp (by omega)
        subst hnil
        rw [show mapToks f [] = [] from rfl, RevB.trackLoop_nil, RevB.trackLoop_nil]
    | succ N ih =>
        intro l hl track
        match l with
        | [] => rw [show mapToks f [] = [] from rfl, RevB.trackLoop_nil, RevB.trackLoop_nil]
        | .start n a :: rest =>
            have hrest : rest.length ≤ N := by simp at hl; omega
            rw [show mapToks f (.start n a :: rest) =
              .start (mapName f n) (mapAttrs f a) :: mapToks f rest from rfl]
            rw [RevB.trackLoop_start, RevB.trackLoop_start]
            by_cases h1 : n.localName = "trkseg"
            · rw [if_pos (show (mapName f n).localName = "trkseg" from h1), if_pos h1]
              rw [consumeSegment_map]
              cases hf : RevB.consumeSegment E strict rest with
              | ok v =>
                  obtain ⟨seg, r⟩ := v
                  simp only []
                  have hr : r.length ≤ N := by
                    have := RevB.segLoop_len E strict {} rest seg r hf; omega
                  have htr : ({ Segments := (mapTrackSp f track).Segments ++ [mapSegSp f seg] } : Track) =
                      mapTrackSp f { Segments := track.Segments ++ [seg] } := by
                    rw [mapTrackSp, mapTrackSp]
                    simp
                  rw [htr]
                  exact ih r hr { Segments := track.Segments ++ [seg] }
              | error e => rfl
            · rw [if_neg (show ¬(mapName f n).localName = "trkseg" from h1), if_neg h1]
              rw [skipTagAux_map]
              cases hf : skipTagAux 0 rest with
              | ok r =>
                  simp only []
                  have hr : r.length ≤ N := by
                    have := skipTagAux_len rest 0 r hf; omega
                  exact ih r hr track
              | error e => rfl
        | .close n :: rest =>
            rw [show mapToks f (.close n :: rest) =
              .close (mapName f n) :: mapToks f rest from rfl]
            rw [RevB.trackLoop_close, RevB.trackLoop_close]
        | .text s :: rest =>
            have hrest : rest.length ≤ N := by simp at hl; omega
            rw [show mapToks f (.text s :: rest) = .text s :: mapToks f rest from rfl]
            rw [RevB.trackLoop_text, RevB.trackLoop_text]
            exact ih rest hrest track
        | .other s :: rest =>
            have hrest : rest.length ≤ N := by simp at hl; omega
            rw [show mapToks f (.other s :: rest) = .other s :: mapToks f rest from rfl]
            rw [RevB.trackLoop_other, RevB.trackLoop_other]
            exact ih rest hrest track
  intro l track
  exact main l.length l (by omega) track

/-- consumeTrack commutes with a namespace renaming. -/
theorem consumeTrack_map (f : String → String) (E : Parsers) (strict : Bool)
    (l : List XTok) :
    RevB.consumeTrack E strict (mapToks f l) =
      match RevB.consumeTrack E strict l with
      | .ok (q, r) => .ok (mapTrackSp f q, mapToks f r)
      | .error e => .error e := by
  rw [RevB.consumeTrack, RevB.consumeTrack]
  exact trackLoop_map f E strict l {}

/-- The RevB metadata child loop carries no namespaces in its state, so a
namespace renaming only renames the remaining stream. -/
theorem metaLoop_map (f : String → String) (E : Parsers) :
    ∀ (l : List XTok) (m : Metadata),
      RevB.metaLoop E m (mapToks f l) =
        match RevB.metaLoop E m l with
        | .ok (q, r) => .ok (q, mapToks f r)
        | .error e => .error e := by
  have main : ∀ (N : Nat) (l : List XTok), l.length ≤ N → ∀ m : Metadata,
      RevB.metaLoop E m (mapToks f l) =
        match RevB.metaLoop E m l with
        | .ok (q, r) => .ok (q, mapToks f r)
        | .error e => .error e := by
    intro N
    induction N with
    | zero =>
        intro l hl m
        have hnil : l = [] := List.length_eq_zero.mp (by omega)
        subst hnil
        rw [show mapToks f [] = [] from rfl, RevB.metaLoop_nil]
    | succ N ih =>
        intro l hl m
        match l with
        | [] => rw [show mapToks f [] = [] from rfl, RevB.metaLoop_nil]
        | .start n a :: rest =>
            have hrest : rest.length ≤ N := by simp at hl; omega
            rw [show mapToks f (.start n a :: rest) =
              .start (mapName f n) (mapAttrs f a) :: mapToks f rest from rfl]
            rw [RevB.metaLoop_start, RevB.metaLoop_start]
            by_cases h1 : n.localName = "time"
            · rw [if_pos (show (mapName f n).localName = "time" from h1), if_pos h1]
              rw [consumeTime_map]
              cases hf : consumeTime E rest with
              | ok v =>
                  obtain ⟨t, r⟩ := v
                  simp only []
                  have hr : r.length ≤ N := by
                    have := consumeTime_len E rest t r hf; omega
                  exact ih r hr { Time := t }
              | error e => rfl
            · rw [if_neg (show ¬(mapName f n).localName = "time" from h1), if_neg h1]
              rw [skipTagAux_map]
              cases hf : skipTagAux 0 rest with
              | ok r =>
                  simp only []
                  have hr : r.length ≤ N := by
                    have := skipTagAux_len rest 0 r hf; omega
                  exact ih r hr m
              | error e => rfl
        | .close n :: rest =>
            rw [show mapToks f (.close n :: rest) =
              .close (mapName f n) :: mapToks f rest from rfl]
            rw [RevB.metaLoop_close, RevB.metaLoop_close]
        | .text s :: rest =>
            have hrest : rest.length ≤ N := by simp at hl; omega
            rw [show mapToks f (.text s :: rest) = .text s :: mapToks f rest from rfl]
            rw [RevB.metaLoop_text, RevB.metaLoop_text]
            exact ih rest hrest m
        | .other s :: rest =>
            have hrest : rest.length ≤ N := by simp at hl; omega
            rw [show mapToks f (.other s :: rest) = .other s :: mapToks f rest from rfl]
            rw [RevB.metaLoop_other, RevB.metaLoop_other]
            exact ih rest hrest m
  intro l m
  exact main l.length l (by omega) m

/-- consumeMetadata commutes with a namespace renaming. -/
theorem consumeMetadata_map (f : String → String) (E : Parsers) (l : List XTok) :
    RevB.consumeMetadata E (mapToks f l) =
      match RevB.consumeMetadata E l with
      | .ok (q, r) => .ok (q, mapToks f r)
      | .error e => .error e := by
  rw [RevB.consumeMetadata, RevB.consumeMetadata]
  exact metaLoop_map f E l {}

/-- The RevB root child loop commutes with a namespace renaming. -/
theorem gpxLoop_map (f : String → String) (E : Parsers) (strict : Bool) :
    ∀ (l : List XTok) (doc : Document),
      RevB.gpxLoop E strict (mapDocSp f doc) (mapToks f l) =
        match RevB.gpxLoop E strict doc l with
        | .ok (q, r) => .ok (mapDocSp f q, mapToks f r)
        | .error e => .error e := by
  have main : ∀ (N : Nat) (l : List XTok), l.length ≤ N → ∀ doc : Document,
      RevB.gpxLoop E strict (mapDocSp f doc) (mapToks f l) =
        match RevB.gpxLoop E strict doc l with
        | .ok (q, r) => .ok (mapDocSp f q, mapToks f r)
        | .error e => .error e := by
    intro N
    induction N with
    | zero =>
        intro l hl doc
        have hnil : l = [] := List.length_eq_zero.mp (by omega)
        subst hnil
        rw [show mapToks f [] = [] from rfl, RevB.gpxLoop_nil, RevB.gpxLoop_nil]
    | succ N ih =>
        intro l hl doc
        match l with
        | [] => rw [show mapToks f [] = [] from rfl, RevB.gpxLoop_nil, RevB.gpxLoop_nil]
        | .start n a :: rest =>
            have hrest : rest.length ≤ N := by simp at hl; omega
            rw [show mapToks f (.start n a :: rest) =
              .start (mapName f n) (mapAttrs f a) :: mapToks f rest from rfl]
            rw [RevB.gpxLoop_start, RevB.gpxLoop_start]
            by_cases h1 : n.localName = "trk"
            · rw [if_pos (show (mapName f n).localName = "trk" from h1), if_pos h1]
              rw [consumeTrack_map]
              cases hf : RevB.consumeTrack E strict rest with
              | ok v =>
                  obtain ⟨track, r⟩ := v
                  simp only []
                  have hr : r.length ≤ N := by
                    have := RevB.trackLoop_len E strict {} rest track r hf; omega
                  have hdoc : ({ mapDocSp f doc with
                      Tracks := (mapDocSp f doc).Tracks ++ [mapTrackSp f track] } : Document) =
                      mapDocSp f { doc with Tracks := doc.Tracks ++ [track] } := by
                    rw [mapDocSp, mapDocSp]
                    simp
                  rw [hdoc]
                  exact ih r hr { doc with Tracks := doc.Tracks ++ [track] }
              | error e => rfl
            · rw [if_neg (show ¬(mapName f n).localName = "trk" from h1), if_neg h1]
              by_cases h2 : n.localName = "metadata"
              · rw [if_pos (show (mapName f n).localName = "metadata" from h2), if_pos h2]
                rw [consumeMetadata_map]
                cases hf : RevB.consumeMetadata E rest with
                | ok v =>
                    obtain ⟨m, r⟩ := v
                    simp only []
                    have hr : r.length ≤ N := by
                      have := RevB.metaLoop_len E {} rest m r hf; omega
                    exact ih r hr { doc with Metadata := m }
                | error e => rfl
              · rw [if_neg (show ¬(mapName f n).localName = "metadata" from h2), if_neg h2]
                rw [skipTagAux_map]
                cases hf : skipTagAux 0 rest with
                | ok r =>
                    simp only []
                    have hr : r.length ≤ N := by
                      have := skipTagAux_len rest 0 r hf; omega
                    exact ih r hr doc
                | error e => rfl
        | .close n :: rest =>
            rw [show mapToks f (.close n :: rest) =
              .close (mapName f n) :: mapToks f rest from rfl]
            rw [RevB.gpxLoop_close, RevB.gpxLoop_close]
        | .text s :: rest =>
            have hrest : rest.length ≤ N := by simp at hl; omega
            rw [show mapToks f (.text s :: rest) = .text s :: mapToks f rest from rfl]
            rw [RevB.gpxLoop_text, RevB.gpxLoop_text]
            exact ih rest hrest doc
        | .other s :: rest =>
            have hrest : rest.length ≤ N := by simp at hl; omega
            rw [show mapToks f (.other s :: rest) = .other s :: mapToks f rest from rfl]
            rw [RevB.gpxLoop_other, RevB.gpxLoop_other]
            exact ih rest hrest doc
  intro l doc
  exact main l.length l (by omega) doc

/-- The version loop reads local names and values only, both preserved by
a namespace renaming. -/
theorem versionOf_map (f : String → String) (attrs : List Attr) :
    versionOf (mapAttrs f attrs) = versionOf attrs := by
  rw [versionOf, versionOf, mapAttrs, List.foldl_map]
  rfl

/-- A namespace renaming does not create or remove start elements. -/
theorem isStartTok_map (f : String → String) (t : XTok) :
    isStartTok (mapTok f t) = isStartTok t := by
  cases t <;> rfl

/-- RevB.Decode commutes with renaming every namespace in the document
body (the root element keeps the GPX 1.1 namespace so that findGPX
accepts it): the decoded document only changes by the same renaming of
the captured extension buffers. -/
theorem decodeB_map (f : String → String) (E : Parsers) (strict : Bool)
    (a : List Attr) (l : List XTok) :
    RevB.Decode E strict (.start ⟨nsGPX11, "gpx"⟩ (mapAttrs f a) :: mapToks f l) =
      match RevB.Decode E strict (.start ⟨nsGPX11, "gpx"⟩ a :: l) with
      | .ok doc => .ok (mapDocSp f doc)
      | .error e => .error e := by
  rw [RevB.Decode, RevB.Decode]
  have hfind : ∀ (a2 : List Attr) (l2 : List XTok),
      findGPX (.start ⟨nsGPX11, "gpx"⟩ a2 :: l2) = .ok (⟨nsGPX11, "gpx"⟩, a2, l2) := by
    intro a2 l2
    rw [findGPX]
    rw [if_neg (by simp)]
    rw [if_neg (by simp)]
  rw [hfind, hfind]
  simp only []
  rw [RevB.consumeGPX, RevB.consumeGPX, versionOf_map]
  have hdoc0 : ({ Version := versionOf a } : Document) =
      mapDocSp f { Version := versionOf a } := rfl
  conv_lhs => rw [hdoc0, gpxLoop_map]
  cases RevB.gpxLoop E strict { Version := versionOf a } l with
  | ok v => obtain ⟨doc, r⟩ := v; rfl
  | error e => rfl

/-- C3: for every well-formed GPX 1.1 input, the Document returned by the
RevB Decode is exactly the specification document docOfB: one Track per
trk child, one Segment per trkseg child of that trk, one Point per trkpt
child of that trkseg, all in document order (docOfB is built with
filterMap over the source children, so no reordering and no
deduplication), the last metadata child supplying the metadata and the
version attribute copied verbatim. -/
theorem c3_counts_and_order (E : Parsers) (strict : Bool) (d : SDoc)
    (hwf : wfDocB E d = true) :
    RevB.Decode E strict (serializeDoc d) = .ok (docOfB E d) :=
  decode_serB E strict d hwf

/-- Witness for C3 at the concrete document docW: the decode succeeds and
the resulting document is the expected literal. -/
theorem c3_counts_and_order_witness :
    wfDocB E0 docW = true ∧
    RevB.Decode E0 true (serializeDoc docW) = .ok (docOfB E0 docW) ∧
    docOfB E0 docW =
      { Version := "1.1"
        Metadata := { Time := 1450031718 }
        Tracks := [{ Segments := [{ Points :=
          [{ Latitude := 49, Longitude := 11, Elevation := mkRat 701 2, Time := 1450031718,
             Extensions :=
               [.start ⟨GarminTrackPointExtensionNS, "TrackPointExtension"⟩ [],
                .start ⟨GarminTrackPointExtensionNS, "hr"⟩ [],
                .text "142",
                .close ⟨GarminTrackPointExtensionNS, "hr"⟩,
                .close ⟨GarminTrackPointExtensionNS, "TrackPointExtension"⟩] }] }] }] } :=
  ⟨by decide, c3_counts_and_order E0 true docW (by decide), by decide⟩

/-- C4 counterexample: a root element in a non-GPX namespace whose local
name is not gpx is rejected with ErrBadRootTag, not ErrGPX11Only - the
root local name is checked before the namespace, contradicting the
claimed regardless-of-local-name behavior. -/
theorem c4_root_check_cex :
    RevB.Decode E0 true
      [.start ⟨"http://www.topografix.com/GPX/1/0", "foo"⟩ [],
       .close ⟨"http://www.topografix.com/GPX/1/0", "foo"⟩] = .error .badRootTag ∧
    Err.badRootTag ≠ Err.gpx11Only := by
  constructor
  · rw [RevB.Decode]
    have hf : findGPX
        [.start ⟨"http://www.topografix.com/GPX/1/0", "foo"⟩ [],
         .close ⟨"http://www.topografix.com/GPX/1/0", "foo"⟩] = .error .badRootTag := by
      rw [findGPX]
      rw [if_pos (by decide)]
    rw [hf]
  · decide

/-- C4 amended: when the first start element of the stream has local name
gpx but a namespace other than the GPX 1.1 one, Decode fails with
ErrGPX11Only whatever the preceding non-element tokens, the attributes
and the remaining content; a first start element with a different local
name is instead rejected with ErrBadRootTag. -/
theorem c4_wrong_namespace (E : Parsers) (strict : Bool) (sp : String)
    (a : List Attr) (pre rest : List XTok)
    (hpre : ∀ t ∈ pre, isStartTok t = false) (hsp : sp ≠ nsGPX11) :
    RevB.Decode E strict (pre ++ .start ⟨sp, "gpx"⟩ a :: rest) = .error .gpx11Only := by
  rw [RevB.Decode, findGPX_wrongNS pre sp a rest hpre hsp]

/-- Witness for C4 amended at a concrete GPX 1.0 document. -/
theorem c4_wrong_namespace_witness :
    (∀ t ∈ [XTok.text "x"], isStartTok t = false) ∧
    ("http://www.topografix.com/GPX/1/0" ≠ nsGPX11) ∧
    RevB.Decode E0 true
      ([XTok.text "x"] ++ .start ⟨"http://www.topografix.com/GPX/1/0", "gpx"⟩ [] ::
        [.close ⟨"http://www.topografix.com/GPX/1/0", "gpx"⟩]) = .error .gpx11Only :=
  ⟨by decide, by decide,
   c4_wrong_namespace E0 true "http://www.topografix.com/GPX/1/0" [] [XTok.text "x"]
     [.close ⟨"http://www.topografix.com/GPX/1/0", "gpx"⟩] (by decide) (by decide)⟩

/-- C5: unknown elements are tolerated at every level.  First, skipTag
started just after the start element of an unknown child consumes exactly
its serialized balanced subtree (children and matching end element) and
returns the following tokens untouched.  Second, two well-formed
documents with the same recognized children (equal after recursively
removing unknown children) decode to the same result - inserting unknown
elements anywhere changes nothing for recognized siblings. -/
theorem c5_unknown_tolerated (E : Parsers) :
    (∀ (cs : GForest) (n : XName) (rest : List XTok),
       skipTag (serializeF cs ++ .close n :: rest) = .ok rest) ∧
    (∀ (strict : Bool) (d1 d2 : SDoc),
       wfDocB E d1 = true → wfDocB E d2 = true → stripDoc d1 = stripDoc d2 →
       RevB.Decode E strict (serializeDoc d1) = RevB.Decode E strict (serializeDoc d2)) := by
  constructor
  · intro cs n rest
    rw [skipTag]
    exact skipTag_exact cs n rest
  · intro strict d1 d2 h1 h2 hstrip
    rw [decode_serB E strict d1 h1, decode_serB E strict d2 h2]
    rw [← docOfB_strip E d1, ← docOfB_strip E d2, hstrip]

/-- Witness for C5: docWins is docW with an extra unknown element (holding
a nested trkpt-named element) inserted among the segment children; both
decode identically, and a concrete skipTag run consumes exactly one
balanced subtree. -/
theorem c5_unknown_tolerated_witness :
    wfDocB E0 docW = true ∧ wfDocB E0 docWins = true ∧ stripDoc docW = stripDoc docWins ∧
    skipTag (serializeF (.cons (.txt "x") .nil) ++ .close ⟨nsGPX11, "wpt"⟩ ::
      [.close ⟨nsGPX11, "gpx"⟩]) = .ok [.close ⟨nsGPX11, "gpx"⟩] ∧
    RevB.Decode E0 true (serializeDoc docW) = RevB.Decode E0 true (serializeDoc docWins) :=
  ⟨by decide, by decide, by decide,
   (c5_unknown_tolerated E0).1 (.cons (.txt "x") .nil) ⟨nsGPX11, "wpt"⟩ [.close ⟨nsGPX11, "gpx"⟩],
   (c5_unknown_tolerated E0).2 true docW docWins (by decide) (by decide) (by decide)⟩

/-- C7: over a captured buffer holding the Garmin envelope (preceded by
any non-envelope content), ParseGarminTrackPointExtension succeeds and
returns the fold of the recognized fields: each field stores the parse of
its concatenated text, with parse errors discarded - Atoi and ParseFloat
answer 0 on a syntax error, so a numeric parse failure leaves the field
at its zero value and the remaining fields are still decoded. -/
theorem c7_garmin_roundtrip (E : Parsers) (pre : GForest) (ea : List Attr)
    (items : List FItem) (cn : XName) (after : List XTok)
    (hpre : preOkF pre = true) (hwf : wfFItems items = true) :
    ParseGarminTrackPointExtension E
      (serializeF pre ++ .start ⟨GarminTrackPointExtensionNS, "TrackPointExtension"⟩ ea ::
        (serializeFItems items ++ .close cn :: after)) = .ok (foldGarmin E items) :=
  parseGarmin_ser E pre ea items cn after hpre hwf

/-- Witness for C7: heart rate 142 and cadence 90 decode to the expected
record, and an unparsable heart rate text leaves HeartRate at 0 while
cadence 90 is still decoded. -/
theorem c7_garmin_roundtrip_witness :
    preOkF .nil = true ∧ wfFItems fieldsW = true ∧
    ParseGarminTrackPointExtension E0
      (serializeF .nil ++ .start ⟨GarminTrackPointExtensionNS, "TrackPointExtension"⟩ [] ::
        (serializeFItems fieldsW ++
          .close ⟨GarminTrackPointExtensionNS, "TrackPointExtension"⟩ :: [])) =
      .ok (foldGarmin E0 fieldsW) ∧
    foldGarmin E0 fieldsW =
      { HeartRate := 142, Cadence := 90, ATemp := 0, WTemp := 0, Depth := 0 } ∧
    ParseGarminTrackPointExtension E0
      (serializeF .nil ++ .start ⟨GarminTrackPointExtensionNS, "TrackPointExtension"⟩ [] ::
        (serializeFItems [.hr [] (.cons (.txt "oops") .nil), .cad [] (.cons (.txt "90") .nil)] ++
          .close ⟨GarminTrackPointExtensionNS, "TrackPointExtension"⟩ :: [])) =
      .ok (foldGarmin E0 [.hr [] (.cons (.txt "oops") .nil), .cad [] (.cons (.txt "90") .nil)]) ∧
    foldGarmin E0 [.hr [] (.cons (.txt "oops") .nil), .cad [] (.cons (.txt "90") .nil)] =
      { HeartRate := 0, Cadence := 90, ATemp := 0, WTemp := 0, Depth := 0 } :=
  ⟨by decide, by decide,
   c7_garmin_roundtrip E0 .nil [] fieldsW
     ⟨GarminTrackPointExtensionNS, "TrackPointExtension"⟩ [] (by decide) (by decide),
   by decide,
   c7_garmin_roundtrip E0 .nil [] [.hr [] (.cons (.txt "oops") .nil), .cad [] (.cons (.txt "90") .nil)]
     ⟨GarminTrackPointExtensionNS, "TrackPointExtension"⟩ [] (by decide) (by decide),
   by decide⟩

/-- C1: the claim fails against the cited revision.  On the scenario
document (a trkpt whose ele text does not parse), the RevB decoder
(part_000, consumePoint at 556-592 with tokens.go consumeFloat) returns
the raw ParseFloat error in BOTH strictness modes: consumeFloat forwards
the strconv error unconditionally and consumePoint returns it without
consulting d.strict, so lenient mode does not succeed and no Document is
returned.  The RevD revision (part_001) does behave as claimed in lenient
mode: the decode succeeds, the failing elevation is left at zero, and all
other fields and points are decoded normally. -/
theorem c1_lenient_elevation_bug :
    RevB.Decode E0 false (serializeDoc docScenario) = .error .floatErr ∧
    RevB.Decode E0 true (serializeDoc docScenario) = .error .floatErr ∧
    RevD.Decode E0 false (serializeDoc docScenario) = .ok (docOfD E0 docScenario) ∧
    (docOfD E0 docScenario).Tracks =
      [{ Segments := [{ Points :=
        [{ Latitude := 49, Longitude := 11, Elevation := 0, Time := 1450031718,
           Extensions := [] },
         { Latitude := mkRat 491 10, Longitude := mkRat 111 10, Elevation := mkRat 701 2,
           Time := 0, Extensions := [] }] }] }] := by
  have hB : ∀ strict, RevB.Decode E0 strict (serializeDoc docScenario) = .error .floatErr := by
    intro strict
    have hser : serializeDoc docScenario =
        .start ⟨nsGPX11, "gpx"⟩ [(⟨"", "version"⟩, "1.1")] ::
          (serializeGItems [] ++ .start ⟨nsGPX11, "trk"⟩ [] ::
            (serializeTItems [] ++ .start ⟨nsGPX11, "trkseg"⟩ [] ::
              (serializeSItems [] ++
                .start ⟨nsGPX11, "trkpt"⟩ [(⟨"", "lat"⟩, "49.0"), (⟨"", "lon"⟩, "11.0")] ::
                (serializePItems [] ++
                  (.start ⟨nsGPX11, "ele"⟩ [] ::
                    (serializeF (.cons (.txt "not-a-number") .nil) ++
                      .close ⟨nsGPX11, "ele"⟩ ::
                      [.start ⟨nsGPX11, "time"⟩ [], .text "2015-12-13T18:35:18Z",
                       .close ⟨nsGPX11, "time"⟩, .close ⟨nsGPX11, "trkpt"⟩,
                       .start ⟨nsGPX11, "trkpt"⟩ [(⟨"", "lat"⟩, "49.1"), (⟨"", "lon"⟩, "11.1")],
                       .start ⟨nsGPX11, "ele"⟩ [], .text "350.5", .close ⟨nsGPX11, "ele"⟩,
                       .close ⟨nsGPX11, "trkpt"⟩, .close ⟨nsGPX11, "trkseg"⟩,
                       .close ⟨nsGPX11, "trk"⟩, .close ⟨nsGPX11, "gpx"⟩])))))) := by
      decide
    rw [hser]
    exact decodeB_fail_point E0 strict [(⟨"", "version"⟩, "1.1")] [] nsGPX11 [] []
      nsGPX11 [] [] nsGPX11 [(⟨"", "lat"⟩, "49.0"), (⟨"", "lon"⟩, "11.0")] []
      (.start ⟨nsGPX11, "ele"⟩ [] ::
        (serializeF (.cons (.txt "not-a-number") .nil) ++
          .close ⟨nsGPX11, "ele"⟩ ::
          [.start ⟨nsGPX11, "time"⟩ [], .text "2015-12-13T18:35:18Z",
           .close ⟨nsGPX11, "time"⟩, .close ⟨nsGPX11, "trkpt"⟩,
           .start ⟨nsGPX11, "trkpt"⟩ [(⟨"", "lat"⟩, "49.1"), (⟨"", "lon"⟩, "11.1")],
           .start ⟨nsGPX11, "ele"⟩ [], .text "350.5", .close ⟨nsGPX11, "ele"⟩,
           .close ⟨nsGPX11, "trkpt"⟩, .close ⟨nsGPX11, "trkseg"⟩,
           .close ⟨nsGPX11, "trk"⟩, .close ⟨nsGPX11, "gpx"⟩]))
      .floatErr (by decide) (by decide) (by decide) (by decide) (by decide)
      (pointLoop_eleParseFail_B E0 _ nsGPX11 [] (.cons (.txt "not-a-number") .nil)
        ⟨nsGPX11, "ele"⟩
        [.start ⟨nsGPX11, "time"⟩ [], .text "2015-12-13T18:35:18Z",
         .close ⟨nsGPX11, "time"⟩, .close ⟨nsGPX11, "trkpt"⟩,
         .start ⟨nsGPX11, "trkpt"⟩ [(⟨"", "lat"⟩, "49.1"), (⟨"", "lon"⟩, "11.1")],
         .start ⟨nsGPX11, "ele"⟩ [], .text "350.5", .close ⟨nsGPX11, "ele"⟩,
         .close ⟨nsGPX11, "trkpt"⟩, .close ⟨nsGPX11, "trkseg"⟩,
         .close ⟨nsGPX11, "trk"⟩, .close ⟨nsGPX11, "gpx"⟩]
        (by decide) (by decide))
  exact ⟨hB false, hB true, decode_serD E0 false docScenario (by decide), by decide⟩

/-- C9 counterexample: the revisions are not behaviorally the same.  On a
document whose only point carries an empty ele element, the tokenStream
revision (RevB) fails in strict mode with the raw ParseFloat error (the
empty string does not parse), while the level-counting revision (RevD)
succeeds: its consumeEle loop sees no character data chunk at all, so
even strict mode never parses anything and the elevation stays 0. -/
theorem c9_revisions_diverge_cex :
    RevB.Decode E0 true (serializeDoc docEmptyEle) = .error .floatErr ∧
    RevD.Decode E0 true (serializeDoc docEmptyEle) = .ok (docOfD E0 docEmptyEle) ∧
    (Except.error Err.floatErr : Except Err Document) ≠ .ok (docOfD E0 docEmptyEle) := by
  refine ⟨?_, decode_serD E0 true docEmptyEle (by decide), fun h => Except.noConfusion h⟩
  have hser : serializeDoc docEmptyEle =
      .start ⟨nsGPX11, "gpx"⟩ [] ::
        (serializeGItems [] ++ .start ⟨nsGPX11, "trk"⟩ [] ::
          (serializeTItems [] ++ .start ⟨nsGPX11, "trkseg"⟩ [] ::
            (serializeSItems [] ++ .start ⟨nsGPX11, "trkpt"⟩ [] ::
              (serializePItems [] ++
                (.start ⟨nsGPX11, "ele"⟩ [] ::
                  (serializeF .nil ++ .close ⟨nsGPX11, "ele"⟩ ::
                    [.close ⟨nsGPX11, "trkpt"⟩, .close ⟨nsGPX11, "trkseg"⟩,
                     .close ⟨nsGPX11, "trk"⟩, .close ⟨nsGPX11, "gpx"⟩])))))) := by
    decide
  rw [hser]
  exact decodeB_fail_point E0 true [] [] nsGPX11 [] [] nsGPX11 [] [] nsGPX11 [] []
    (.start ⟨nsGPX11, "ele"⟩ [] ::
      (serializeF .nil ++ .close ⟨nsGPX11, "ele"⟩ ::
        [.close ⟨nsGPX11, "trkpt"⟩, .close ⟨nsGPX11, "trkseg"⟩,
         .close ⟨nsGPX11, "trk"⟩, .close ⟨nsGPX11, "gpx"⟩]))
    .floatErr (by decide) (by decide) (by decide) (by decide) (by decide)
    (pointLoop_eleParseFail_B E0 _ nsGPX11 [] .nil ⟨nsGPX11, "ele"⟩
      [.close ⟨nsGPX11, "trkpt"⟩, .close ⟨nsGPX11, "trkseg"⟩,
       .close ⟨nsGPX11, "trk"⟩, .close ⟨nsGPX11, "gpx"⟩]
      (by decide) (by decide))

/-- C9 amended: the two embedded revisions agree on the class of strongly
well-formed documents - every leaf (ele, time, metadata time) holds
exactly one character data chunk whose value parses, and every lat / lon
attribute parses.  There both revisions succeed with the same Document,
in both strictness modes.  Outside this class they diverge (see the
counterexample with an empty leaf). -/
theorem c9_agree_on_strong (E : Parsers) (strict : Bool) (d : SDoc)
    (hwf : wfDocS E d = true) :
    RevB.Decode E strict (serializeDoc d) = RevD.Decode E strict (serializeDoc d) ∧
    RevB.Decode E strict (serializeDoc d) = .ok (docOfB E d) := by
  obtain ⟨hB, hD, heq⟩ := wfDocS_split E d hwf
  constructor
  · rw [decode_serB E strict d hB, decode_serD E strict d (hD strict), heq]
  · exact decode_serB E strict d hB

/-- Witness for C9 amended at the concrete strongly well-formed docW. -/
theorem c9_agree_on_strong_witness :
    wfDocS E0 docW = true ∧
    (RevB.Decode E0 true (serializeDoc docW) = RevD.Decode E0 true (serializeDoc docW) ∧
     RevB.Decode E0 true (serializeDoc docW) = .ok (docOfB E0 docW)) :=
  ⟨by decide, c9_agree_on_strong E0 true docW (by decide)⟩

/-- C6 counterexample: the captured buffer also copies comment-like
tokens (xml.Comment, xml.ProcInst, xml.Directive - the default case of
the consumeExtensions switch), so its length is NOT the number of open
tags plus close tags plus text tokens in the span.  A point whose
extensions element holds a single comment decodes to a buffer of length
one with zero opens, zero closes and zero text tokens. -/
theorem c6_comment_in_buffer_cex :
    RevB.Decode E0 true (serializeDoc docCommentExt) = .ok (docOfB E0 docCommentExt) ∧
    docOfB E0 docCommentExt =
      { Version := ""
        Metadata := {}
        Tracks := [{ Segments := [{ Points :=
          [{ Latitude := 0, Longitude := 0, Elevation := 0, Time := 0,
             Extensions := [.other " made with unit x "] }] }] }] } ∧
    ¬ ([XTok.other " made with unit x "].length =
        [XTok.other " made with unit x "].countP isStartTok +
        [XTok.other " made with unit x "].countP isCloseTok +
        [XTok.other " made with unit x "].countP isTextTok) :=
  ⟨decode_serB E0 true docCommentExt (by decide), by decide, by decide⟩

/-- C6 amended: after a successful decode of a well-formed document, the
Extensions buffer of a point whose trkpt had an extensions child (the
last one, when several occur) is exactly the serialization of the content
between the extensions open tag and its matching close tag, wrapper tags
excluded; that buffer is a fully balanced token sequence, and its length
is the number of open tags plus close tags plus text tokens plus
comment-like tokens in the span (the buffer is a verbatim copy of every
token kind, comment-like tokens included). -/
theorem c6_buffer_exact (E : Parsers) (strict : Bool) (d : SDoc)
    (hwf : wfDocB E d = true) :
    RevB.Decode E strict (serializeDoc d) = .ok (docOfB E d) ∧
    ∀ (a : List Attr) (pis : List PItem) (sp : String) (ea : List Attr)
      (body : GForest) (post : List PItem),
      (∀ i ∈ post, ∀ sp2 a2 b2, i ≠ PItem.exts sp2 a2 b2) →
      (pointOfB E a (pis ++ .exts sp ea body :: post)).Extensions = serializeF body ∧
      balancedToks (serializeF body) = true ∧
      (serializeF body).length =
        (serializeF body).countP isStartTok + (serializeF body).countP isCloseTok +
        (serializeF body).countP isTextTok + (serializeF body).countP isOtherTok := by
  refine ⟨decode_serB E strict d hwf, ?_⟩
  intro a pis sp ea body post hpost
  exact ⟨pointOfB_exts_last E a pis sp ea body post hpost, balanced_serializeF body,
    length_countP_partition (serializeF body)⟩

/-- Witness for C6 amended at the concrete docW: its point has children
ele, time, extensions (the Garmin envelope) and one unknown child after
the extensions. -/
theorem c6_buffer_exact_witness :
    wfDocB E0 docW = true ∧
    (RevB.Decode E0 true (serializeDoc docW) = .ok (docOfB E0 docW) ∧
     ((pointOfB E0 [(⟨"", "lat"⟩, "49.0"), (⟨"", "lon"⟩, "11.0")]
         ([.ele nsGPX11 [] (.cons (.txt "350.5") .nil),
           .time nsGPX11 [] (.cons (.txt "2015-12-13T18:35:18Z") .nil)] ++
          .exts nsGPX11 []
            (.cons
              (.elem ⟨GarminTrackPointExtensionNS, "TrackPointExtension"⟩ []
                (.cons (.elem ⟨GarminTrackPointExtensionNS, "hr"⟩ []
                  (.cons (.txt "142") .nil)) .nil))
              .nil) :: [.skip (.misc " note ")])).Extensions =
       serializeF
         (.cons
           (.elem ⟨GarminTrackPointExtensionNS, "TrackPointExtension"⟩ []
             (.cons (.elem ⟨GarminTrackPointExtensionNS, "hr"⟩ []
               (.cons (.txt "142") .nil)) .nil))
           .nil) ∧
      balancedToks (serializeF
         (.cons
           (.elem ⟨GarminTrackPointExtensionNS, "TrackPointExtension"⟩ []
             (.cons (.elem ⟨GarminTrackPointExtensionNS, "hr"⟩ []
               (.cons (.txt "142") .nil)) .nil))
           .nil)) = true ∧
      (serializeF
         (.cons
           (.elem ⟨GarminTrackPointExtensionNS, "TrackPointExtension"⟩ []
             (.cons (.elem ⟨GarminTrackPointExtensionNS, "hr"⟩ []
               (.cons (.txt "142") .nil)) .nil))
           .nil)).length =
        (serializeF
           (.cons
             (.elem ⟨GarminTrackPointExtensionNS, "TrackPointExtension"⟩ []
               (.cons (.elem ⟨GarminTrackPointExtensionNS, "hr"⟩ []
                 (.cons (.txt "142") .nil)) .nil))
             .nil)).countP isStartTok +
        (serializeF
           (.cons
             (.elem ⟨GarminTrackPointExtensionNS, "TrackPointExtension"⟩ []
               (.cons (.elem ⟨GarminTrackPointExtensionNS, "hr"⟩ []
                 (.cons (.txt "142") .nil)) .nil))
             .nil)).countP isCloseTok +
        (serializeF
           (.cons
             (.elem ⟨GarminTrackPointExtensionNS, "TrackPointExtension"⟩ []
               (.cons (.elem ⟨GarminTrackPointExtensionNS, "hr"⟩ []
                 (.cons (.txt "142") .nil)) .nil))
             .nil)).countP isTextTok +
        (serializeF
           (.cons
             (.elem ⟨GarminTrackPointExtensionNS, "TrackPointExtension"⟩ []
               (.cons (.elem ⟨GarminTrackPointExtensionNS, "hr"⟩ []
                 (.cons (.txt "142") .nil)) .nil))
             .nil)).countP isOtherTok)) :=
  ⟨by decide,
   (c6_buffer_exact E0 true docW (by decide)).1,
   (c6_buffer_exact E0 true docW (by decide)).2
     [(⟨"", "lat"⟩, "49.0"), (⟨"", "lon"⟩, "11.0")]
     [.ele nsGPX11 [] (.cons (.txt "350.5") .nil),
      .time nsGPX11 [] (.cons (.txt "2015-12-13T18:35:18Z") .nil)]
     nsGPX11 []
     (.cons
       (.elem ⟨GarminTrackPointExtensionNS, "TrackPointExtension"⟩ []
         (.cons (.elem ⟨GarminTrackPointExtensionNS, "hr"⟩ []
           (.cons (.txt "142") .nil)) .nil))
       .nil)
     [.skip (.misc " note ")]
     (by
       intro i hi sp2 a2 b2 heq
       rw [List.mem_singleton] at hi
       subst hi
       exact PItem.noConfusion heq)⟩

/-- C2: the claim fails against the code.  sliceTokener.Token evaluates
t.tokens[0] BEFORE its nil check, so once the scan reaches the end of a
captured buffer - which holds no nil entry, the extensions capture loop
only stores real tokens - the next Token call indexes an empty slice and
panics at runtime instead of returning the distinct ErrNoSuchExtension.
An empty (or nil) buffer panics immediately, and a buffer without the
Garmin envelope panics when the scan runs off its end; the io.EOF path
that would surface ErrNoSuchExtension is only reachable from a buffer
containing a literal nil token, which no captured buffer contains. -/
theorem c2_token_panic_bug :
    ParseGarminTrackPointExtension E0 [] = .error .panicked ∧
    ParseGarminTrackPointExtension E0
      [.start ⟨"x", "foo"⟩ [], .close ⟨"x", "foo"⟩] = .error .panicked ∧
    ExtErr.panicked ≠ ExtErr.noSuchExtension := by
  refine ⟨?_, ?_, by decide⟩
  · rw [ParseGarminTrackPointExtension]
    have h : findExtension GarminTrackPointExtensionNS "TrackPointExtension"
        (([] : List XTok).map some) = .panicked := by
      rw [show (([] : List XTok).map some) = ([] : List (Option XTok)) from rfl]
      rw [findExtension]
    rw [h]
  · rw [ParseGarminTrackPointExtension]
    have h : findExtension GarminTrackPointExtensionNS "TrackPointExtension"
        (([.start ⟨"x", "foo"⟩ [], .close ⟨"x", "foo"⟩] : List XTok).map some) = .panicked := by
      rw [show (([.start ⟨"x", "foo"⟩ [], .close ⟨"x", "foo"⟩] : List XTok).map some) =
        [some (.start ⟨"x", "foo"⟩ []), some (.close ⟨"x", "foo"⟩)] from rfl]
      rw [findExtension]
      rw [if_neg (by rintro ⟨hsp, h2⟩; simp [GarminTrackPointExtensionNS] at hsp)]
      rw [sliceSkipTag]
      rw [if_pos (show (0 : Nat) = 0 from rfl)]
      have h0 : findExtension GarminTrackPointExtensionNS "TrackPointExtension"
          ([] : List (Option XTok)) = .panicked := by
        rw [findExtension]
      exact h0
    rw [h]

/-- C8: a nested start element inside a leaf (ele or time) where only
character data is expected aborts the whole decode in BOTH strictness
modes, in both embedded revisions: RevB surfaces the consumeString error
(unexpected element while reading string), RevD its invalid-element
errors.  The surrounding context is any strongly well-formed prefix at
every level; the leaf may hold any character data (parsing, so that the
failure is attributable to the nested element alone) before the offending
start element. -/
theorem c8_nested_leaf_fatal (E : Parsers) (strict : Bool) (rootAttrs : List Attr)
    (gPre : List GItem) (spT : String) (aT : List Attr) (tPre : List TItem)
    (spS : String) (aS : List Attr) (sPre : List SItem) (spP : String) (pAttrs : List Attr)
    (pPre : List PItem) (spL : String) (aL : List Attr) (txtF : GForest)
    (nB : XName) (aB : List Attr) (junk : List XTok)
    (hg : gPre.all (wfGItemS E) = true) (ht : tPre.all (wfTItemS E) = true)
    (hs : sPre.all (wfSItemS E) = true) (hla : latlonOk E pAttrs = true)
    (hp : pPre.all (wfPItemS E) = true) (htxt : allTextF txtF = true)
    (hpf : allParseFloatF E txtF = true) (hpt : allParseTimeF E txtF = true) :
    (RevB.Decode E strict
      (.start ⟨nsGPX11, "gpx"⟩ rootAttrs ::
        (serializeGItems gPre ++ .start ⟨spT, "trk"⟩ aT ::
          (serializeTItems tPre ++ .start ⟨spS, "trkseg"⟩ aS ::
            (serializeSItems sPre ++ .start ⟨spP, "trkpt"⟩ pAttrs ::
              (serializePItems pPre ++
                (.start ⟨spL, "ele"⟩ aL :: (serializeF txtF ++ .start nB aB :: junk))))))) =
      .error .unexpectedElement) ∧
    (RevB.Decode E strict
      (.start ⟨nsGPX11, "gpx"⟩ rootAttrs ::
        (serializeGItems gPre ++ .start ⟨spT, "trk"⟩ aT ::
          (serializeTItems tPre ++ .start ⟨spS, "trkseg"⟩ aS ::
            (serializeSItems sPre ++ .start ⟨spP, "trkpt"⟩ pAttrs ::
              (serializePItems pPre ++
                (.start ⟨spL, "time"⟩ aL :: (serializeF txtF ++ .start nB aB :: junk))))))) =
      .error .unexpectedElement) ∧
    (RevD.Decode E strict
      (.start ⟨nsGPX11, "gpx"⟩ rootAttrs ::
        (serializeGItems gPre ++ .start ⟨spT, "trk"⟩ aT ::
          (serializeTItems tPre ++ .start ⟨spS, "trkseg"⟩ aS ::
            (serializeSItems sPre ++ .start ⟨spP, "trkpt"⟩ pAttrs ::
              (serializePItems pPre ++
                (.start ⟨spL, "ele"⟩ aL :: (serializeF txtF ++ .start nB aB :: junk))))))) =
      .error .invalidEleElem) ∧
    (RevD.Decode E strict
      (.start ⟨nsGPX11, "gpx"⟩ rootAttrs ::
        (serializeGItems gPre ++ .start ⟨spT, "trk"⟩ aT ::
          (serializeTItems tPre ++ .start ⟨spS, "trkseg"⟩ aS ::
            (serializeSItems sPre ++ .start ⟨spP, "trkpt"⟩ pAttrs ::
              (serializePItems pPre ++
                (.start ⟨spL, "time"⟩ aL :: (serializeF txtF ++ .start nB aB :: junk))))))) =
      .error .invalidTimeElem) := by
  obtain ⟨hgB, hgD, _, _⟩ := wfGItemsS_split E gPre hg
  obtain ⟨htB, htD, _⟩ := wfTItemsS_split E tPre ht
  obtain ⟨hsB, hsD, _⟩ := wfSItemsS_split E sPre hs
  obtain ⟨hpB, hpD, _⟩ := wfPItemsS_split E pPre hp
  refine ⟨?_, ?_, ?_, ?_⟩
  · exact decodeB_fail_point E strict rootAttrs gPre spT aT tPre spS aS sPre spP pAttrs
      pPre (.start ⟨spL, "ele"⟩ aL :: (serializeF txtF ++ .start nB aB :: junk))
      .unexpectedElement hgB htB hsB hla hpB
      (pointLoop_eleNested_B E _ spL aL txtF nB aB junk htxt)
  · exact decodeB_fail_point E strict rootAttrs gPre spT aT tPre spS aS sPre spP pAttrs
      pPre (.start ⟨spL, "time"⟩ aL :: (serializeF txtF ++ .start nB aB :: junk))
      .unexpectedElement hgB htB hsB hla hpB
      (pointLoop_timeNested_B E _ spL aL txtF nB aB junk htxt)
  · exact decodeD_fail_point E strict rootAttrs gPre spT aT tPre spS aS sPre spP pAttrs
      pPre (.start ⟨spL, "ele"⟩ aL :: (serializeF txtF ++ .start nB aB :: junk))
      .invalidEleElem (hgD strict) (htD strict) (hsD strict) hla (hpD strict)
      (pointLoop_eleNested_D E strict _ spL aL txtF nB aB junk htxt (fun _ => hpf))
  · exact decodeD_fail_point E strict rootAttrs gPre spT aT tPre spS aS sPre spP pAttrs
      pPre (.start ⟨spL, "time"⟩ aL :: (serializeF txtF ++ .start nB aB :: junk))
      .invalidTimeElem (hgD strict) (htD strict) (hsD strict) hla (hpD strict)
      (pointLoop_timeNested_D E strict _ spL aL txtF nB aB junk htxt (fun _ => hpt))

/-- Witness for C8: a minimal concrete document whose ele (resp. time)
leaf holds a nested element, in lenient mode - the failure is fatal even
there. -/
theorem c8_nested_leaf_fatal_witness :
    allTextF .nil = true ∧
    ((RevB.Decode E0 false
      (.start ⟨nsGPX11, "gpx"⟩ [] ::
        (serializeGItems [] ++ .start ⟨nsGPX11, "trk"⟩ [] ::
          (serializeTItems [] ++ .start ⟨nsGPX11, "trkseg"⟩ [] ::
            (serializeSItems [] ++ .start ⟨nsGPX11, "trkpt"⟩ [] ::
              (serializePItems [] ++
                (.start ⟨nsGPX11, "ele"⟩ [] ::
                  (serializeF .nil ++ .start ⟨nsGPX11, "bad"⟩ [] :: []))))))) =
      .error .unexpectedElement) ∧
    (RevB.Decode E0 false
      (.start ⟨nsGPX11, "gpx"⟩ [] ::
        (serializeGItems [] ++ .start ⟨nsGPX11, "trk"⟩ [] ::
          (serializeTItems [] ++ .start ⟨nsGPX11, "trkseg"⟩ [] ::
            (serializeSItems [] ++ .start ⟨nsGPX11, "trkpt"⟩ [] ::
              (serializePItems [] ++
                (.start ⟨nsGPX11, "time"⟩ [] ::
                  (serializeF .nil ++ .start ⟨nsGPX11, "bad"⟩ [] :: []))))))) =
      .error .unexpectedElement) ∧
    (RevD.Decode E0 false
      (.start ⟨nsGPX11, "gpx"⟩ [] ::
        (serializeGItems [] ++ .start ⟨nsGPX11, "trk"⟩ [] ::
          (serializeTItems [] ++ .start ⟨nsGPX11, "trkseg"⟩ [] ::
            (serializeSItems [] ++ .start ⟨nsGPX11, "trkpt"⟩ [] ::
              (serializePItems [] ++
                (.start ⟨nsGPX11, "ele"⟩ [] ::
                  (serializeF .nil ++ .start ⟨nsGPX11, "bad"⟩ [] :: []))))))) =
      .error .invalidEleElem) ∧
    (RevD.Decode E0 false
      (.start ⟨nsGPX11, "gpx"⟩ [] ::
        (serializeGItems [] ++ .start ⟨nsGPX11, "trk"⟩ [] ::
          (serializeTItems [] ++ .start ⟨nsGPX11, "trkseg"⟩ [] ::
            (serializeSItems [] ++ .start ⟨nsGPX11, "trkpt"⟩ [] ::
              (serializePItems [] ++
                (.start ⟨nsGPX11, "time"⟩ [] ::
                  (serializeF .nil ++ .start ⟨nsGPX11, "bad"⟩ [] :: []))))))) =
      .error .invalidTimeElem)) :=
  ⟨by decide,
   c8_nested_leaf_fatal E0 false [] [] nsGPX11 [] [] nsGPX11 [] [] nsGPX11 [] []
     nsGPX11 [] .nil ⟨nsGPX11, "bad"⟩ [] []
     (by decide) (by decide) (by decide) (by decide) (by decide) (by decide)
     (by decide) (by decide)⟩

/-- C10: apart from the namespace check on the root gpx element, the RevB
decoder matches every element by local name only and reads the lat, lon
and version attributes whatever their namespace: renaming every namespace
in the body and in the attributes (the root element keeping the GPX 1.1
namespace so the root check passes) changes the decoded Document only by
the same renaming of the captured extension buffers - every metadata,
trk, trkseg, trkpt, ele, time and extensions element is still recognized
and decoded, and failures are unchanged. -/
theorem c10_local_name_only (f : String → String) (E : Parsers) (strict : Bool)
    (pre : List XTok) (a : List Attr) (l : List XTok)
    (hpre : ∀ t ∈ pre, isStartTok t = false) :
    RevB.Decode E strict
      (mapToks f pre ++ .start ⟨nsGPX11, "gpx"⟩ (mapAttrs f a) :: mapToks f l) =
      match RevB.Decode E strict (pre ++ .start ⟨nsGPX11, "gpx"⟩ a :: l) with
      | .ok doc => .ok (mapDocSp f doc)
      | .error e => .error e := by
  have hpre2 : ∀ t ∈ mapToks f pre, isStartTok t = false := by
    intro t ht
    rw [mapToks] at ht
    obtain ⟨u, hu, rfl⟩ := List.mem_map.mp ht
    rw [isStartTok_map]
    exact hpre u hu
  have hskip : ∀ (pre2 l2 : List XTok), (∀ t ∈ pre2, isStartTok t = false) →
      RevB.Decode E strict (pre2 ++ l2) = RevB.Decode E strict l2 := by
    intro pre2 l2 h2
    rw [RevB.Decode, RevB.Decode, findGPX_skip pre2 l2 h2]
  rw [hskip (mapToks f pre) _ hpre2, hskip pre _ hpre]
  exact decodeB_map f E strict a l

/-- Witness for C10: the concrete renaming sending every namespace to
urn:other, applied to the serialized body of docW behind a leading
character data token. -/
theorem c10_local_name_only_witness :
    (∀ t ∈ [XTok.text "x"], isStartTok t = false) ∧
    RevB.Decode E0 true
      (mapToks renameW [XTok.text "x"] ++
        .start ⟨nsGPX11, "gpx"⟩ (mapAttrs renameW [(⟨"", "version"⟩, "1.1")]) ::
        mapToks renameW (serializeGItems docW.items ++ [.close ⟨nsGPX11, "gpx"⟩])) =
      match RevB.Decode E0 true
        ([XTok.text "x"] ++ .start ⟨nsGPX11, "gpx"⟩ [(⟨"", "version"⟩, "1.1")] ::
          (serializeGItems docW.items ++ [.close ⟨nsGPX11, "gpx"⟩])) with
      | .ok doc => .ok (mapDocSp renameW doc)
      | .error e => .error e :=
  ⟨by decide,
   c10_local_name_only renameW E0 true [XTok.text "x"] [(⟨"", "version"⟩, "1.1")]
     (serializeGItems docW.items ++ [.close ⟨nsGPX11, "gpx"⟩]) (by decide)⟩
